import Mathlib

/-!
# Raicoin pull-syncer (`rai/node/syncer.cpp`)

A shallow embedding of `rai::Syncer` and a verification of the behaviour its
specification describes.

Modelling conventions.

* `rai::Account` and `rai::BlockHash` are 256-bit values; they are embedded as
  natural numbers, the zero value being `0`.
* `uint64_t` and `uint32_t` values are natural numbers; every increment the
  source performs on a `uint64_t` is reduced modulo `2 ^ 64`.
* `std::unordered_map` is embedded as an association list.  An entry is
  inserted at the head, and only when its key is absent, so a key occurs at
  most once in every list the syncer builds; iteration order is never observed
  by the code that is embedded.  Erasing and assigning act on every entry
  under the key, which is the one entry the map has.
* The mutex only serialises the methods; every method is embedded as one
  atomic state transformer.
* Calls on the collaborators of the syncer (`node_.block_queries_`,
  `node_.block_processor_`) are recorded, in order, in the `calls_` field of
  the state.
* The ledger that `SyncRelated` and `SyncAccount` read is a parameter
  (`Node`).
* `assert` is compiled out (release build): it has no effect on the state.
  Where a property depends on the assertions, the calls are restricted to
  those that satisfy them (`Op.asserted`).
* A `std::shared_ptr<rai::Block>` is embedded as the block it points to.
-/

namespace rai

/-! ## Values -/

/-- Number of values of a `uint64_t`. -/
def UINT64_MOD : Nat := 2 ^ 64

abbrev Account := Nat

abbrev BlockHash := Nat

/-- The method `IsZero` of `rai::BlockHash`. -/
def BlockHash.IsZero (h : BlockHash) : Bool := h == 0

/-- Status of a per-account sync, `rai::SyncStatus`. -/
inductive SyncStatus where
  | QUERY
  | PROCESS
  deriving DecidableEq, Repr

/-- Status of a peer answer, `rai::QueryStatus`.  The enumerators the source
names are listed; `OTHER` stands for every remaining enumerator. -/
inductive QueryStatus where
  | SUCCESS
  | MISS
  | FORK
  | PRUNED
  | TIMEOUT
  | OTHER
  deriving DecidableEq, Repr

/-- What a query callback tells the query engine, `rai::QueryCallbackStatus`. -/
inductive QueryCallbackStatus where
  | CONTINUE
  | FINISH
  deriving DecidableEq, Repr

/-- Operation reported by the block processor, `rai::BlockOperation`; `OTHER`
stands for every enumerator except `APPEND` and `DROP`. -/
inductive BlockOperation where
  | APPEND
  | DROP
  | OTHER
  deriving DecidableEq, Repr

/-- Error code reported by the block processor, `rai::ErrorCode`; `OTHER`
stands for every enumerator the source does not name. -/
inductive ErrorCode where
  | SUCCESS
  | BLOCK_PROCESS_EXISTS
  | BLOCK_PROCESS_GAP_RECEIVE_SOURCE
  | BLOCK_PROCESS_GAP_REWARD_SOURCE
  | BLOCK_PROCESS_UNREWARDABLE
  | OTHER
  deriving DecidableEq, Repr

/-- Opcode of a block, `rai::BlockOpcode`; `OTHER` stands for every enumerator
except `SEND` and `CHANGE`. -/
inductive BlockOpcode where
  | SEND
  | CHANGE
  | OTHER
  deriving DecidableEq, Repr

/-- The observers of `rai::Block` that the syncer calls. -/
structure Block where
  Account : Nat
  Hash : Nat
  Height : Nat
  Previous : Nat
  Link : Nat
  Opcode : BlockOpcode
  HasRepresentative : Bool
  Representative : Nat
  deriving DecidableEq, Repr

/-- Result of processing a block, `rai::BlockProcessResult`. -/
structure BlockProcessResult where
  operation_ : BlockOperation
  error_code_ : ErrorCode
  deriving DecidableEq, Repr

/-- One peer answer, `rai::QueryAck`. -/
structure QueryAck where
  status_ : QueryStatus
  block_ : Block
  deriving DecidableEq, Repr

/-- Per-account sync state, `rai::SyncInfo`. -/
structure SyncInfo where
  status_ : SyncStatus
  first_ : Bool
  batch_id_ : Nat
  height_ : Nat
  previous_ : BlockHash
  current_ : BlockHash
  deriving DecidableEq, Repr

/-- Counters of the syncer, `rai::SyncStat`. -/
structure SyncStat where
  total_ : Nat
  miss_ : Nat
  deriving DecidableEq, Repr

/-- The method `Reset` of `rai::SyncStat`. -/
def SyncStat.Reset (_ : SyncStat) : SyncStat :=
  { total_ := 0, miss_ := 0 }

/-- State captured by the closure that `QueryCallbackByAccount_` returns:
`[node_w, account, query_id, count = 0]`. -/
structure AccountCallback where
  account : Account
  query_id : Nat
  count : Nat
  deriving DecidableEq, Repr

/-- State captured by the closure that `QueryCallbackByHash_` returns:
`[node_w, query_id, count = 0]`. -/
structure HashCallback where
  query_id : Nat
  count : Nat
  deriving DecidableEq, Repr

/-- A call the syncer makes on one of its collaborators. -/
inductive Call where
  | QueryByHeight (account : Account) (height : Nat) (priority : Bool)
      (callback : AccountCallback)
  | QueryByPrevious (account : Account) (height : Nat) (previous : BlockHash)
      (priority : Bool) (callback : AccountCallback)
  | QueryByHash (account : Account) (height : Nat) (hash : BlockHash)
      (priority : Bool) (callback : HashCallback)
  | BlockProcessorAdd (block : Block)
  deriving DecidableEq, Repr

/-! ## Association lists -/

/-- The method `find` of an unordered map: the value stored under `k`. -/
def mapFind {β : Type} (k : Nat) : List (Nat × β) → Option β
  | [] => none
  | e :: t => if e.1 = k then some e.2 else mapFind k t

/-- The method `erase` of an unordered map: no entry is left under `k`. -/
def mapErase {β : Type} (k : Nat) (m : List (Nat × β)) : List (Nat × β) :=
  m.filter (fun e => decide (e.1 ≠ k))

/-- Assignment through an iterator that `find k` returned: the value stored
under `k` becomes `f` of it. -/
def mapModify {β : Type} (k : Nat) (f : β → β) (m : List (Nat × β)) :
    List (Nat × β) :=
  m.map (fun e => if e.1 = k then (e.1, f e.2) else e)

/-- Insertion of a key that `find` did not find. -/
def mapInsert {β : Type} (k : Nat) (v : β) (m : List (Nat × β)) :
    List (Nat × β) :=
  (k, v) :: m

/-! ## The node and the syncer -/

/-- The method `AccountInfoGet` of the ledger yields `rai::AccountInfo`; the
syncer reads its head and asks whether it is `Valid`. -/
structure AccountInfo where
  head_height_ : Nat
  head_ : BlockHash
  Valid : Bool

/-- The method `RewardableInfoGet` of the ledger yields
`rai::RewardableInfo`. -/
structure RewardableInfo where
  valid_timestamp_ : Nat

/-- What the syncer reads from the node it belongs to.  A ledger getter yields
`none` where the source getter returns `true` (error). -/
structure Node where
  /-- The constant `rai::Syncer::DEFAULT_BATCH_ID`. -/
  DEFAULT_BATCH_ID : Nat
  /-- The constant `rai::Syncer::BUSY_SIZE`. -/
  BUSY_SIZE : Nat
  /-- The constant `rai::Block::INVALID_HEIGHT`. -/
  INVALID_HEIGHT : Nat
  /-- Whether the constructor of `rai::Transaction` reports an error. -/
  TransactionError : Bool
  AccountInfoGet : Account → Option AccountInfo
  BlockGet : BlockHash → Option Block
  RewardableInfoGet : Account → BlockHash → Option RewardableInfo
  CurrentTimestamp : Nat

/-- The data members of `rai::Syncer`, and the calls made so far. -/
structure Syncer where
  stat_ : SyncStat
  syncs_ : List (Account × SyncInfo)
  current_query_id_ : Nat
  queries_ : List (Nat × Nat)
  calls_ : List Call
  deriving DecidableEq, Repr

/-- The constructor of `rai::Syncer`. -/
def Syncer.init : Syncer :=
  { stat_ := { total_ := 0, miss_ := 0 }, syncs_ := [], current_query_id_ := 0,
    queries_ := [], calls_ := [] }

/-- Record a call on a collaborator. -/
def Syncer.call (s : Syncer) (c : Call) : Syncer :=
  { s with calls_ := s.calls_ ++ [c] }

/-- The loop of `AddQuery`.  `query_id` is the candidate, `current` the
counter after the post-increment that produced it.  The result is the id that
is free and the counter at that moment; `none` when `fuel` iterations did not
find a free id. -/
def AddQuery_loop : Nat → List (Nat × Nat) → Nat → Nat → Option (Nat × Nat)
  | 0, _, _, _ => none
  | fuel + 1, queries, query_id, current =>
    match mapFind query_id queries with
    | some _ => AddQuery_loop fuel queries current ((current + 1) % UINT64_MOD)
    | none => some (query_id, current)

/-- `rai::Syncer::AddQuery`.  The counter has `2 ^ 64` values, so the loop
either finds a free id within `2 ^ 64` iterations or never does: `none`
stands for the second case. -/
def AddQuery (s : Syncer) (batch_id : Nat) : Option (Nat × Syncer) :=
  match AddQuery_loop UINT64_MOD s.queries_ s.current_query_id_
      ((s.current_query_id_ + 1) % UINT64_MOD) with
  | none => none
  | some (query_id, current) =>
    some (query_id, { s with current_query_id_ := current,
                             queries_ := mapInsert query_id batch_id s.queries_ })

/-- `rai::Syncer::BatchId`. -/
def BatchId (node : Node) (s : Syncer) (query_id : Nat) : Nat :=
  match mapFind query_id s.queries_ with
  | some batch_id => batch_id
  | none => node.DEFAULT_BATCH_ID

/-- `rai::Syncer::Busy`. -/
def Busy (node : Node) (s : Syncer) : Bool :=
  decide (s.syncs_.length ≥ node.BUSY_SIZE)

/-- `rai::Syncer::Empty`. -/
def Empty (s : Syncer) : Bool :=
  decide (s.syncs_.length = 0)

/-- `rai::Syncer::Erase`. -/
def Erase (s : Syncer) (account : Account) : Syncer :=
  match mapFind account s.syncs_ with
  | some _ => { s with syncs_ := mapErase account s.syncs_ }
  | none => s

/-- `rai::Syncer::EraseQuery`. -/
def EraseQuery (s : Syncer) (query_id : Nat) : Syncer :=
  { s with queries_ := mapErase query_id s.queries_ }

/-- `rai::Syncer::Exists`. -/
def Exists (s : Syncer) (account : Account) : Bool :=
  (mapFind account s.syncs_).isSome

/-- `rai::Syncer::Finished`. -/
def Finished (s : Syncer) (batch_id : Nat) : Bool :=
  if s.syncs_.any (fun i => decide (i.2.batch_id_ = batch_id)) then false
  else if s.queries_.any (fun i => decide (i.2 = batch_id)) then false
  else true

/-- `rai::Syncer::Stat`. -/
def Stat (s : Syncer) : SyncStat := s.stat_

/-- `rai::Syncer::ResetStat`. -/
def ResetStat (s : Syncer) : Syncer :=
  { s with stat_ := s.stat_.Reset,
           syncs_ := s.syncs_.map (fun it => (it.1, { it.2 with first_ := false })) }

/-- `rai::Syncer::Size`. -/
def Size (s : Syncer) : Nat := s.syncs_.length

/-- `rai::Syncer::Queries`. -/
def Queries (s : Syncer) : Nat := s.queries_.length

/-- `rai::Syncer::Add_`: the flag is `true` when the account is pending. -/
def Add_ (s : Syncer) (account : Account) (info : SyncInfo) : Bool × Syncer :=
  match mapFind account s.syncs_ with
  | some _ => (true, s)
  | none => (false, { s with syncs_ := mapInsert account info s.syncs_ })

/-- `rai::Syncer::QueryCallbackByAccount_`: the closure as created. -/
def QueryCallbackByAccount_ (account : Account) (query_id : Nat) :
    AccountCallback :=
  { account := account, query_id := query_id, count := 0 }

/-- `rai::Syncer::QueryCallbackByHash_`: the closure as created. -/
def QueryCallbackByHash_ (_hash : BlockHash) (query_id : Nat) : HashCallback :=
  { query_id := query_id, count := 0 }

/-- `rai::Syncer::BlockQuery_`, the overload for an account. -/
def BlockQuery_ (s : Syncer) (account : Account) (info : SyncInfo)
    (batch_id : Nat) : Option Syncer :=
  match AddQuery s batch_id with
  | none => none
  | some (query_id, s1) =>
    if info.height_ = 0 ∨ info.previous_.IsZero = true then
      some (s1.call (Call.QueryByHeight account info.height_ false
        (QueryCallbackByAccount_ account query_id)))
    else
      some (s1.call (Call.QueryByPrevious account info.height_ info.previous_
        false (QueryCallbackByAccount_ account query_id)))

/-- `rai::Syncer::BlockQuery_`, the overload for a block hash. -/
def BlockQuery_hash (node : Node) (s : Syncer) (hash : BlockHash)
    (batch_id : Nat) : Option Syncer :=
  match AddQuery s batch_id with
  | none => none
  | some (query_id, s1) =>
    some (s1.call (Call.QueryByHash 0 node.INVALID_HEIGHT hash true
      (QueryCallbackByHash_ hash query_id)))

/-- `rai::Syncer::Add`, the overload with `previous`. -/
def Add (s : Syncer) (account : Account) (height : Nat) (previous : BlockHash)
    (stat : Bool) (batch_id : Nat) : Option Syncer :=
  let info : SyncInfo :=
    { status_ := SyncStatus.QUERY, first_ := stat, batch_id_ := batch_id,
      height_ := height, previous_ := previous, current_ := 0 }
  match Add_ s account info with
  | (true, _) => some s
  | (false, s1) =>
    let s2 : Syncer :=
      if stat then
        { s1 with stat_ := { s1.stat_ with
                             total_ := (s1.stat_.total_ + 1) % UINT64_MOD } }
      else s1
    BlockQuery_ s2 account info batch_id

/-- `rai::Syncer::Add`, the overload without `previous`. -/
def Add_height (s : Syncer) (account : Account) (height : Nat) (stat : Bool)
    (batch_id : Nat) : Option Syncer :=
  Add s account height 0 stat batch_id

/-- `rai::Syncer::SyncAccount`. -/
def SyncAccount (node : Node) (s : Syncer) (account : Account)
    (batch_id : Nat) : Option Syncer :=
  match node.AccountInfoGet account with
  | none => Add_height s account 0 false batch_id
  | some account_info =>
    if !account_info.Valid then Add_height s account 0 false batch_id
    else Add s account ((account_info.head_height_ + 1) % UINT64_MOD)
      account_info.head_ false batch_id

/-- `rai::Syncer::SyncRelated`. -/
def SyncRelated (node : Node) (s : Syncer) (block : Block) (batch_id : Nat) :
    Option Syncer :=
  if !block.HasRepresentative && decide (block.Opcode ≠ BlockOpcode.SEND) then
    some s
  else if node.TransactionError then some s
  else
    match (if block.Opcode = BlockOpcode.SEND then
        SyncAccount node s block.Link batch_id else some s) with
    | none => none
    | some s1 =>
      if block.HasRepresentative && decide (block.Height > 0) then
        match (if block.Opcode = BlockOpcode.CHANGE then
            (node.BlockGet block.Previous).map (fun previous => previous.Representative)
          else some block.Representative) with
        | none => some s1
        | some rep =>
          match node.RewardableInfoGet rep block.Previous with
          | none => some s1
          | some info =>
            if info.valid_timestamp_ > node.CurrentTimestamp then some s1
            else SyncAccount node s1 rep batch_id
      else some s1

/-- The locals of `ProcessorCallback` that outlive its locked block. -/
structure ProcessorLocals where
  info : SyncInfo
  batch_id : Nat
  query : Bool
  source_miss : Bool
  sync_related : Bool

/-- The locked block of `rai::Syncer::ProcessorCallback`.  The second
component is `none` where the block executes `return`.  On the path that sets
`source_miss` the source leaves `info` unassigned and does not read it
afterwards; the entry found stands in for it. -/
def ProcessorCallback_locked (s : Syncer) (result : BlockProcessResult)
    (block : Block) :
    Syncer × Option ProcessorLocals :=
  match mapFind block.Account s.syncs_ with
  | none => (s, none)
  | some it =>
    if it.status_ ≠ SyncStatus.PROCESS then (s, none)
    else if it.current_ ≠ block.Hash then (s, none)
    else if result.operation_ = BlockOperation.DROP then
      let f : SyncInfo → SyncInfo := fun i =>
        { i with status_ := SyncStatus.QUERY, current_ := 0 }
      ({ s with syncs_ := mapModify block.Account f s.syncs_ },
       some { info := f it, batch_id := (f it).batch_id_, query := true,
              source_miss := false, sync_related := false })
    else if result.error_code_ = ErrorCode.SUCCESS
        ∨ result.error_code_ = ErrorCode.BLOCK_PROCESS_EXISTS then
      let f : SyncInfo → SyncInfo := fun i =>
        { i with status_ := SyncStatus.QUERY, current_ := 0,
                 height_ := (block.Height + 1) % UINT64_MOD,
                 previous_ := block.Hash }
      ({ s with syncs_ := mapModify block.Account f s.syncs_ },
       some { info := f it, batch_id := (f it).batch_id_, query := true,
              source_miss := false, sync_related := true })
    else if result.error_code_ = ErrorCode.BLOCK_PROCESS_GAP_RECEIVE_SOURCE
        ∨ result.error_code_ = ErrorCode.BLOCK_PROCESS_GAP_REWARD_SOURCE
        ∨ result.error_code_ = ErrorCode.BLOCK_PROCESS_UNREWARDABLE then
      ({ s with syncs_ := mapErase block.Account s.syncs_ },
       some { info := it, batch_id := it.batch_id_, query := false,
              source_miss := true, sync_related := false })
    else
      ({ s with syncs_ := mapErase block.Account s.syncs_ }, none)

/-- `rai::Syncer::ProcessorCallback`. -/
def ProcessorCallback (node : Node) (s : Syncer) (result : BlockProcessResult)
    (block : Block) : Option Syncer :=
  if result.operation_ ≠ BlockOperation.APPEND
      ∧ result.operation_ ≠ BlockOperation.DROP then some s
  else
    match ProcessorCallback_locked s result block with
    | (s1, none) => some s1
    | (s1, some l) =>
      match (if l.query then BlockQuery_ s1 block.Account l.info l.batch_id
          else some s1) with
      | none => none
      | some s2 =>
        match (if l.source_miss then BlockQuery_hash node s2 block.Link l.batch_id
            else some s2) with
        | none => none
        | some s3 =>
          if l.sync_related then SyncRelated node s3 block l.batch_id
          else some s3

/-- `rai::Syncer::QueryCallback`. -/
def QueryCallback (s : Syncer) (account : Account) (status : QueryStatus)
    (block : Block) : Syncer :=
  match mapFind account s.syncs_ with
  | none => s
  | some it =>
    if it.status_ ≠ SyncStatus.QUERY then s
    else if status = QueryStatus.MISS then
      let s1 : Syncer :=
        if it.first_ then
          { s with stat_ := { s.stat_ with
                              miss_ := (s.stat_.miss_ + 1) % UINT64_MOD } }
        else s
      { s1 with syncs_ := mapErase account s1.syncs_ }
    else if status = QueryStatus.SUCCESS then
      let f : SyncInfo → SyncInfo := fun i =>
        { i with first_ := false, status_ := SyncStatus.PROCESS,
                 current_ := block.Hash }
      Syncer.call { s with syncs_ := mapModify account f s.syncs_ }
        (Call.BlockProcessorAdd block)
    else if status = QueryStatus.FORK then
      Syncer.call { s with syncs_ := mapErase account s.syncs_ }
        (Call.BlockProcessorAdd block)
    else
      { s with syncs_ := mapErase account s.syncs_ }

/-- One invocation of the closure that `QueryCallbackByAccount_` returns.
`alive` tells whether `node_w.lock()` yields the node; `result` is the vector
the closure appends to.  The counter `count` is an `int` in the source and is
embedded without a bound. -/
def AccountCallback.invoke (cb : AccountCallback) (alive : Bool) (s : Syncer)
    (acks : List QueryAck) (result : List QueryCallbackStatus) :
    AccountCallback × Syncer × List QueryCallbackStatus :=
  if !alive then
    (cb, s, result ++ List.replicate acks.length QueryCallbackStatus.FINISH)
  else
    match acks with
    | [ack] =>
      if ack.status_ = QueryStatus.FORK ∨ ack.status_ = QueryStatus.SUCCESS then
        (cb, EraseQuery (QueryCallback s cb.account ack.status_ ack.block_) cb.query_id,
         result ++ [QueryCallbackStatus.FINISH])
      else if ack.status_ = QueryStatus.MISS then
        let cb1 : AccountCallback := { cb with count := cb.count + 1 }
        if cb1.count ≥ 5 then
          (cb1, EraseQuery (QueryCallback s cb.account ack.status_ ack.block_) cb.query_id,
           result ++ [QueryCallbackStatus.FINISH])
        else
          (cb1, s, result ++ [QueryCallbackStatus.CONTINUE])
      else if ack.status_ = QueryStatus.PRUNED ∨ ack.status_ = QueryStatus.TIMEOUT then
        (cb, s, result ++ [QueryCallbackStatus.CONTINUE])
      else
        (cb, EraseQuery (Erase s cb.account) cb.query_id,
         result ++ [QueryCallbackStatus.FINISH])
    | _ =>
      (cb, EraseQuery (Erase s cb.account) cb.query_id,
       result ++ List.replicate acks.length QueryCallbackStatus.FINISH)

/-- Successive invocations of one by-account closure, the node being alive,
each with the single ack that is next in the list. -/
def AccountCallback.run (cb : AccountCallback) (s : Syncer)
    (result : List QueryCallbackStatus) :
    List QueryAck → AccountCallback × Syncer × List QueryCallbackStatus
  | [] => (cb, s, result)
  | ack :: rest =>
    match cb.invoke true s [ack] result with
    | (cb1, s1, result1) => AccountCallback.run cb1 s1 result1 rest

/-- One invocation of the closure that `QueryCallbackByHash_` returns, with
the same conventions as `AccountCallback.invoke`. -/
def HashCallback.invoke (cb : HashCallback) (alive : Bool) (node : Node)
    (s : Syncer) (acks : List QueryAck) (result : List QueryCallbackStatus) :
    Option (HashCallback × Syncer × List QueryCallbackStatus) :=
  if !alive then
    some (cb, s, result ++ List.replicate acks.length QueryCallbackStatus.FINISH)
  else
    match acks with
    | [ack] =>
      if ack.status_ = QueryStatus.SUCCESS then
        if node.TransactionError then
          some (cb, EraseQuery s cb.query_id, result ++ [QueryCallbackStatus.FINISH])
        else
          match SyncAccount node s ack.block_.Account (BatchId node s cb.query_id) with
          | none => none
          | some s1 =>
            some (cb, EraseQuery s1 cb.query_id, result ++ [QueryCallbackStatus.FINISH])
      else if ack.status_ = QueryStatus.MISS then
        let cb1 : HashCallback := { cb with count := cb.count + 1 }
        if cb1.count ≥ 5 then
          some (cb1, EraseQuery s cb.query_id, result ++ [QueryCallbackStatus.FINISH])
        else
          some (cb1, s, result ++ [QueryCallbackStatus.CONTINUE])
      else if ack.status_ = QueryStatus.TIMEOUT ∨ ack.status_ = QueryStatus.FORK
          ∨ ack.status_ = QueryStatus.PRUNED then
        some (cb, s, result ++ [QueryCallbackStatus.CONTINUE])
      else
        some (cb, EraseQuery s cb.query_id, result ++ [QueryCallbackStatus.FINISH])
    | _ =>
      some (cb, EraseQuery s cb.query_id,
        result ++ List.replicate acks.length QueryCallbackStatus.FINISH)

/-- Whether a call is a peer query for the chain of `account`. -/
def Call.isAccountQuery (account : Account) : Call → Bool
  | Call.QueryByHeight a _ _ _ => decide (a = account)
  | Call.QueryByPrevious a _ _ _ _ => decide (a = account)
  | Call.QueryByHash _ _ _ _ _ => false
  | Call.BlockProcessorAdd _ => false

/-! ## Sequences of operations -/

/-- A call of one of the state-changing methods of the syncer. -/
inductive Op where
  | Add (account : Account) (height : Nat) (previous : BlockHash) (stat : Bool)
      (batch_id : Nat)
  | AddQuery (batch_id : Nat)
  | Erase (account : Account)
  | EraseQuery (query_id : Nat)
  | QueryCallback (account : Account) (status : QueryStatus) (block : Block)
  | ProcessorCallback (node : Node) (result : BlockProcessResult) (block : Block)
  | ResetStat

/-- The state after one call, `none` when the call does not return. -/
def step (s : Syncer) : Op → Option Syncer
  | Op.Add account height previous stat batch_id =>
    Add s account height previous stat batch_id
  | Op.AddQuery batch_id => (AddQuery s batch_id).map (fun r => r.2)
  | Op.Erase account => some (Erase s account)
  | Op.EraseQuery query_id => some (EraseQuery s query_id)
  | Op.QueryCallback account status block =>
    some (QueryCallback s account status block)
  | Op.ProcessorCallback node result block =>
    ProcessorCallback node s result block
  | Op.ResetStat => some (ResetStat s)

/-- The states the syncer can be in after a sequence of calls, each of which
satisfies `ok`, on a freshly constructed syncer. -/
inductive ReachableVia (ok : Op → Prop) : Syncer → Prop where
  | init : ReachableVia ok Syncer.init
  | step {s s1 : Syncer} (op : Op) : ReachableVia ok s → ok op →
      step s op = some s1 → ReachableVia ok s1

/-- The states the syncer can be in after a sequence of calls on a freshly
constructed syncer. -/
def Reachable (s : Syncer) : Prop := ReachableVia (fun _ => True) s

/-! ## Auxiliary definitions -/

/-- The call that the account overload of `BlockQuery_` makes. -/
def accountQuery (account : Account) (info : SyncInfo) (query_id : Nat) : Call :=
  if info.height_ = 0 ∨ info.previous_ = 0 then
    Call.QueryByHeight account info.height_ false
      { account := account, query_id := query_id, count := 0 }
  else
    Call.QueryByPrevious account info.height_ info.previous_ false
      { account := account, query_id := query_id, count := 0 }

/-- The entry that `Add` writes. -/
def newInfo (height : Nat) (previous : BlockHash) (stat : Bool) (batch_id : Nat) :
    SyncInfo :=
  { status_ := SyncStatus.QUERY, first_ := stat, batch_id_ := batch_id,
    height_ := height, previous_ := previous, current_ := 0 }

/-- Between two states, the entry of `account` is the same and the calls made
in between are not queries for `account`. -/
def Keeps (account : Account) (s s1 : Syncer) : Prop :=
  mapFind account s1.syncs_ = mapFind account s.syncs_
    ∧ ∃ rest, s1.calls_ = s.calls_ ++ rest
        ∧ ∀ c ∈ rest, Call.isAccountQuery account c = false

/-- The entry after an accepted `APPEND` of `block`. -/
def advanced (block : Block) (i : SyncInfo) : SyncInfo :=
  { i with status_ := SyncStatus.QUERY, current_ := 0,
           height_ := (block.Height + 1) % UINT64_MOD, previous_ := block.Hash }

/-- The entry after a `DROP`. -/
def reverted (i : SyncInfo) : SyncInfo :=
  { i with status_ := SyncStatus.QUERY, current_ := 0 }

/-- The entry after a block was accepted from a peer. -/
def accepted (block : Block) (i : SyncInfo) : SyncInfo :=
  { i with first_ := false, status_ := SyncStatus.PROCESS, current_ := block.Hash }

/-- A node whose ledger knows no account, no block and no reward. -/
def Node.blank : Node :=
  { DEFAULT_BATCH_ID := 0, BUSY_SIZE := 10240, INVALID_HEIGHT := 2 ^ 64 - 1,
    TransactionError := false, AccountInfoGet := fun _ => none,
    BlockGet := fun _ => none, RewardableInfoGet := fun _ _ => none,
    CurrentTimestamp := 0 }

/-- A block of `account` with the given hash and height, and nothing else of
interest. -/
def plainBlock (account : Account) (hash : BlockHash) (height : Nat) : Block :=
  { Account := account, Hash := hash, Height := height, Previous := 0, Link := 0,
    Opcode := BlockOpcode.OTHER, HasRepresentative := false, Representative := 0 }

/-- The state after `Add (7, 0, zero)` with statistics and batch 3 on a fresh
syncer. -/
def scenarioAdded : Syncer :=
  { stat_ := { total_ := 1, miss_ := 0 },
    syncs_ := [(7, newInfo 0 0 true 3)],
    current_query_id_ := 1, queries_ := [(0, 3)],
    calls_ := [Call.QueryByHeight 7 0 false (QueryCallbackByAccount_ 7 0)] }

/-- The entry of scenario 1 while the block of hash 99 is being processed. -/
def scenarioProcessing : SyncInfo :=
  { status_ := SyncStatus.PROCESS, first_ := false, batch_id_ := 3,
    height_ := 0, previous_ := 0, current_ := 99 }

/-- A state with the single entry `info` for `account`. -/
def Syncer.single (account : Account) (info : SyncInfo) : Syncer :=
  { stat_ := { total_ := 0, miss_ := 0 }, syncs_ := [(account, info)],
    current_query_id_ := 0, queries_ := [], calls_ := [] }

/-- A `MISS` ack; the block it carries is never read. -/
def missAck (block : Block) : QueryAck :=
  { status_ := QueryStatus.MISS, block_ := block }

/-- The calls in which every block that a peer query reports with `SUCCESS`
has a hash that is not zero. -/
def Op.nonzeroHash : Op → Prop
  | Op.QueryCallback _ QueryStatus.SUCCESS block => block.Hash ≠ 0
  | _ => True

/-- An entry that, if it is in `PROCESS`, has a current hash. -/
def SyncInfo.hasCurrent (i : SyncInfo) : Prop :=
  i.status_ = SyncStatus.PROCESS → i.current_ ≠ 0

/-- Every entry in `PROCESS` has a current hash. -/
def allHaveCurrent (m : List (Account × SyncInfo)) : Prop :=
  ∀ e ∈ m, e.2.hasCurrent

/-- The number of entries whose first flag is set. -/
def firstCount (m : List (Account × SyncInfo)) : Nat :=
  m.countP (fun e => e.2.first_)

/-- The calls that do not take the counter `total_` past `2 ^ 64 - 1`: an
`Add` with statistics for an account that is not pending is made only while
the counter can still be incremented. -/
def Op.keepsTotal (s : Syncer) : Op → Prop
  | Op.Add account _ _ true _ =>
    mapFind account s.syncs_ = none → s.stat_.total_ + 1 < UINT64_MOD
  | _ => True

/-- The states the syncer can be in after a sequence of calls on a freshly
constructed syncer during which the counter `total_` has not overflowed. -/
inductive ReachableNoWrap : Syncer → Prop where
  | init : ReachableNoWrap Syncer.init
  | step {s s1 : Syncer} (op : Op) : ReachableNoWrap s → op.keepsTotal s →
      step s op = some s1 → ReachableNoWrap s1

/-- The misses counted and the first queries still open do not exceed the
queries counted, and the count of queries is a 64-bit value. -/
def statInv (s : Syncer) : Prop :=
  s.stat_.miss_ + firstCount s.syncs_ ≤ s.stat_.total_
    ∧ s.stat_.total_ < UINT64_MOD

/-- The number of lookups (`queries_.find`) the loop of `AddQuery` makes
before it inserts: the loop of `AddQuery_loop` with the same arguments,
counting its iterations instead of yielding the id. -/
def AddQuery_lookups : Nat → List (Nat × Nat) → Nat → Nat → Option Nat
  | 0, _, _, _ => none
  | fuel + 1, queries, query_id, current =>
    match mapFind query_id queries with
    | some _ =>
      (AddQuery_lookups fuel queries current ((current + 1) % UINT64_MOD)).map
        (fun n => n + 1)
    | none => some 1

/-- The calls that satisfy the assertions of `QueryCallback`, made with blocks
that their hash identifies: `heightOf` gives the height of the block with a
given hash.  A call of `QueryCallback` that finds an entry in `QUERY` carries
the status `MISS`, `SUCCESS` or `FORK` (the last branch asserts `0`), and with
`SUCCESS` the block has the height of the entry (the assertion of the
`SUCCESS` branch). -/
def Op.asserted (heightOf : BlockHash → Nat) (s : Syncer) : Op → Prop
  | Op.QueryCallback account status block =>
    match mapFind account s.syncs_ with
    | none => True
    | some it =>
      it.status_ = SyncStatus.QUERY →
        (status = QueryStatus.MISS ∨ status = QueryStatus.SUCCESS
          ∨ status = QueryStatus.FORK)
        ∧ (status = QueryStatus.SUCCESS →
            it.height_ = block.Height ∧ block.Height = heightOf block.Hash)
  | Op.ProcessorCallback _ _ block => block.Height = heightOf block.Hash
  | _ => True

/-- The states the syncer can be in after a sequence of calls on a freshly
constructed syncer, each of which satisfies the assertions of the source. -/
inductive ReachableAsserted (heightOf : BlockHash → Nat) : Syncer → Prop where
  | init : ReachableAsserted heightOf Syncer.init
  | step {s s1 : Syncer} (op : Op) : ReachableAsserted heightOf s →
      op.asserted heightOf s → step s op = some s1 →
      ReachableAsserted heightOf s1

/-- Every entry in `PROCESS` has the height of the block it is waiting for. -/
def processHeights (heightOf : BlockHash → Nat)
    (m : List (Account × SyncInfo)) : Prop :=
  ∀ a it, mapFind a m = some it → it.status_ = SyncStatus.PROCESS →
    heightOf it.current_ = it.height_

/-- The state after `Add (7, 2 ^ 64 - 1, 98)` without statistics and with
batch 3 on a fresh syncer. -/
def wrapAdded : Syncer :=
  { stat_ := { total_ := 0, miss_ := 0 },
    syncs_ := [(7, newInfo (2 ^ 64 - 1) 98 false 3)],
    current_query_id_ := 1, queries_ := [(0, 3)],
    calls_ := [Call.QueryByPrevious 7 (2 ^ 64 - 1) 98 false
      (QueryCallbackByAccount_ 7 0)] }

/-! ## Association lists: facts -/

theorem mapFind_eq_none_iff {β : Type} (k : Nat) (m : List (Nat × β)) :
    mapFind k m = none ↔ ∀ e ∈ m, e.1 ≠ k := by
  induction m with
  | nil => simp [mapFind]
  | cons e t ih =>
    by_cases h : e.1 = k
    · simp [mapFind, h]
    · simp [mapFind, h, ih]

theorem mapFind_mem {β : Type} (k : Nat) (v : β) (m : List (Nat × β))
    (h : mapFind k m = some v) : (k, v) ∈ m := by
  induction m with
  | nil => simp [mapFind] at h
  | cons e t ih =>
    by_cases hk : e.1 = k
    · simp [mapFind, hk] at h
      simp [← h, ← hk]
    · simp [mapFind, hk] at h
      simp [ih h]

theorem mapFind_isSome_of_mem {β : Type} (k : Nat) (v : β) (m : List (Nat × β))
    (h : (k, v) ∈ m) : (mapFind k m).isSome = true := by
  cases hf : mapFind k m with
  | some w => rfl
  | none => exact absurd rfl ((mapFind_eq_none_iff k m).mp hf _ h)

theorem mapFind_mapErase_self {β : Type} (k : Nat) (m : List (Nat × β)) :
    mapFind k (mapErase k m) = none := by
  rw [mapFind_eq_none_iff]
  intro e he
  simpa [mapErase] using (List.mem_filter.mp he).2

theorem mapFind_mapErase_ne {β : Type} (k k1 : Nat) (m : List (Nat × β))
    (h : k1 ≠ k) : mapFind k1 (mapErase k m) = mapFind k1 m := by
  induction m with
  | nil => rfl
  | cons e t ih =>
    obtain ⟨a, b⟩ := e
    simp only [mapErase] at ih ⊢
    by_cases he : a = k
    · have h1 : ¬ a = k1 := fun h2 => h (h2.symm.trans he)
      simp only [List.filter_cons, he, mapFind, ne_eq, not_true_eq_false,
        decide_False, Bool.false_eq_true, if_false]
      rw [ih, if_neg (fun h2 => h h2.symm)]
    · by_cases h1 : a = k1
      · subst h1
        simp [List.filter_cons, he, mapFind]
      · simp only [List.filter_cons, ne_eq, he, not_false_eq_true, decide_True,
          if_true, mapFind, h1, if_false]
        exact ih

theorem mapFind_mapModify_self {β : Type} (k : Nat) (f : β → β)
    (m : List (Nat × β)) :
    mapFind k (mapModify k f m) = (mapFind k m).map f := by
  induction m with
  | nil => rfl
  | cons e t ih =>
    by_cases he : e.1 = k
    · simp [mapModify, mapFind, he]
    · simpa [mapModify, mapFind, he] using ih

theorem mapFind_mapModify_ne {β : Type} (k k1 : Nat) (f : β → β)
    (m : List (Nat × β)) (h : k1 ≠ k) :
    mapFind k1 (mapModify k f m) = mapFind k1 m := by
  induction m with
  | nil => rfl
  | cons e t ih =>
    obtain ⟨a, b⟩ := e
    simp only [mapModify] at ih ⊢
    by_cases he : a = k
    · have h1 : ¬ a = k1 := fun h2 => h (h2.symm.trans he)
      simp only [List.map_cons, he, mapFind, if_true]
      rw [ih, if_neg (fun h2 => h h2.symm), if_neg (fun h2 => h h2.symm)]
    · by_cases h1 : a = k1
      · subst h1
        simp [he, mapFind]
      · simp only [List.map_cons, he, if_false, mapFind, h1]
        exact ih

/-! ## Allocation of query ids -/

/-- When the loop of `AddQuery` gives up, every id it looked at is a key. -/
theorem AddQuery_loop_none (queries : List (Nat × Nat)) :
    ∀ (fuel query_id current : Nat), current < UINT64_MOD →
      AddQuery_loop fuel queries query_id current = none →
      ∀ i, i < fuel →
        (mapFind (if i = 0 then query_id else (current + (i - 1)) % UINT64_MOD)
          queries).isSome = true := by
  intro fuel
  induction fuel with
  | zero => intro _ _ _ _ i hi; omega
  | succ n ih =>
    intro query_id current hc hnone i hi
    unfold AddQuery_loop at hnone
    cases hf : mapFind query_id queries with
    | none => simp [hf] at hnone
    | some v =>
      simp only [hf] at hnone
      cases i with
      | zero => simp [hf]
      | succ j =>
        have hm : (current + 1) % UINT64_MOD < UINT64_MOD :=
          Nat.mod_lt _ (by decide)
        have h1 := ih current ((current + 1) % UINT64_MOD) hm hnone j (by omega)
        cases j with
        | zero => simpa [Nat.mod_eq_of_lt hc] using h1
        | succ l =>
          have e : ((current + 1) % UINT64_MOD + (l + 1 - 1)) % UINT64_MOD
              = (current + (l + 1 + 1 - 1)) % UINT64_MOD := by
            simp only [UINT64_MOD]; omega
          rw [if_neg (by omega)] at h1 ⊢
          rw [← e]; exact h1

/-- The loop of `AddQuery` finds a free id as long as fewer than `2 ^ 64` ids
are in use. -/
theorem AddQuery_loop_isSome (queries : List (Nat × Nat)) (c : Nat)
    (h : queries.length < UINT64_MOD) :
    (AddQuery_loop UINT64_MOD queries c ((c + 1) % UINT64_MOD)).isSome = true := by
  cases hl : AddQuery_loop UINT64_MOD queries c ((c + 1) % UINT64_MOD) with
  | some r => rfl
  | none =>
    exfalso
    have hm : (c + 1) % UINT64_MOD < UINT64_MOD := Nat.mod_lt _ (by decide)
    have hall := AddQuery_loop_none queries UINT64_MOD c _ hm hl
    let g : Nat → Nat := fun i =>
      if i = 0 then c else ((c + 1) % UINT64_MOD + (i - 1)) % UINT64_MOD
    have hmaps : ∀ i ∈ Finset.range (queries.length + 1),
        g i ∈ (queries.map Prod.fst).toFinset := by
      intro i hi
      have hi1 : i < UINT64_MOD := by
        have := Finset.mem_range.mp hi
        omega
      have h2 : (mapFind (g i) queries).isSome = true := hall i hi1
      cases hf : mapFind (g i) queries with
      | none => rw [hf] at h2; simp at h2
      | some v =>
        have := mapFind_mem _ _ _ hf
        simp only [List.mem_toFinset, List.mem_map]
        exact ⟨_, this, rfl⟩
    have hinj : Set.InjOn g (Finset.range (queries.length + 1)) := by
      intro i hi j hj hij
      have hi1 : i < queries.length + 1 := by simpa using hi
      have hj1 : j < queries.length + 1 := by simpa using hj
      simp only [g, UINT64_MOD] at hij
      simp only [UINT64_MOD] at h
      split_ifs at hij <;> omega
    have hcard := Finset.card_le_card_of_injOn g hmaps hinj
    have hk : (queries.map Prod.fst).toFinset.card ≤ queries.length := by
      simpa using List.toFinset_card_le (queries.map Prod.fst)
    simp at hcard
    omega

/-- `AddQuery` returns as long as fewer than `2 ^ 64` queries are
outstanding. -/
theorem AddQuery_returns (s : Syncer) (batch_id : Nat)
    (h : s.queries_.length < UINT64_MOD) :
    ∃ query_id s1, AddQuery s batch_id = some (query_id, s1) := by
  have h1 := AddQuery_loop_isSome s.queries_ s.current_query_id_ h
  unfold AddQuery
  cases hl : AddQuery_loop UINT64_MOD s.queries_ s.current_query_id_
      ((s.current_query_id_ + 1) % UINT64_MOD) with
  | none => simp [hl] at h1
  | some r => exact ⟨_, _, rfl⟩

/-- The id the loop of `AddQuery` settles on is not a key. -/
theorem AddQuery_loop_free (queries : List (Nat × Nat)) :
    ∀ (fuel query_id current : Nat) (r : Nat × Nat),
      AddQuery_loop fuel queries query_id current = some r →
      mapFind r.1 queries = none := by
  intro fuel
  induction fuel with
  | zero => intro _ _ r h; simp [AddQuery_loop] at h
  | succ n ih =>
    intro query_id current r h
    unfold AddQuery_loop at h
    cases hf : mapFind query_id queries with
    | none =>
      simp only [hf, Option.some.injEq] at h
      rw [← h]; exact hf
    | some v =>
      simp only [hf] at h
      exact ih _ _ r h

/-- What `AddQuery` leaves behind: one more entry in `queries_`, under an id
that was free, a new value of the counter, and nothing else. -/
theorem AddQuery_eq (s s1 : Syncer) (batch_id query_id : Nat)
    (h : AddQuery s batch_id = some (query_id, s1)) :
    ∃ current, s1 = { s with current_query_id_ := current,
                             queries_ := (query_id, batch_id) :: s.queries_ }
      ∧ mapFind query_id s.queries_ = none := by
  unfold AddQuery at h
  cases hl : AddQuery_loop UINT64_MOD s.queries_ s.current_query_id_
      ((s.current_query_id_ + 1) % UINT64_MOD) with
  | none => simp [hl] at h
  | some r =>
    obtain ⟨q, c⟩ := r
    simp only [hl, Option.some.injEq, Prod.mk.injEq] at h
    have hfree := AddQuery_loop_free _ _ _ _ _ hl
    obtain ⟨h1, h2⟩ := h
    subst h1
    exact ⟨c, h2.symm, hfree⟩

/-- What the account overload of `BlockQuery_` leaves behind. -/
theorem BlockQuery__eq (s s1 : Syncer) (account : Account) (info : SyncInfo)
    (batch_id : Nat) (h : BlockQuery_ s account info batch_id = some s1) :
    ∃ query_id current, mapFind query_id s.queries_ = none ∧
      s1 = { s with current_query_id_ := current,
                    queries_ := (query_id, batch_id) :: s.queries_,
                    calls_ := s.calls_ ++ [accountQuery account info query_id] } := by
  unfold BlockQuery_ at h
  cases ha : AddQuery s batch_id with
  | none => simp [ha] at h
  | some r =>
    obtain ⟨query_id, s0⟩ := r
    obtain ⟨current, hs0, hfree⟩ := AddQuery_eq _ _ _ _ ha
    refine ⟨query_id, current, hfree, ?_⟩
    simp only [ha] at h
    subst hs0
    by_cases hc : info.height_ = 0 ∨ info.previous_ = 0
    · have hc1 : info.height_ = 0 ∨ BlockHash.IsZero info.previous_ = true := by
        simpa [BlockHash.IsZero] using hc
      simp only [hc1, if_true, Option.some.injEq] at h
      simp [← h, accountQuery, hc, Syncer.call, QueryCallbackByAccount_]
    · have hc1 : ¬ (info.height_ = 0 ∨ BlockHash.IsZero info.previous_ = true) := by
        simpa [BlockHash.IsZero] using hc
      simp only [hc1, if_false, Option.some.injEq] at h
      simp [← h, accountQuery, hc, Syncer.call, QueryCallbackByAccount_]

/-- The account overload of `BlockQuery_` returns as long as fewer than
`2 ^ 64` queries are outstanding. -/
theorem BlockQuery__returns (s : Syncer) (account : Account) (info : SyncInfo)
    (batch_id : Nat) (h : s.queries_.length < UINT64_MOD) :
    ∃ s1, BlockQuery_ s account info batch_id = some s1 := by
  obtain ⟨query_id, s0, ha⟩ := AddQuery_returns s batch_id h
  unfold BlockQuery_
  simp only [ha]
  split_ifs <;> exact ⟨_, rfl⟩

/-- `Add` on an account that is pending changes nothing. -/
theorem Add_pending (s : Syncer) (account : Account) (height : Nat)
    (previous : BlockHash) (stat : Bool) (batch_id : Nat) (info : SyncInfo)
    (h : mapFind account s.syncs_ = some info) :
    Add s account height previous stat batch_id = some s := by
  simp [Add, Add_, h]

/-- What `Add` leaves behind on an account that is not pending. -/
theorem Add_eq (s s1 : Syncer) (account : Account) (height : Nat)
    (previous : BlockHash) (stat : Bool) (batch_id : Nat)
    (hnone : mapFind account s.syncs_ = none)
    (h : Add s account height previous stat batch_id = some s1) :
    ∃ query_id current, mapFind query_id s.queries_ = none ∧
      s1 = { stat_ := { total_ := if stat then (s.stat_.total_ + 1) % UINT64_MOD
                                  else s.stat_.total_,
                        miss_ := s.stat_.miss_ },
             syncs_ := (account, newInfo height previous stat batch_id) :: s.syncs_,
             current_query_id_ := current,
             queries_ := (query_id, batch_id) :: s.queries_,
             calls_ := s.calls_ ++ [accountQuery account
               (newInfo height previous stat batch_id) query_id] } := by
  simp only [Add, Add_, hnone] at h
  obtain ⟨query_id, current, hfree, hs1⟩ := BlockQuery__eq _ _ _ _ _ h
  refine ⟨query_id, current, ?_, ?_⟩
  · cases stat <;> simpa using hfree
  · cases stat <;> simp [hs1, newInfo, mapInsert]

/-- `Add` returns as long as fewer than `2 ^ 64` queries are outstanding. -/
theorem Add_returns (s : Syncer) (account : Account) (height : Nat)
    (previous : BlockHash) (stat : Bool) (batch_id : Nat)
    (h : s.queries_.length < UINT64_MOD) :
    ∃ s1, Add s account height previous stat batch_id = some s1 := by
  cases hf : mapFind account s.syncs_ with
  | some info => exact ⟨s, Add_pending _ _ _ _ _ _ info hf⟩
  | none =>
    simp only [Add, Add_, hf]
    apply BlockQuery__returns
    cases stat <;> simpa using h

/-! ## Fan-out to related accounts -/

/-- Whatever every `Add` without statistics establishes between the state it
is given and the state it returns, `SyncAccount` establishes too. -/
theorem SyncAccount_rel (R : Syncer → Syncer → Prop)
    (hadd : ∀ s account height previous batch_id s1,
      Add s account height previous false batch_id = some s1 → R s s1)
    (node : Node) (s s1 : Syncer) (account : Account) (batch_id : Nat)
    (h : SyncAccount node s account batch_id = some s1) : R s s1 := by
  unfold SyncAccount at h
  cases hg : node.AccountInfoGet account with
  | none =>
    simp only [hg, Add_height] at h
    exact hadd _ _ _ _ _ _ h
  | some account_info =>
    simp only [hg, Add_height] at h
    split_ifs at h
    · exact hadd _ _ _ _ _ _ h
    · exact hadd _ _ _ _ _ _ h

/-- Whatever every `Add` without statistics establishes, reflexively and
transitively, `SyncRelated` establishes too. -/
theorem SyncRelated_rel (R : Syncer → Syncer → Prop) (hrefl : ∀ s, R s s)
    (htrans : ∀ a b c, R a b → R b c → R a c)
    (hadd : ∀ s account height previous batch_id s1,
      Add s account height previous false batch_id = some s1 → R s s1)
    (node : Node) (s s1 : Syncer) (block : Block) (batch_id : Nat)
    (h : SyncRelated node s block batch_id = some s1) : R s s1 := by
  unfold SyncRelated at h
  by_cases h1 : (!block.HasRepresentative
      && decide (block.Opcode ≠ BlockOpcode.SEND)) = true
  · rw [if_pos h1] at h
    cases h; exact hrefl s
  rw [if_neg h1] at h
  by_cases h2 : node.TransactionError = true
  · rw [if_pos h2] at h
    cases h; exact hrefl s
  rw [if_neg h2] at h
  cases hm : (if block.Opcode = BlockOpcode.SEND then
      SyncAccount node s block.Link batch_id else some s) with
  | none => simp only [hm] at h; cases h
  | some s0 =>
    have h0 : R s s0 := by
      by_cases hs : block.Opcode = BlockOpcode.SEND
      · rw [if_pos hs] at hm
        exact SyncAccount_rel R hadd _ _ _ _ _ hm
      · rw [if_neg hs] at hm
        cases hm; exact hrefl s
    simp only [hm] at h
    by_cases h3 : (block.HasRepresentative && decide (block.Height > 0)) = true
    · rw [if_pos h3] at h
      cases hr : (if block.Opcode = BlockOpcode.CHANGE then
          (node.BlockGet block.Previous).map (fun previous => previous.Representative)
        else some block.Representative) with
      | none =>
        simp only [hr] at h
        cases h; exact h0
      | some rep =>
        simp only [hr] at h
        cases hi : node.RewardableInfoGet rep block.Previous with
        | none =>
          simp only [hi] at h
          cases h; exact h0
        | some info =>
          simp only [hi] at h
          by_cases h4 : info.valid_timestamp_ > node.CurrentTimestamp
          · rw [if_pos h4] at h
            cases h; exact h0
          · rw [if_neg h4] at h
            exact htrans _ _ _ h0 (SyncAccount_rel R hadd _ _ _ _ _ h)
    · rw [if_neg h3] at h
      cases h; exact h0

/-- `Add` registers at most one query. -/
theorem Add_queries_length (s s1 : Syncer) (account : Account) (height : Nat)
    (previous : BlockHash) (stat : Bool) (batch_id : Nat)
    (h : Add s account height previous stat batch_id = some s1) :
    s1.queries_.length ≤ s.queries_.length + 1 := by
  cases hf : mapFind account s.syncs_ with
  | some info =>
    rw [Add_pending _ _ _ _ _ _ info hf] at h
    cases h; omega
  | none =>
    obtain ⟨query_id, current, _, hs1⟩ := Add_eq _ _ _ _ _ _ _ hf h
    simp [hs1]

/-- `SyncAccount` returns as long as fewer than `2 ^ 64` queries are
outstanding. -/
theorem SyncAccount_returns (node : Node) (s : Syncer) (account : Account)
    (batch_id : Nat) (h : s.queries_.length < UINT64_MOD) :
    ∃ s1, SyncAccount node s account batch_id = some s1 := by
  unfold SyncAccount
  cases hg : node.AccountInfoGet account with
  | none => exact Add_returns _ _ _ _ _ _ h
  | some account_info =>
    simp only [Add_height]
    split_ifs
    · exact Add_returns _ _ _ _ _ _ h
    · exact Add_returns _ _ _ _ _ _ h

/-- `SyncRelated` returns as long as two more queries can be registered. -/
theorem SyncRelated_returns (node : Node) (s : Syncer) (block : Block)
    (batch_id : Nat) (h : s.queries_.length + 2 ≤ UINT64_MOD) :
    ∃ s1, SyncRelated node s block batch_id = some s1 := by
  unfold SyncRelated
  by_cases h1 : (!block.HasRepresentative
      && decide (block.Opcode ≠ BlockOpcode.SEND)) = true
  · rw [if_pos h1]; exact ⟨_, rfl⟩
  rw [if_neg h1]
  by_cases h2 : node.TransactionError = true
  · rw [if_pos h2]; exact ⟨_, rfl⟩
  rw [if_neg h2]
  have hfirst : ∃ s0, (if block.Opcode = BlockOpcode.SEND then
      SyncAccount node s block.Link batch_id else some s) = some s0
      ∧ s0.queries_.length ≤ s.queries_.length + 1 := by
    by_cases hs : block.Opcode = BlockOpcode.SEND
    · rw [if_pos hs]
      obtain ⟨s0, hs0⟩ := SyncAccount_returns node s block.Link batch_id (by omega)
      exact ⟨s0, hs0, SyncAccount_rel
        (fun a b => b.queries_.length ≤ a.queries_.length + 1)
        (fun _ _ _ _ _ _ ha => Add_queries_length _ _ _ _ _ _ _ ha) _ _ _ _ _ hs0⟩
    · rw [if_neg hs]
      exact ⟨s, rfl, by omega⟩
  obtain ⟨s0, hs0, hlen⟩ := hfirst
  simp only [hs0]
  by_cases h3 : (block.HasRepresentative && decide (block.Height > 0)) = true
  · rw [if_pos h3]
    cases hr : (if block.Opcode = BlockOpcode.CHANGE then
        (node.BlockGet block.Previous).map (fun previous => previous.Representative)
      else some block.Representative) with
    | none => exact ⟨_, rfl⟩
    | some rep =>
      dsimp only
      cases hi : node.RewardableInfoGet rep block.Previous with
      | none => exact ⟨_, rfl⟩
      | some info =>
        dsimp only
        by_cases h4 : info.valid_timestamp_ > node.CurrentTimestamp
        · rw [if_pos h4]; exact ⟨_, rfl⟩
        · rw [if_neg h4]
          exact SyncAccount_returns node s0 rep batch_id (by omega)
  · rw [if_neg h3]; exact ⟨_, rfl⟩

/-! ## The processor callback -/

theorem Keeps_refl (account : Account) (s : Syncer) : Keeps account s s :=
  ⟨rfl, [], by simp, by simp⟩

theorem Keeps_trans (account : Account) (a b c : Syncer)
    (h1 : Keeps account a b) (h2 : Keeps account b c) : Keeps account a c := by
  obtain ⟨e1, r1, c1, n1⟩ := h1
  obtain ⟨e2, r2, c2, n2⟩ := h2
  refine ⟨e2.trans e1, r1 ++ r2, by simp [c2, c1], ?_⟩
  intro c hc
  rcases List.mem_append.mp hc with h | h
  · exact n1 c h
  · exact n2 c h

theorem accountQuery_isAccountQuery (a x : Account) (info : SyncInfo)
    (query_id : Nat) (h : a ≠ x) :
    Call.isAccountQuery x (accountQuery a info query_id) = false := by
  unfold accountQuery
  split_ifs <;> simp [Call.isAccountQuery, h]

/-- `Add` keeps the entry of an account that is pending, and makes no query
for it. -/
theorem Add_keeps (x : Account) (s s1 : Syncer) (account : Account)
    (height : Nat) (previous : BlockHash) (stat : Bool) (batch_id : Nat)
    (hx : (mapFind x s.syncs_).isSome = true)
    (h : Add s account height previous stat batch_id = some s1) :
    Keeps x s s1 := by
  cases hf : mapFind account s.syncs_ with
  | some info =>
    rw [Add_pending _ _ _ _ _ _ info hf] at h
    cases h; exact Keeps_refl x s
  | none =>
    obtain ⟨query_id, current, _, hs1⟩ := Add_eq _ _ _ _ _ _ _ hf h
    have hne : account ≠ x := by
      intro e
      rw [e] at hf
      simp [hf] at hx
    refine ⟨by simp [hs1, mapFind, hne], [_], by rw [hs1], ?_⟩
    intro c hc
    rw [List.mem_singleton.mp hc]
    exact accountQuery_isAccountQuery _ _ _ _ hne

/-- `SyncRelated` keeps the entry of an account that is pending, and makes no
query for it. -/
theorem SyncRelated_keeps (x : Account) (node : Node) (s s1 : Syncer)
    (block : Block) (batch_id : Nat)
    (hx : (mapFind x s.syncs_).isSome = true)
    (h : SyncRelated node s block batch_id = some s1) : Keeps x s s1 := by
  have hR := SyncRelated_rel
    (fun a b => (mapFind x a.syncs_).isSome = true → Keeps x a b)
    (fun a _ => Keeps_refl x a)
    (fun a b c hab hbc ha =>
      Keeps_trans x a b c (hab ha) (hbc (by rw [(hab ha).1]; exact ha)))
    (fun a account height previous batch_id b hadd ha =>
      Add_keeps x a b account height previous false batch_id ha hadd)
    node s s1 block batch_id h
  exact hR hx

/-- `ProcessorCallback` on an accepted `APPEND` of the block being processed:
the entry advances, the account is queried again, related accounts are
synced. -/
theorem ProcessorCallback_append_eq (node : Node) (s : Syncer)
    (result : BlockProcessResult) (block : Block) (it : SyncInfo)
    (hop : result.operation_ = BlockOperation.APPEND)
    (hec : result.error_code_ = ErrorCode.SUCCESS
      ∨ result.error_code_ = ErrorCode.BLOCK_PROCESS_EXISTS)
    (hfind : mapFind block.Account s.syncs_ = some it)
    (hst : it.status_ = SyncStatus.PROCESS) (hcur : it.current_ = block.Hash) :
    ProcessorCallback node s result block
      = match BlockQuery_
          { s with syncs_ := mapModify block.Account (advanced block) s.syncs_ }
          block.Account (advanced block it) it.batch_id_ with
        | none => none
        | some s2 => SyncRelated node s2 block it.batch_id_ := by
  unfold ProcessorCallback ProcessorCallback_locked
  simp only [hop, hfind, hst, hcur, hec]
  simp [advanced]
  rfl

/-- `ProcessorCallback` on a `DROP` of the block being processed: the entry
goes back to `QUERY` and the account is queried again. -/
theorem ProcessorCallback_drop_eq (node : Node) (s : Syncer)
    (result : BlockProcessResult) (block : Block) (it : SyncInfo)
    (hop : result.operation_ = BlockOperation.DROP)
    (hfind : mapFind block.Account s.syncs_ = some it)
    (hst : it.status_ = SyncStatus.PROCESS) (hcur : it.current_ = block.Hash) :
    ProcessorCallback node s result block
      = BlockQuery_
          { s with syncs_ := mapModify block.Account reverted s.syncs_ }
          block.Account (reverted it) it.batch_id_ := by
  unfold ProcessorCallback ProcessorCallback_locked
  have hid : ∀ o : Option Syncer,
      (match o with | none => none | some s2 => some s2) = o := by
    intro o; cases o <;> rfl
  simp only [hop, hfind, hst, hcur]
  simp [reverted]
  exact hid _

/-- What the hash overload of `BlockQuery_` leaves behind. -/
theorem BlockQuery_hash_eq (node : Node) (s s1 : Syncer) (hash : BlockHash)
    (batch_id : Nat) (h : BlockQuery_hash node s hash batch_id = some s1) :
    ∃ query_id current, mapFind query_id s.queries_ = none ∧
      s1 = { s with current_query_id_ := current,
                    queries_ := (query_id, batch_id) :: s.queries_,
                    calls_ := s.calls_ ++ [Call.QueryByHash 0 node.INVALID_HEIGHT
                      hash true { query_id := query_id, count := 0 }] } := by
  unfold BlockQuery_hash at h
  cases ha : AddQuery s batch_id with
  | none => simp [ha] at h
  | some r =>
    obtain ⟨query_id, s0⟩ := r
    obtain ⟨current, hs0, hfree⟩ := AddQuery_eq _ _ _ _ ha
    refine ⟨query_id, current, hfree, ?_⟩
    simp only [ha, Option.some.injEq] at h
    subst hs0
    simp [← h, Syncer.call, QueryCallbackByHash_]

/-- The ways `ProcessorCallback` can return. -/
theorem ProcessorCallback_cases (node : Node) (s s1 : Syncer)
    (result : BlockProcessResult) (block : Block)
    (h : ProcessorCallback node s result block = some s1) :
    s1 = s
    ∨ ∃ it, mapFind block.Account s.syncs_ = some it
        ∧ it.status_ = SyncStatus.PROCESS ∧ it.current_ = block.Hash
        ∧ ((result.operation_ = BlockOperation.DROP
            ∧ BlockQuery_
                { s with syncs_ := mapModify block.Account reverted s.syncs_ }
                block.Account (reverted it) it.batch_id_ = some s1)
          ∨ (result.operation_ = BlockOperation.APPEND
            ∧ (result.error_code_ = ErrorCode.SUCCESS
              ∨ result.error_code_ = ErrorCode.BLOCK_PROCESS_EXISTS)
            ∧ ∃ s2, BlockQuery_
                { s with syncs_ := mapModify block.Account (advanced block) s.syncs_ }
                block.Account (advanced block it) it.batch_id_ = some s2
              ∧ SyncRelated node s2 block it.batch_id_ = some s1)
          ∨ (result.operation_ = BlockOperation.APPEND
            ∧ (result.error_code_ = ErrorCode.BLOCK_PROCESS_GAP_RECEIVE_SOURCE
              ∨ result.error_code_ = ErrorCode.BLOCK_PROCESS_GAP_REWARD_SOURCE
              ∨ result.error_code_ = ErrorCode.BLOCK_PROCESS_UNREWARDABLE)
            ∧ BlockQuery_hash node
                { s with syncs_ := mapErase block.Account s.syncs_ }
                block.Link it.batch_id_ = some s1)
          ∨ (result.operation_ = BlockOperation.APPEND
            ∧ result.error_code_ = ErrorCode.OTHER
            ∧ s1 = { s with syncs_ := mapErase block.Account s.syncs_ })) := by
  cases hf : mapFind block.Account s.syncs_ with
  | none =>
    left
    unfold ProcessorCallback ProcessorCallback_locked at h
    simp only [hf] at h
    split_ifs at h <;> simp_all
  | some it =>
    by_cases hst : it.status_ = SyncStatus.PROCESS
    swap
    · left
      unfold ProcessorCallback ProcessorCallback_locked at h
      simp only [hf, hst] at h
      split_ifs at h <;> simp_all
    by_cases hcur : it.current_ = block.Hash
    swap
    · left
      unfold ProcessorCallback ProcessorCallback_locked at h
      simp only [hf, hst, hcur] at h
      split_ifs at h <;> simp_all
    cases hop : result.operation_ with
    | OTHER =>
      left
      unfold ProcessorCallback at h
      simp [hop] at h
      exact h.symm
    | DROP =>
      right
      refine ⟨it, rfl, hst, hcur, Or.inl ⟨rfl, ?_⟩⟩
      rw [← ProcessorCallback_drop_eq node s result block it hop hf hst hcur]
      exact h
    | APPEND =>
      right
      refine ⟨it, rfl, hst, hcur, Or.inr ?_⟩
      cases hec : result.error_code_ with
      | SUCCESS =>
        left
        rw [ProcessorCallback_append_eq node s result block it hop
          (Or.inl hec) hf hst hcur] at h
        cases h2 : BlockQuery_
            { s with syncs_ := mapModify block.Account (advanced block) s.syncs_ }
            block.Account (advanced block it) it.batch_id_ with
        | none => simp only [h2] at h; cases h
        | some s2 =>
          simp only [h2] at h
          exact ⟨rfl, Or.inl rfl, s2, rfl, h⟩
      | BLOCK_PROCESS_EXISTS =>
        left
        rw [ProcessorCallback_append_eq node s result block it hop
          (Or.inr hec) hf hst hcur] at h
        cases h2 : BlockQuery_
            { s with syncs_ := mapModify block.Account (advanced block) s.syncs_ }
            block.Account (advanced block it) it.batch_id_ with
        | none => simp only [h2] at h; cases h
        | some s2 =>
          simp only [h2] at h
          exact ⟨rfl, Or.inr rfl, s2, rfl, h⟩
      | BLOCK_PROCESS_GAP_RECEIVE_SOURCE =>
        right; left
        refine ⟨rfl, Or.inl rfl, ?_⟩
        unfold ProcessorCallback ProcessorCallback_locked at h
        simp [hop, hf, hst, hcur, hec] at h
        cases h2 : BlockQuery_hash node
            { s with syncs_ := mapErase block.Account s.syncs_ }
            block.Link it.batch_id_ with
        | none => simp [h2] at h
        | some s2 => simpa [h2] using h
      | BLOCK_PROCESS_GAP_REWARD_SOURCE =>
        right; left
        refine ⟨rfl, Or.inr (Or.inl rfl), ?_⟩
        unfold ProcessorCallback ProcessorCallback_locked at h
        simp [hop, hf, hst, hcur, hec] at h
        cases h2 : BlockQuery_hash node
            { s with syncs_ := mapErase block.Account s.syncs_ }
            block.Link it.batch_id_ with
        | none => simp [h2] at h
        | some s2 => simpa [h2] using h
      | BLOCK_PROCESS_UNREWARDABLE =>
        right; left
        refine ⟨rfl, Or.inr (Or.inr rfl), ?_⟩
        unfold ProcessorCallback ProcessorCallback_locked at h
        simp [hop, hf, hst, hcur, hec] at h
        cases h2 : BlockQuery_hash node
            { s with syncs_ := mapErase block.Account s.syncs_ }
            block.Link it.batch_id_ with
        | none => simp [h2] at h
        | some s2 => simpa [h2] using h
      | OTHER =>
        right; right
        refine ⟨rfl, rfl, ?_⟩
        unfold ProcessorCallback ProcessorCallback_locked at h
        simp [hop, hf, hst, hcur, hec] at h
        exact h.symm

/-! ## The query callback -/

/-- `QueryCallback` with `SUCCESS` on an entry in `QUERY`. -/
theorem QueryCallback_success_eq (s : Syncer) (account : Account) (block : Block)
    (it : SyncInfo) (hfind : mapFind account s.syncs_ = some it)
    (hst : it.status_ = SyncStatus.QUERY) :
    QueryCallback s account QueryStatus.SUCCESS block
      = Syncer.call
          { s with syncs_ := mapModify account (accepted block) s.syncs_ }
          (Call.BlockProcessorAdd block) := by
  simp [QueryCallback, hfind, hst]
  rfl

/-- `QueryCallback` with `MISS` on an entry in `QUERY`. -/
theorem QueryCallback_miss_eq (s : Syncer) (account : Account) (block : Block)
    (it : SyncInfo) (hfind : mapFind account s.syncs_ = some it)
    (hst : it.status_ = SyncStatus.QUERY) :
    QueryCallback s account QueryStatus.MISS block
      = { s with stat_ := { total_ := s.stat_.total_,
                            miss_ := if it.first_ then
                                (s.stat_.miss_ + 1) % UINT64_MOD
                              else s.stat_.miss_ },
                 syncs_ := mapErase account s.syncs_ } := by
  cases hfirst : it.first_ <;> simp [QueryCallback, hfind, hst, hfirst]

/-- `QueryCallback` without an entry in `QUERY` changes nothing. -/
theorem QueryCallback_idle (s : Syncer) (account : Account)
    (status : QueryStatus) (block : Block)
    (h : ∀ it, mapFind account s.syncs_ = some it → it.status_ ≠ SyncStatus.QUERY) :
    QueryCallback s account status block = s := by
  unfold QueryCallback
  cases hf : mapFind account s.syncs_ with
  | none => rfl
  | some it => simp [h it hf]

/-- Unless the status is `MISS`, `QueryCallback` leaves `stat_` alone. -/
theorem QueryCallback_stat (s : Syncer) (account : Account)
    (status : QueryStatus) (block : Block) (h : status ≠ QueryStatus.MISS) :
    (QueryCallback s account status block).stat_ = s.stat_ := by
  unfold QueryCallback
  cases hf : mapFind account s.syncs_ with
  | none => rfl
  | some it =>
    dsimp only
    split_ifs <;> rfl

/-! ## The by-account callback -/

theorem mapErase_absent {β : Type} (k : Nat) (m : List (Nat × β))
    (h : mapFind k m = none) : mapErase k m = m := by
  unfold mapErase
  rw [List.filter_eq_self]
  intro e he
  simpa using (mapFind_eq_none_iff k m).mp h e he

/-- A single `MISS` ack: the counter goes up; from the fifth on the miss is
reported and the query erased, before that nothing else happens. -/
theorem invoke_miss (cb : AccountCallback) (s : Syncer) (ack : QueryAck)
    (result : List QueryCallbackStatus) (h : ack.status_ = QueryStatus.MISS) :
    cb.invoke true s [ack] result
      = if 5 ≤ cb.count + 1 then
          ({ cb with count := cb.count + 1 },
           EraseQuery (QueryCallback s cb.account QueryStatus.MISS ack.block_)
             cb.query_id,
           result ++ [QueryCallbackStatus.FINISH])
        else
          ({ cb with count := cb.count + 1 }, s,
           result ++ [QueryCallbackStatus.CONTINUE]) := by
  simp [AccountCallback.invoke, h]

/-- What `QueryCallback` can do to `syncs_`. -/
theorem QueryCallback_syncs (s : Syncer) (account : Account)
    (status : QueryStatus) (block : Block) :
    (QueryCallback s account status block).syncs_ = s.syncs_
    ∨ (QueryCallback s account status block).syncs_ = mapErase account s.syncs_
    ∨ (status = QueryStatus.SUCCESS
        ∧ (QueryCallback s account status block).syncs_
          = mapModify account (accepted block) s.syncs_) := by
  cases hf : mapFind account s.syncs_ with
  | none => left; simp [QueryCallback, hf]
  | some it =>
    by_cases hst : it.status_ = SyncStatus.QUERY
    swap
    · left
      rw [QueryCallback_idle]
      intro i hi
      rw [hf] at hi; cases hi; exact hst
    cases status with
    | SUCCESS =>
      right; right
      rw [QueryCallback_success_eq s account block it hf hst]
      exact ⟨rfl, rfl⟩
    | MISS =>
      right; left
      rw [QueryCallback_miss_eq s account block it hf hst]
    | FORK => right; left; simp [QueryCallback, hf, hst, Syncer.call]
    | PRUNED => right; left; simp [QueryCallback, hf, hst]
    | TIMEOUT => right; left; simp [QueryCallback, hf, hst]
    | OTHER => right; left; simp [QueryCallback, hf, hst]

/-! ## Entries in `PROCESS` -/

theorem allHaveCurrent_mapErase (k : Nat) (m : List (Account × SyncInfo))
    (h : allHaveCurrent m) : allHaveCurrent (mapErase k m) :=
  fun e he => h e (List.mem_filter.mp he).1

theorem allHaveCurrent_mapModify (k : Nat) (f : SyncInfo → SyncInfo)
    (m : List (Account × SyncInfo)) (hf : ∀ i, (f i).hasCurrent)
    (h : allHaveCurrent m) : allHaveCurrent (mapModify k f m) := by
  intro e he
  obtain ⟨a, ha, rfl⟩ := List.mem_map.mp he
  by_cases hk : a.1 = k
  · simpa [hk] using hf a.2
  · simpa [hk] using h a ha

/-- `Add` keeps every entry in `PROCESS` with a current hash. -/
theorem Add_allHaveCurrent (s s1 : Syncer) (account : Account) (height : Nat)
    (previous : BlockHash) (stat : Bool) (batch_id : Nat)
    (h : Add s account height previous stat batch_id = some s1)
    (hs : allHaveCurrent s.syncs_) : allHaveCurrent s1.syncs_ := by
  cases hf : mapFind account s.syncs_ with
  | some info =>
    rw [Add_pending _ _ _ _ _ _ info hf] at h
    cases h; exact hs
  | none =>
    obtain ⟨query_id, current, _, hs1⟩ := Add_eq _ _ _ _ _ _ _ hf h
    rw [hs1]
    intro e he
    rcases List.mem_cons.mp he with rfl | he
    · intro hp; simp [newInfo] at hp
    · exact hs e he

/-- `ProcessorCallback` keeps every entry in `PROCESS` with a current hash. -/
theorem ProcessorCallback_allHaveCurrent (node : Node) (s s1 : Syncer)
    (result : BlockProcessResult) (block : Block)
    (h : ProcessorCallback node s result block = some s1)
    (hs : allHaveCurrent s.syncs_) : allHaveCurrent s1.syncs_ := by
  rcases ProcessorCallback_cases node s s1 result block h with
    e | ⟨it, _, _, _, hc⟩
  · rw [e]; exact hs
  · rcases hc with ⟨_, hq⟩ | ⟨_, _, s2, hq, hr⟩ | ⟨_, _, hq⟩ | ⟨_, _, e⟩
    · obtain ⟨_, _, _, e⟩ := BlockQuery__eq _ _ _ _ _ hq
      rw [e]
      exact allHaveCurrent_mapModify _ _ _
        (fun i hp => by simp [reverted] at hp) hs
    · obtain ⟨_, _, _, e⟩ := BlockQuery__eq _ _ _ _ _ hq
      have h2 : allHaveCurrent s2.syncs_ := by
        rw [e]
        exact allHaveCurrent_mapModify _ _ _
          (fun i hp => by simp [advanced] at hp) hs
      exact SyncRelated_rel
        (fun a b => allHaveCurrent a.syncs_ → allHaveCurrent b.syncs_)
        (fun _ ha => ha) (fun _ _ _ hab hbc ha => hbc (hab ha))
        (fun a account height previous batch_id b hadd ha =>
          Add_allHaveCurrent a b account height previous false batch_id hadd ha)
        node s2 s1 block it.batch_id_ hr h2
    · obtain ⟨_, _, _, e⟩ := BlockQuery_hash_eq _ _ _ _ _ hq
      rw [e]
      exact allHaveCurrent_mapErase _ _ hs
    · rw [e]
      exact allHaveCurrent_mapErase _ _ hs

/-- Every call in which accepted blocks have a non-zero hash keeps every entry
in `PROCESS` with a current hash. -/
theorem step_allHaveCurrent (s s1 : Syncer) (op : Op) (hok : op.nonzeroHash)
    (h : step s op = some s1) (hs : allHaveCurrent s.syncs_) :
    allHaveCurrent s1.syncs_ := by
  cases op with
  | Add account height previous stat batch_id =>
    exact Add_allHaveCurrent _ _ _ _ _ _ _ h hs
  | AddQuery batch_id =>
    simp only [step, Option.map_eq_some'] at h
    obtain ⟨r, hr, e⟩ := h
    obtain ⟨_, e1, _⟩ := AddQuery_eq s r.2 batch_id r.1 hr
    rw [← e, e1]; exact hs
  | Erase account =>
    simp only [step, Option.some.injEq] at h
    rw [← h]; unfold Erase
    split
    · exact allHaveCurrent_mapErase _ _ hs
    · exact hs
  | EraseQuery query_id =>
    simp only [step, Option.some.injEq] at h
    rw [← h]; exact hs
  | ProcessorCallback node result block =>
    exact ProcessorCallback_allHaveCurrent _ _ _ _ _ h hs
  | ResetStat =>
    simp only [step, Option.some.injEq] at h
    rw [← h]
    intro e he
    obtain ⟨a, ha, rfl⟩ := List.mem_map.mp he
    exact hs a ha
  | QueryCallback account status block =>
    simp only [step, Option.some.injEq] at h
    rw [← h]
    rcases QueryCallback_syncs s account status block with e | e | ⟨hst, e⟩
    · rw [e]; exact hs
    · rw [e]; exact allHaveCurrent_mapErase _ _ hs
    · rw [e]
      subst hst
      have hb : block.Hash ≠ 0 := hok
      exact allHaveCurrent_mapModify _ _ _ (fun i _ => by simpa [accepted] using hb) hs

/-! ## The miss counter -/

/-- `Add` leaves the miss counter alone. -/
theorem Add_miss (s s1 : Syncer) (account : Account) (height : Nat)
    (previous : BlockHash) (stat : Bool) (batch_id : Nat)
    (h : Add s account height previous stat batch_id = some s1) :
    s1.stat_.miss_ = s.stat_.miss_ := by
  cases hf : mapFind account s.syncs_ with
  | some info =>
    rw [Add_pending _ _ _ _ _ _ info hf] at h
    cases h; rfl
  | none =>
    obtain ⟨query_id, current, _, hs1⟩ := Add_eq _ _ _ _ _ _ _ hf h
    rw [hs1]

/-- `ProcessorCallback` leaves the miss counter alone. -/
theorem ProcessorCallback_miss (node : Node) (s s1 : Syncer)
    (result : BlockProcessResult) (block : Block)
    (h : ProcessorCallback node s result block = some s1) :
    s1.stat_.miss_ = s.stat_.miss_ := by
  rcases ProcessorCallback_cases node s s1 result block h with
    e | ⟨it, _, _, _, hc⟩
  · rw [e]
  · rcases hc with ⟨_, hq⟩ | ⟨_, _, s2, hq, hr⟩ | ⟨_, _, hq⟩ | ⟨_, _, e⟩
    · obtain ⟨_, _, _, e⟩ := BlockQuery__eq _ _ _ _ _ hq
      rw [e]
    · obtain ⟨_, _, _, e⟩ := BlockQuery__eq _ _ _ _ _ hq
      have hm := SyncRelated_rel (fun a b => b.stat_.miss_ = a.stat_.miss_)
        (fun _ => rfl) (fun _ _ _ hab hbc => hbc.trans hab)
        (fun a account height previous batch_id b hadd =>
          Add_miss a b account height previous false batch_id hadd)
        node s2 s1 block it.batch_id_ hr
      rw [hm, e]
    · obtain ⟨_, _, _, e⟩ := BlockQuery_hash_eq _ _ _ _ _ hq
      rw [e]
    · rw [e]

/-! ## The claims -/

/-- C1: `Finished b` is true exactly when no entry of `syncs_` has batch id
`b` and no entry of `queries_` maps to `b`. -/
theorem Finished_iff (s : Syncer) (b : Nat) :
    Finished s b = true ↔
      (∀ e ∈ s.syncs_, e.2.batch_id_ ≠ b) ∧ (∀ q ∈ s.queries_, q.2 ≠ b) := by
  unfold Finished
  by_cases h1 : ∃ e ∈ s.syncs_, e.2.batch_id_ = b
  · have h1a : s.syncs_.any (fun i => decide (i.2.batch_id_ = b)) = true := by
      simpa [List.any_eq_true] using h1
    rw [if_pos h1a]
    obtain ⟨e, he, hb⟩ := h1
    simp only [Bool.false_eq_true, false_iff, not_and]
    exact fun h2 => absurd hb (h2 e he)
  · have h1a : ¬ s.syncs_.any (fun i => decide (i.2.batch_id_ = b)) = true := by
      simpa [List.any_eq_true] using h1
    rw [if_neg h1a]
    by_cases h2 : ∃ q ∈ s.queries_, q.2 = b
    · have h2a : s.queries_.any (fun i => decide (i.2 = b)) = true := by
        simpa [List.any_eq_true] using h2
      rw [if_pos h2a]
      obtain ⟨q, hq, hb⟩ := h2
      simp only [Bool.false_eq_true, false_iff, not_and]
      exact fun _ h3 => absurd hb (h3 q hq)
    · have h2a : ¬ s.queries_.any (fun i => decide (i.2 = b)) = true := by
        simpa [List.any_eq_true] using h2
      rw [if_neg h2a]
      simp only [true_iff]
      exact ⟨fun e he hb => h1 ⟨e, he, hb⟩, fun q hq hb => h2 ⟨q, hq, hb⟩⟩

/-- C2: `Add` on an account that has an entry in `syncs_` returns the state
it was given, whatever the other arguments: `syncs_`, `queries_`, the
query-id counter, `stat_` and the calls made are unchanged.  Consequently,
after a first `Add` that returned, a second `Add` for the same account changes
nothing, and when the account was not pending before the first call the one
entry stored for it is the entry the first call wrote. -/
theorem Add_dedup (s : Syncer) (account : Account) (height : Nat)
    (previous : BlockHash) (stat : Bool) (batch_id : Nat) (height2 : Nat)
    (previous2 : BlockHash) (stat2 : Bool) (batch_id2 : Nat) :
    (∀ info, mapFind account s.syncs_ = some info →
        Add s account height previous stat batch_id = some s)
    ∧ (s.queries_.length < UINT64_MOD →
        ∃ s1, Add s account height previous stat batch_id = some s1)
    ∧ (∀ s1, Add s account height previous stat batch_id = some s1 →
        Add s1 account height2 previous2 stat2 batch_id2 = some s1
        ∧ (mapFind account s.syncs_ = none →
            mapFind account s1.syncs_
              = some { status_ := SyncStatus.QUERY, first_ := stat,
                       batch_id_ := batch_id, height_ := height,
                       previous_ := previous, current_ := 0 }
            ∧ (s1.syncs_.filter (fun e => decide (e.1 = account))).length = 1)) := by
  refine ⟨fun info h => Add_pending _ _ _ _ _ _ info h,
    Add_returns _ _ _ _ _ _, ?_⟩
  intro s1 h1
  cases hf : mapFind account s.syncs_ with
  | some info =>
    rw [Add_pending _ _ _ _ _ _ info hf] at h1
    cases h1
    exact ⟨Add_pending _ _ _ _ _ _ info hf, fun h => by simp at h⟩
  | none =>
    obtain ⟨query_id, current, _, hs1⟩ := Add_eq _ _ _ _ _ _ _ hf h1
    have hfind : mapFind account s1.syncs_
        = some (newInfo height previous stat batch_id) := by
      simp [hs1, mapFind]
    refine ⟨Add_pending _ _ _ _ _ _ _ hfind, fun _ => ⟨hfind, ?_⟩⟩
    have hno : s.syncs_.filter (fun e => decide (e.1 = account)) = [] := by
      rw [List.filter_eq_nil_iff]
      intro e he
      simpa using (mapFind_eq_none_iff _ _).mp hf e he
    simp [hs1, List.filter_cons, hno]

/-- C2, on a concrete state: account 7 is pending with height 4; a second
`Add` with other arguments changes nothing. -/
theorem Add_dedup_witness :
    Add { stat_ := { total_ := 1, miss_ := 0 },
          syncs_ := [(7, { status_ := SyncStatus.QUERY, first_ := true,
                           batch_id_ := 3, height_ := 4, previous_ := 9,
                           current_ := 0 })],
          current_query_id_ := 1, queries_ := [(0, 3)], calls_ := [] }
        7 5 6 false 8
      = some { stat_ := { total_ := 1, miss_ := 0 },
               syncs_ := [(7, { status_ := SyncStatus.QUERY, first_ := true,
                                batch_id_ := 3, height_ := 4, previous_ := 9,
                                current_ := 0 })],
               current_query_id_ := 1, queries_ := [(0, 3)], calls_ := [] }
    ∧ ∃ s1, Add Syncer.init 7 0 0 true 3 = some s1 :=
  ⟨(Add_dedup _ 7 5 6 false 8 0 0 false 0).1 _ rfl,
   (Add_dedup Syncer.init 7 0 0 true 3 0 0 false 0).2.1 (by decide)⟩

/-- C3: when the entry of `block.Account` is in `PROCESS` with `current_`
equal to `block.Hash`, `ProcessorCallback` with `APPEND` and `SUCCESS` or
`BLOCK_PROCESS_EXISTS` returns (as long as three more queries can be
registered), and on return the entry is still in `syncs_`, in status `QUERY`,
with height `block.Height + 1` (a 64-bit value), previous `block.Hash`,
current zero, and the batch id and first flag it had; the first call made is
the account query for the updated height and previous, registered under the
batch id of the entry, and no later call is a query for that account. -/
theorem ProcessorCallback_append_advances (node : Node) (s : Syncer)
    (result : BlockProcessResult) (block : Block) (it : SyncInfo)
    (hop : result.operation_ = BlockOperation.APPEND)
    (hec : result.error_code_ = ErrorCode.SUCCESS
      ∨ result.error_code_ = ErrorCode.BLOCK_PROCESS_EXISTS)
    (hfind : mapFind block.Account s.syncs_ = some it)
    (hst : it.status_ = SyncStatus.PROCESS) (hcur : it.current_ = block.Hash) :
    (s.queries_.length + 3 ≤ UINT64_MOD →
        ∃ s1, ProcessorCallback node s result block = some s1)
    ∧ (∀ s1, ProcessorCallback node s result block = some s1 →
        mapFind block.Account s1.syncs_
          = some { status_ := SyncStatus.QUERY, first_ := it.first_,
                   batch_id_ := it.batch_id_,
                   height_ := (block.Height + 1) % UINT64_MOD,
                   previous_ := block.Hash, current_ := 0 }
        ∧ (block.Height + 1 < UINT64_MOD →
            (block.Height + 1) % UINT64_MOD = block.Height + 1)
        ∧ ∃ query_id rest,
            mapFind query_id s.queries_ = none
            ∧ s1.calls_ = s.calls_ ++
                (if (block.Height + 1) % UINT64_MOD = 0 ∨ block.Hash = 0 then
                   Call.QueryByHeight block.Account
                     ((block.Height + 1) % UINT64_MOD) false
                     (QueryCallbackByAccount_ block.Account query_id)
                 else
                   Call.QueryByPrevious block.Account
                     ((block.Height + 1) % UINT64_MOD) block.Hash false
                     (QueryCallbackByAccount_ block.Account query_id)) :: rest
            ∧ ∀ c ∈ rest, Call.isAccountQuery block.Account c = false) := by
  rw [ProcessorCallback_append_eq node s result block it hop hec hfind hst hcur]
  constructor
  · intro hlen
    obtain ⟨s2, hs2⟩ := BlockQuery__returns
      { s with syncs_ := mapModify block.Account (advanced block) s.syncs_ }
      block.Account (advanced block it) it.batch_id_ (by simp; omega)
    obtain ⟨query_id, current, _, e2⟩ := BlockQuery__eq _ _ _ _ _ hs2
    simp only [hs2]
    exact SyncRelated_returns node s2 block it.batch_id_ (by simp [e2]; omega)
  · intro s1 h
    cases hs2 : BlockQuery_
        { s with syncs_ := mapModify block.Account (advanced block) s.syncs_ }
        block.Account (advanced block it) it.batch_id_ with
    | none => simp only [hs2] at h; cases h
    | some s2 =>
      simp only [hs2] at h
      obtain ⟨query_id, current, hfree, e2⟩ := BlockQuery__eq _ _ _ _ _ hs2
      have hfind2 : mapFind block.Account s2.syncs_ = some (advanced block it) := by
        simp [e2, mapFind_mapModify_self, hfind]
      obtain ⟨hk, rest, hcalls, hrest⟩ := SyncRelated_keeps block.Account node s2 s1
        block it.batch_id_ (by simp [hfind2]) h
      refine ⟨by rw [hk, hfind2]; rfl, fun hlt => Nat.mod_eq_of_lt hlt,
        query_id, rest, by simpa using hfree, ?_, hrest⟩
      rw [hcalls, e2]
      simp [accountQuery, advanced, QueryCallbackByAccount_]

/-- C3, on a concrete state: the block of hash 99 at height 0 of account 7 is
appended; the entry moves to height 1 with previous 99. -/
theorem ProcessorCallback_append_advances_witness :
    ∃ s1, ProcessorCallback Node.blank
      (Syncer.single 7 { status_ := SyncStatus.PROCESS, first_ := false,
                         batch_id_ := 3, height_ := 0, previous_ := 0,
                         current_ := 99 })
      { operation_ := BlockOperation.APPEND, error_code_ := ErrorCode.SUCCESS }
      (plainBlock 7 99 0) = some s1
      ∧ mapFind 7 s1.syncs_
          = some { status_ := SyncStatus.QUERY, first_ := false, batch_id_ := 3,
                   height_ := 1, previous_ := 99, current_ := 0 } := by
  have h := ProcessorCallback_append_advances Node.blank
    (Syncer.single 7 { status_ := SyncStatus.PROCESS, first_ := false,
                       batch_id_ := 3, height_ := 0, previous_ := 0,
                       current_ := 99 })
    { operation_ := BlockOperation.APPEND, error_code_ := ErrorCode.SUCCESS }
    (plainBlock 7 99 0) _ rfl (Or.inl rfl) rfl rfl rfl
  obtain ⟨s1, hs1⟩ := h.1 (by decide)
  exact ⟨s1, hs1, (h.2 s1 hs1).1⟩

/-- C4: when the entry of `account` is in `QUERY`, `QueryCallback` with
`SUCCESS` and `block` sets the status of that entry to `PROCESS`, its current
hash to `block.Hash` and its first flag to false, and keeps its height,
previous hash and batch id; every other account keeps its entry, the accounts
in `syncs_` are the same, `stat_`, `queries_` and the query-id counter are
unchanged, and the only call made is one submission of `block` to the block
processor. -/
theorem QueryCallback_success (s : Syncer) (account : Account) (block : Block)
    (it : SyncInfo) (hfind : mapFind account s.syncs_ = some it)
    (hst : it.status_ = SyncStatus.QUERY) :
    mapFind account (QueryCallback s account QueryStatus.SUCCESS block).syncs_
        = some { status_ := SyncStatus.PROCESS, first_ := false,
                 batch_id_ := it.batch_id_, height_ := it.height_,
                 previous_ := it.previous_, current_ := block.Hash }
    ∧ (∀ other, other ≠ account →
        mapFind other (QueryCallback s account QueryStatus.SUCCESS block).syncs_
          = mapFind other s.syncs_)
    ∧ (QueryCallback s account QueryStatus.SUCCESS block).syncs_.map Prod.fst
        = s.syncs_.map Prod.fst
    ∧ (QueryCallback s account QueryStatus.SUCCESS block).stat_ = s.stat_
    ∧ (QueryCallback s account QueryStatus.SUCCESS block).queries_ = s.queries_
    ∧ (QueryCallback s account QueryStatus.SUCCESS block).current_query_id_
        = s.current_query_id_
    ∧ (QueryCallback s account QueryStatus.SUCCESS block).calls_
        = s.calls_ ++ [Call.BlockProcessorAdd block] := by
  rw [QueryCallback_success_eq s account block it hfind hst]
  refine ⟨?_, ?_, ?_, rfl, rfl, rfl, rfl⟩
  · simp [Syncer.call, mapFind_mapModify_self, hfind, accepted]
  · intro other hne
    simp [Syncer.call, mapFind_mapModify_ne _ _ _ _ hne]
  · simp only [Syncer.call, mapModify, List.map_map]
    apply List.map_congr_left
    intro a _
    by_cases ha : a.1 = account <;> simp [ha]

/-- C4, on scenario 1 of the specification: `Add (7, 0, zero)` makes one
`QueryByHeight (7, 0)`; `SUCCESS` with the block of hash 99 at height 0 puts
the entry in `PROCESS` with current 99 and submits the block; `APPEND` with
`SUCCESS` puts it back in `QUERY` at height 1 with previous 99. -/
theorem QueryCallback_success_witness :
    ∃ s1, Add Syncer.init 7 0 0 true 3 = some s1
      ∧ s1.calls_ = [Call.QueryByHeight 7 0 false (QueryCallbackByAccount_ 7 0)]
      ∧ mapFind 7 (QueryCallback s1 7 QueryStatus.SUCCESS (plainBlock 7 99 0)).syncs_
          = some { status_ := SyncStatus.PROCESS, first_ := false, batch_id_ := 3,
                   height_ := 0, previous_ := 0, current_ := 99 }
      ∧ (QueryCallback s1 7 QueryStatus.SUCCESS (plainBlock 7 99 0)).calls_
          = [Call.QueryByHeight 7 0 false (QueryCallbackByAccount_ 7 0),
             Call.BlockProcessorAdd (plainBlock 7 99 0)]
      ∧ ∃ s3, ProcessorCallback Node.blank
            (QueryCallback s1 7 QueryStatus.SUCCESS (plainBlock 7 99 0))
            { operation_ := BlockOperation.APPEND,
              error_code_ := ErrorCode.SUCCESS } (plainBlock 7 99 0) = some s3
          ∧ mapFind 7 s3.syncs_
              = some { status_ := SyncStatus.QUERY, first_ := false,
                       batch_id_ := 3, height_ := 1, previous_ := 99,
                       current_ := 0 } :=
  ⟨scenarioAdded, rfl, rfl,
    (QueryCallback_success scenarioAdded 7 (plainBlock 7 99 0)
      (newInfo 0 0 true 3) rfl rfl).1,
    rfl, _, rfl, rfl⟩

/-- C5: over every call of a state-changing method, the miss counter is
strictly greater afterwards only when the call is `QueryCallback` with `MISS`
on an account whose entry is in `QUERY` with its first flag set, and then it
is greater by exactly one.  A `MISS` for an entry whose first flag is clear
leaves the counter unchanged, and a `MISS` for an entry in `QUERY` whose first
flag is set increments the 64-bit counter. -/
theorem miss_increment (s s1 : Syncer) (op : Op) (h : step s op = some s1) :
    (s.stat_.miss_ < s1.stat_.miss_ →
        (∃ account block it, op = Op.QueryCallback account QueryStatus.MISS block
          ∧ mapFind account s.syncs_ = some it
          ∧ it.status_ = SyncStatus.QUERY ∧ it.first_ = true)
        ∧ s1.stat_.miss_ = s.stat_.miss_ + 1)
    ∧ (∀ account block it, op = Op.QueryCallback account QueryStatus.MISS block →
        mapFind account s.syncs_ = some it → it.first_ = false →
        s1.stat_.miss_ = s.stat_.miss_)
    ∧ (∀ account block it, op = Op.QueryCallback account QueryStatus.MISS block →
        mapFind account s.syncs_ = some it → it.status_ = SyncStatus.QUERY →
        it.first_ = true →
        s1.stat_.miss_ = (s.stat_.miss_ + 1) % UINT64_MOD) := by
  cases op with
  | Add account height previous stat batch_id =>
    have e := Add_miss _ _ _ _ _ _ _ h
    exact ⟨fun hlt => (by omega), fun _ _ _ ho => (by cases ho),
      fun _ _ _ ho => (by cases ho)⟩
  | AddQuery batch_id =>
    simp only [step, Option.map_eq_some'] at h
    obtain ⟨r, hr, e⟩ := h
    obtain ⟨_, e1, _⟩ := AddQuery_eq s r.2 batch_id r.1 hr
    have e2 : s1.stat_.miss_ = s.stat_.miss_ := by rw [← e, e1]
    exact ⟨fun hlt => (by omega), fun _ _ _ ho => (by cases ho),
      fun _ _ _ ho => (by cases ho)⟩
  | Erase account =>
    simp only [step, Option.some.injEq] at h
    have e2 : s1.stat_.miss_ = s.stat_.miss_ := by
      rw [← h]; unfold Erase; split <;> rfl
    exact ⟨fun hlt => (by omega), fun _ _ _ ho => (by cases ho),
      fun _ _ _ ho => (by cases ho)⟩
  | EraseQuery query_id =>
    simp only [step, Option.some.injEq] at h
    have e2 : s1.stat_.miss_ = s.stat_.miss_ := by rw [← h]; rfl
    exact ⟨fun hlt => (by omega), fun _ _ _ ho => (by cases ho),
      fun _ _ _ ho => (by cases ho)⟩
  | ProcessorCallback node result block =>
    have e2 := ProcessorCallback_miss _ _ _ _ _ h
    exact ⟨fun hlt => (by omega), fun _ _ _ ho => (by cases ho),
      fun _ _ _ ho => (by cases ho)⟩
  | ResetStat =>
    simp only [step, Option.some.injEq] at h
    have e2 : s1.stat_.miss_ = 0 := by rw [← h]; rfl
    exact ⟨fun hlt => (by omega), fun _ _ _ ho => (by cases ho),
      fun _ _ _ ho => (by cases ho)⟩
  | QueryCallback account status block =>
    simp only [step, Option.some.injEq] at h
    subst h
    have hidle : (∀ it, mapFind account s.syncs_ = some it →
        it.status_ ≠ SyncStatus.QUERY) →
        (QueryCallback s account status block).stat_.miss_ = s.stat_.miss_ :=
      fun hi => by rw [QueryCallback_idle _ _ _ _ hi]
    refine ⟨?_, ?_, ?_⟩
    · intro hlt
      by_cases hs : status = QueryStatus.MISS
      swap
      · rw [QueryCallback_stat _ _ _ _ hs] at hlt
        omega
      subst hs
      cases hf : mapFind account s.syncs_ with
      | none =>
        rw [hidle (fun it hit => by rw [hf] at hit; cases hit)] at hlt
        omega
      | some it =>
        by_cases hst : it.status_ = SyncStatus.QUERY
        swap
        · rw [hidle (fun i hi => by rw [hf] at hi; cases hi; exact hst)] at hlt
          omega
        rw [QueryCallback_miss_eq _ _ _ it hf hst] at hlt ⊢
        cases hfirst : it.first_ with
        | false => simp [hfirst] at hlt
        | true =>
          simp only [hfirst, if_true] at hlt ⊢
          refine ⟨⟨account, block, it, rfl, hf, hst, hfirst⟩, ?_⟩
          have hle := Nat.mod_le (s.stat_.miss_ + 1) UINT64_MOD
          by_cases hw : s.stat_.miss_ + 1 < UINT64_MOD
          · exact Nat.mod_eq_of_lt hw
          · have hm : (s.stat_.miss_ + 1) % UINT64_MOD < UINT64_MOD :=
              Nat.mod_lt _ (by decide)
            simp only [UINT64_MOD] at hlt hw hm hle ⊢
            omega
    · intro a b it ho hf hfirst
      cases ho
      by_cases hst : it.status_ = SyncStatus.QUERY
      · rw [QueryCallback_miss_eq _ _ _ it hf hst]
        simp [hfirst]
      · exact hidle (fun i hi => by rw [hf] at hi; cases hi; exact hst)
    · intro a b it ho hf hst hfirst
      cases ho
      rw [QueryCallback_miss_eq _ _ _ it hf hst]
      simp [hfirst]

/-- C5, on a concrete state: a `MISS` on the first query of account 7 takes
the miss counter from 0 to 1. -/
theorem miss_increment_witness :
    (∃ account block it,
        Op.QueryCallback 7 QueryStatus.MISS (plainBlock 7 0 0)
          = Op.QueryCallback account QueryStatus.MISS block
        ∧ mapFind account (Syncer.single 7 (newInfo 0 0 true 3)).syncs_ = some it
        ∧ it.status_ = SyncStatus.QUERY ∧ it.first_ = true)
    ∧ (QueryCallback (Syncer.single 7 (newInfo 0 0 true 3)) 7 QueryStatus.MISS
        (plainBlock 7 0 0)).stat_.miss_
      = (Syncer.single 7 (newInfo 0 0 true 3)).stat_.miss_ + 1 :=
  (miss_increment (Syncer.single 7 (newInfo 0 0 true 3)) _
    (Op.QueryCallback 7 QueryStatus.MISS (plainBlock 7 0 0)) rfl).1 (by decide)

/-- C6, as stated, fails: with the statistics flag clear, `Add (7, 0, zero)`
followed by five `MISS` acks does not leave the miss counter one greater than
before the `Add`. -/
theorem miss_cap_counterexample :
    ∃ s1, Add Syncer.init 7 0 0 false 3 = some s1
      ∧ s1.calls_ = [Call.QueryByHeight 7 0 false (QueryCallbackByAccount_ 7 0)]
      ∧ ((QueryCallbackByAccount_ 7 0).run s1 []
          (List.replicate 5 (missAck (plainBlock 7 0 0)))).2.1.stat_.miss_
        ≠ Syncer.init.stat_.miss_ + 1 :=
  ⟨_, rfl, rfl, by decide⟩

/-- C6, amended: when `account` is not pending, `Add (account, 0, zero)`
returns (as long as a query id is free) having made one `QueryByHeight` call
with a fresh by-account callback; five invocations of that callback, each
with a single `MISS` ack, append `CONTINUE` four times (the state being
unchanged meanwhile) and `FINISH` the fifth time; afterwards `account` is not
in `syncs_`, the query is no longer in `queries_`, and the miss counter is,
as a 64-bit counter, one greater than before the `Add` when the statistics
flag is set and unchanged when it is clear. -/
theorem miss_cap (s : Syncer) (account : Account) (stat : Bool) (batch_id : Nat)
    (b1 b2 b3 b4 b5 : Block) (result : List QueryCallbackStatus)
    (hnone : mapFind account s.syncs_ = none) :
    (s.queries_.length < UINT64_MOD →
        ∃ s1, Add s account 0 0 stat batch_id = some s1)
    ∧ (∀ s1, Add s account 0 0 stat batch_id = some s1 →
        ∃ query_id,
          s1.calls_ = s.calls_ ++ [Call.QueryByHeight account 0 false
            (QueryCallbackByAccount_ account query_id)]
          ∧ (QueryCallbackByAccount_ account query_id).run s1 result
              [missAck b1, missAck b2, missAck b3, missAck b4]
            = ({ account := account, query_id := query_id, count := 4 }, s1,
               result ++ [QueryCallbackStatus.CONTINUE, QueryCallbackStatus.CONTINUE,
                 QueryCallbackStatus.CONTINUE, QueryCallbackStatus.CONTINUE])
          ∧ ((QueryCallbackByAccount_ account query_id).run s1 result
              [missAck b1, missAck b2, missAck b3, missAck b4, missAck b5]).2.2
            = result ++ [QueryCallbackStatus.CONTINUE, QueryCallbackStatus.CONTINUE,
                QueryCallbackStatus.CONTINUE, QueryCallbackStatus.CONTINUE,
                QueryCallbackStatus.FINISH]
          ∧ mapFind account ((QueryCallbackByAccount_ account query_id).run s1 result
              [missAck b1, missAck b2, missAck b3, missAck b4, missAck b5]).2.1.syncs_
            = none
          ∧ ((QueryCallbackByAccount_ account query_id).run s1 result
              [missAck b1, missAck b2, missAck b3, missAck b4, missAck b5]).2.1.syncs_
            = s.syncs_
          ∧ ((QueryCallbackByAccount_ account query_id).run s1 result
              [missAck b1, missAck b2, missAck b3, missAck b4, missAck b5]).2.1.queries_
            = s.queries_
          ∧ ((QueryCallbackByAccount_ account query_id).run s1 result
              [missAck b1, missAck b2, missAck b3, missAck b4, missAck b5]).2.1.stat_.miss_
            = if stat then (s.stat_.miss_ + 1) % UINT64_MOD else s.stat_.miss_) := by
  refine ⟨Add_returns _ _ _ _ _ _, ?_⟩
  intro s1 hadd
  obtain ⟨query_id, current, hfree, hs1⟩ := Add_eq _ _ _ _ _ _ _ hnone hadd
  have hfind : mapFind account s1.syncs_ = some (newInfo 0 0 stat batch_id) := by
    simp [hs1, mapFind]
  have hmiss := QueryCallback_miss_eq s1 account b5 _ hfind rfl
  have hsy : mapErase account s1.syncs_ = s.syncs_ := by
    rw [hs1]
    simp only [mapErase, List.filter_cons, ne_eq, not_true_eq_false,
      decide_False, Bool.false_eq_true, if_false]
    exact mapErase_absent _ _ hnone
  have hqu : mapErase query_id s1.queries_ = s.queries_ := by
    rw [hs1]
    simp only [mapErase, List.filter_cons, ne_eq, not_true_eq_false,
      decide_False, Bool.false_eq_true, if_false]
    exact mapErase_absent _ _ hfree
  refine ⟨query_id, ?_, ?_, ?_, ?_, ?_, ?_, ?_⟩
  · rw [hs1]; simp [accountQuery, newInfo, QueryCallbackByAccount_]
  · simp [AccountCallback.run, invoke_miss, missAck, QueryCallbackByAccount_]
  · simp [AccountCallback.run, invoke_miss, missAck, QueryCallbackByAccount_]
  · simp [AccountCallback.run, invoke_miss, missAck, QueryCallbackByAccount_,
      hmiss, EraseQuery, mapFind_mapErase_self]
  · simp [AccountCallback.run, invoke_miss, missAck, QueryCallbackByAccount_,
      hmiss, EraseQuery, hsy]
  · simp [AccountCallback.run, invoke_miss, missAck, QueryCallbackByAccount_,
      hmiss, EraseQuery, hqu]
  · simp [AccountCallback.run, invoke_miss, missAck, QueryCallbackByAccount_,
      hmiss, EraseQuery, newInfo]
    rw [hs1]

/-- C6 amended, on a fresh syncer with the statistics flag set: the miss
counter ends at 1. -/
theorem miss_cap_witness :
    ∃ s1, Add Syncer.init 7 0 0 true 3 = some s1
      ∧ ((QueryCallbackByAccount_ 7 0).run s1 []
          (List.replicate 5 (missAck (plainBlock 7 0 0)))).2.2
        = [QueryCallbackStatus.CONTINUE, QueryCallbackStatus.CONTINUE,
           QueryCallbackStatus.CONTINUE, QueryCallbackStatus.CONTINUE,
           QueryCallbackStatus.FINISH]
      ∧ ((QueryCallbackByAccount_ 7 0).run s1 []
          (List.replicate 5 (missAck (plainBlock 7 0 0)))).2.1.stat_.miss_ = 1
      ∧ ∃ s2, Add Syncer.init 7 0 0 true 3 = some s2 :=
  ⟨_, rfl, by decide, by decide,
    (miss_cap Syncer.init 7 true 3 (plainBlock 7 0 0) (plainBlock 7 0 0)
      (plainBlock 7 0 0) (plainBlock 7 0 0) (plainBlock 7 0 0) [] rfl).1
      (by decide)⟩

/-- C8, as stated, fails: a peer block whose hash is zero, accepted with
`SUCCESS`, leaves a reachable state with an entry in `PROCESS` whose current
hash is zero. -/
theorem process_current_counterexample :
    Reachable (QueryCallback scenarioAdded 7 QueryStatus.SUCCESS (plainBlock 7 0 0))
    ∧ mapFind 7
        (QueryCallback scenarioAdded 7 QueryStatus.SUCCESS (plainBlock 7 0 0)).syncs_
      = some { status_ := SyncStatus.PROCESS, first_ := false, batch_id_ := 3,
               height_ := 0, previous_ := 0, current_ := 0 } :=
  ⟨ReachableVia.step (Op.QueryCallback 7 QueryStatus.SUCCESS (plainBlock 7 0 0))
      (ReachableVia.step (Op.Add 7 0 0 true 3) ReachableVia.init trivial rfl)
      trivial rfl,
    rfl⟩

/-- C8, amended: in every state reachable from the initial state by calls of
`Add`, `AddQuery`, `Erase`, `EraseQuery`, `QueryCallback`, `ProcessorCallback`
and `ResetStat` with arbitrary arguments, except that every block passed to
`QueryCallback` with `SUCCESS` has a non-zero hash, every entry of `syncs_`
in `PROCESS` has a non-zero current hash. -/
theorem process_has_current (s : Syncer) (h : ReachableVia Op.nonzeroHash s) :
    ∀ e ∈ s.syncs_, e.2.status_ = SyncStatus.PROCESS → e.2.current_ ≠ 0 := by
  induction h with
  | init => intro e he; simp [Syncer.init] at he
  | step op _ hok hstep ih => exact step_allHaveCurrent _ _ op hok hstep ih

/-- C8 amended, on the state after `Add (7, 0, zero)` and `SUCCESS` with the
block of hash 99: the state is reachable, its entry is in `PROCESS`, and the
current hash of the entry is not zero. -/
theorem process_has_current_witness :
    ReachableVia Op.nonzeroHash
        (QueryCallback scenarioAdded 7 QueryStatus.SUCCESS (plainBlock 7 99 0))
    ∧ (accepted (plainBlock 7 99 0) (newInfo 0 0 true 3)).status_
        = SyncStatus.PROCESS
    ∧ (accepted (plainBlock 7 99 0) (newInfo 0 0 true 3)).current_ ≠ 0 :=
  ⟨ReachableVia.step (Op.QueryCallback 7 QueryStatus.SUCCESS (plainBlock 7 99 0))
      (ReachableVia.step (Op.Add 7 0 0 true 3) ReachableVia.init trivial rfl)
      (by decide : (99 : Nat) ≠ 0) rfl,
    rfl,
    process_has_current
      (QueryCallback scenarioAdded 7 QueryStatus.SUCCESS (plainBlock 7 99 0))
      (ReachableVia.step (Op.QueryCallback 7 QueryStatus.SUCCESS (plainBlock 7 99 0))
        (ReachableVia.step (Op.Add 7 0 0 true 3) ReachableVia.init trivial rfl)
        (by decide : (99 : Nat) ≠ 0) rfl)
      (7, accepted (plainBlock 7 99 0) (newInfo 0 0 true 3))
      (List.mem_singleton.mpr rfl) rfl⟩

/-- C10: the account overload of `BlockQuery_` returns as long as fewer than
`2 ^ 64` queries are outstanding, and when it returns it has registered one
new entry `(query_id, batch_id)` in `queries_` under an id that was free, and
has made exactly one call: `QueryByHeight (account, info.height_)` when
`info.height_` is `0` or `info.previous_` is zero, and
`QueryByPrevious (account, info.height_, info.previous_)` otherwise, each with
the by-account callback of that query id.  `syncs_` and `stat_` are
unchanged. -/
theorem BlockQuery__account (s : Syncer) (account : Account) (info : SyncInfo)
    (batch_id : Nat) :
    (s.queries_.length < UINT64_MOD →
        ∃ s1, BlockQuery_ s account info batch_id = some s1)
    ∧ (∀ s1, BlockQuery_ s account info batch_id = some s1 →
        ∃ query_id, mapFind query_id s.queries_ = none
          ∧ s1.queries_ = (query_id, batch_id) :: s.queries_
          ∧ s1.syncs_ = s.syncs_ ∧ s1.stat_ = s.stat_
          ∧ s1.calls_ = s.calls_ ++
              [if info.height_ = 0 ∨ info.previous_ = 0 then
                 Call.QueryByHeight account info.height_ false
                   (QueryCallbackByAccount_ account query_id)
               else
                 Call.QueryByPrevious account info.height_ info.previous_ false
                   (QueryCallbackByAccount_ account query_id)]) := by
  refine ⟨BlockQuery__returns _ _ _ _, ?_⟩
  intro s1 h
  obtain ⟨query_id, current, hfree, hs1⟩ := BlockQuery__eq _ _ _ _ _ h
  refine ⟨query_id, hfree, ?_⟩
  simp [hs1, accountQuery, QueryCallbackByAccount_]

/-- C10, on a concrete state: a query by previous for height 4. -/
theorem BlockQuery__account_witness :
    ∃ s1, BlockQuery_ Syncer.init 7
      { status_ := SyncStatus.QUERY, first_ := true, batch_id_ := 3,
        height_ := 4, previous_ := 9, current_ := 0 } 3 = some s1 :=
  (BlockQuery__account Syncer.init 7 _ 3).1 (by decide)

/-! ## The processor callback: frame and remaining paths -/

theorem mapModify_keys {β : Type} (k : Nat) (f : β → β) (m : List (Nat × β)) :
    (mapModify k f m).map Prod.fst = m.map Prod.fst := by
  simp only [mapModify, List.map_map]
  apply List.map_congr_left
  intro a _
  by_cases ha : a.1 = k <;> simp [ha]

/-- The hash overload of `BlockQuery_` returns as long as fewer than `2 ^ 64`
queries are outstanding. -/
theorem BlockQuery_hash_returns (node : Node) (s : Syncer) (hash : BlockHash)
    (batch_id : Nat) (h : s.queries_.length < UINT64_MOD) :
    ∃ s1, BlockQuery_hash node s hash batch_id = some s1 := by
  obtain ⟨query_id, s0, ha⟩ := AddQuery_returns s batch_id h
  unfold BlockQuery_hash
  simp only [ha]
  exact ⟨_, rfl⟩

/-- `ProcessorCallback` does nothing unless the operation is `APPEND` or
`DROP` and the entry of the account is in `PROCESS` with the hash of the
block as its current hash. -/
theorem ProcessorCallback_idle (node : Node) (s : Syncer)
    (result : BlockProcessResult) (block : Block)
    (h : (result.operation_ ≠ BlockOperation.APPEND
          ∧ result.operation_ ≠ BlockOperation.DROP)
      ∨ mapFind block.Account s.syncs_ = none
      ∨ ∃ it, mapFind block.Account s.syncs_ = some it
          ∧ (it.status_ ≠ SyncStatus.PROCESS ∨ it.current_ ≠ block.Hash)) :
    ProcessorCallback node s result block = some s := by
  unfold ProcessorCallback
  by_cases hop : result.operation_ ≠ BlockOperation.APPEND
      ∧ result.operation_ ≠ BlockOperation.DROP
  · rw [if_pos hop]
  rw [if_neg hop]
  have hl : ProcessorCallback_locked s result block = (s, none) := by
    unfold ProcessorCallback_locked
    rcases h with h | h | ⟨it, hit, h⟩
    · exact absurd h hop
    · simp only [h]
    · simp only [hit]
      rcases h with h | h
      · rw [if_pos h]
      · by_cases hst : it.status_ ≠ SyncStatus.PROCESS
        · rw [if_pos hst]
        · rw [if_neg hst, if_pos h]
  simp only [hl]

/-- `ProcessorCallback` on an `APPEND` that fails for want of the source of
the block: the entry is dropped and the source is looked up by hash. -/
theorem ProcessorCallback_source_eq (node : Node) (s : Syncer)
    (result : BlockProcessResult) (block : Block) (it : SyncInfo)
    (hop : result.operation_ = BlockOperation.APPEND)
    (hec : result.error_code_ = ErrorCode.BLOCK_PROCESS_GAP_RECEIVE_SOURCE
      ∨ result.error_code_ = ErrorCode.BLOCK_PROCESS_GAP_REWARD_SOURCE
      ∨ result.error_code_ = ErrorCode.BLOCK_PROCESS_UNREWARDABLE)
    (hfind : mapFind block.Account s.syncs_ = some it)
    (hst : it.status_ = SyncStatus.PROCESS) (hcur : it.current_ = block.Hash) :
    ProcessorCallback node s result block
      = BlockQuery_hash node
          { s with syncs_ := mapErase block.Account s.syncs_ }
          block.Link it.batch_id_ := by
  have hid : ∀ o : Option Syncer,
      (match o with | none => none | some s2 => some s2) = o := by
    intro o; cases o <;> rfl
  unfold ProcessorCallback ProcessorCallback_locked
  rcases hec with hec | hec | hec <;>
  · simp only [hop, hfind, hst, hcur, hec]
    simp
    exact hid _

/-- The other accounts keep their entries over `ProcessorCallback`. -/
theorem ProcessorCallback_others (node : Node) (s s1 : Syncer)
    (result : BlockProcessResult) (block : Block)
    (h : ProcessorCallback node s result block = some s1)
    (other : Account) (hne : other ≠ block.Account) (i : SyncInfo)
    (hi : mapFind other s.syncs_ = some i) :
    mapFind other s1.syncs_ = some i := by
  rcases ProcessorCallback_cases node s s1 result block h with
    e | ⟨it, _, _, _, hc⟩
  · rw [e]; exact hi
  · rcases hc with ⟨_, hq⟩ | ⟨_, _, s2, hq, hr⟩ | ⟨_, _, hq⟩ | ⟨_, _, e⟩
    · obtain ⟨_, _, _, e⟩ := BlockQuery__eq _ _ _ _ _ hq
      rw [e]
      simp only
      rw [mapFind_mapModify_ne _ _ _ _ hne, hi]
    · obtain ⟨_, _, _, e⟩ := BlockQuery__eq _ _ _ _ _ hq
      have h2 : mapFind other s2.syncs_ = some i := by
        rw [e]
        simp only
        rw [mapFind_mapModify_ne _ _ _ _ hne, hi]
      have hk := SyncRelated_keeps other node s2 s1 block it.batch_id_
        (by rw [h2]; rfl) hr
      rw [hk.1, h2]
    · obtain ⟨_, _, _, e⟩ := BlockQuery_hash_eq _ _ _ _ _ hq
      rw [e]
      simp only
      rw [mapFind_mapErase_ne _ _ _ hne, hi]
    · rw [e]
      simp only
      rw [mapFind_mapErase_ne _ _ _ hne, hi]

/-- C11: `ProcessorCallback` returns the state it was given, with `syncs_`,
`queries_`, the query-id counter, `stat_` and the calls made unchanged,
whenever the operation is neither `APPEND` nor `DROP`, or `block.Account` has
no entry, or that entry is not in `PROCESS`, or its current hash differs from
`block.Hash`; and whenever it returns, every other account that had an entry
still has that same entry. -/
theorem ProcessorCallback_frame (node : Node) (s : Syncer)
    (result : BlockProcessResult) (block : Block) :
    ((result.operation_ ≠ BlockOperation.APPEND
          ∧ result.operation_ ≠ BlockOperation.DROP)
        ∨ mapFind block.Account s.syncs_ = none
        ∨ (∃ it, mapFind block.Account s.syncs_ = some it
            ∧ (it.status_ ≠ SyncStatus.PROCESS ∨ it.current_ ≠ block.Hash)) →
      ProcessorCallback node s result block = some s)
    ∧ (∀ s1, ProcessorCallback node s result block = some s1 →
        ∀ other, other ≠ block.Account → ∀ i,
          mapFind other s.syncs_ = some i → mapFind other s1.syncs_ = some i) :=
  ⟨ProcessorCallback_idle node s result block,
    fun s1 h other hne i hi =>
      ProcessorCallback_others node s s1 result block h other hne i hi⟩

/-- C11, on a concrete state: a `DROP` of a block whose hash is not the one
the entry of account 7 is waiting for changes nothing. -/
theorem ProcessorCallback_frame_witness :
    ProcessorCallback Node.blank (Syncer.single 7 scenarioProcessing)
        { operation_ := BlockOperation.DROP, error_code_ := ErrorCode.SUCCESS }
        (plainBlock 7 98 0)
      = some (Syncer.single 7 scenarioProcessing) :=
  (ProcessorCallback_frame Node.blank (Syncer.single 7 scenarioProcessing)
    { operation_ := BlockOperation.DROP, error_code_ := ErrorCode.SUCCESS }
    (plainBlock 7 98 0)).1
    (Or.inr (Or.inr ⟨scenarioProcessing, rfl, Or.inr (by decide)⟩))

/-- C12: when the entry of `block.Account` is in `PROCESS` with current hash
`block.Hash`, `ProcessorCallback` with `APPEND` and
`BLOCK_PROCESS_GAP_RECEIVE_SOURCE`, `BLOCK_PROCESS_GAP_REWARD_SOURCE` or
`BLOCK_PROCESS_UNREWARDABLE` returns (as long as a query id is free), and on
return `block.Account` has no entry, the other accounts have the entries they
had, the only call made is one `QueryByHash` for `block.Link`, and its query
is registered in `queries_` under the batch id of the removed entry, so that
`Finished` of that batch is false. -/
theorem ProcessorCallback_source_miss (node : Node) (s : Syncer)
    (result : BlockProcessResult) (block : Block) (it : SyncInfo)
    (hop : result.operation_ = BlockOperation.APPEND)
    (hec : result.error_code_ = ErrorCode.BLOCK_PROCESS_GAP_RECEIVE_SOURCE
      ∨ result.error_code_ = ErrorCode.BLOCK_PROCESS_GAP_REWARD_SOURCE
      ∨ result.error_code_ = ErrorCode.BLOCK_PROCESS_UNREWARDABLE)
    (hfind : mapFind block.Account s.syncs_ = some it)
    (hst : it.status_ = SyncStatus.PROCESS) (hcur : it.current_ = block.Hash) :
    (s.queries_.length < UINT64_MOD →
        ∃ s1, ProcessorCallback node s result block = some s1)
    ∧ (∀ s1, ProcessorCallback node s result block = some s1 →
        mapFind block.Account s1.syncs_ = none
        ∧ (∀ other, other ≠ block.Account →
            mapFind other s1.syncs_ = mapFind other s.syncs_)
        ∧ s1.stat_ = s.stat_
        ∧ (∃ query_id, mapFind query_id s.queries_ = none
            ∧ s1.queries_ = (query_id, it.batch_id_) :: s.queries_
            ∧ s1.calls_ = s.calls_ ++
                [Call.QueryByHash 0 node.INVALID_HEIGHT block.Link true
                  (QueryCallbackByHash_ block.Link query_id)])
        ∧ Finished s1 it.batch_id_ = false) := by
  rw [ProcessorCallback_source_eq node s result block it hop hec hfind hst hcur]
  refine ⟨fun hlen => BlockQuery_hash_returns node _ _ _ (by simpa using hlen), ?_⟩
  intro s1 h
  obtain ⟨query_id, current, hfree, e⟩ := BlockQuery_hash_eq _ _ _ _ _ h
  refine ⟨?_, ?_, ?_, ⟨query_id, by simpa using hfree, ?_, ?_⟩, ?_⟩
  · rw [e]; exact mapFind_mapErase_self _ _
  · intro other hne
    rw [e]; exact mapFind_mapErase_ne _ _ _ hne
  · rw [e]
  · rw [e]
  · rw [e]; simp [QueryCallbackByHash_]
  · rw [e]
    simp [Finished]

/-- C12, on a concrete state: the block of hash 99 of account 7, whose link
is 55, lacks its source. -/
theorem ProcessorCallback_source_miss_witness :
    ∃ s1, ProcessorCallback Node.blank (Syncer.single 7 scenarioProcessing)
        { operation_ := BlockOperation.APPEND,
          error_code_ := ErrorCode.BLOCK_PROCESS_GAP_RECEIVE_SOURCE }
        { Account := 7, Hash := 99, Height := 0, Previous := 0, Link := 55,
          Opcode := BlockOpcode.OTHER, HasRepresentative := false,
          Representative := 0 } = some s1
      ∧ mapFind 7 s1.syncs_ = none ∧ Finished s1 3 = false := by
  have h := ProcessorCallback_source_miss Node.blank
    (Syncer.single 7 scenarioProcessing)
    { operation_ := BlockOperation.APPEND,
      error_code_ := ErrorCode.BLOCK_PROCESS_GAP_RECEIVE_SOURCE }
    { Account := 7, Hash := 99, Height := 0, Previous := 0, Link := 55,
      Opcode := BlockOpcode.OTHER, HasRepresentative := false,
      Representative := 0 } scenarioProcessing rfl (Or.inl rfl) rfl rfl rfl
  obtain ⟨s1, hs1⟩ := h.1 (by decide)
  exact ⟨s1, hs1, (h.2 s1 hs1).1, (h.2 s1 hs1).2.2.2.2⟩

/-- C13: when the entry of `block.Account` is in `PROCESS` with current hash
`block.Hash`, `ProcessorCallback` with `DROP`, whatever the error code,
returns (as long as a query id is free), and on return the entry is in
`QUERY` with the height, previous hash, batch id and first flag it had and a
zero current hash; the accounts in `syncs_` and the entries of the other
accounts are as before, `stat_` is unchanged, one query is registered under
the batch id of the entry, and the only call made is the account query for
the unchanged height and previous hash.  The ledger is not consulted:
`SyncRelated` is not triggered. -/
theorem ProcessorCallback_drop (node : Node) (s : Syncer)
    (result : BlockProcessResult) (block : Block) (it : SyncInfo)
    (hop : result.operation_ = BlockOperation.DROP)
    (hfind : mapFind block.Account s.syncs_ = some it)
    (hst : it.status_ = SyncStatus.PROCESS) (hcur : it.current_ = block.Hash) :
    (s.queries_.length < UINT64_MOD →
        ∃ s1, ProcessorCallback node s result block = some s1)
    ∧ (∀ node2, ProcessorCallback node2 s result block
        = ProcessorCallback node s result block)
    ∧ (∀ s1, ProcessorCallback node s result block = some s1 →
        mapFind block.Account s1.syncs_
          = some { status_ := SyncStatus.QUERY, first_ := it.first_,
                   batch_id_ := it.batch_id_, height_ := it.height_,
                   previous_ := it.previous_, current_ := 0 }
        ∧ (∀ other, other ≠ block.Account →
            mapFind other s1.syncs_ = mapFind other s.syncs_)
        ∧ s1.syncs_.map Prod.fst = s.syncs_.map Prod.fst
        ∧ s1.stat_ = s.stat_
        ∧ ∃ query_id, mapFind query_id s.queries_ = none
            ∧ s1.queries_ = (query_id, it.batch_id_) :: s.queries_
            ∧ s1.calls_ = s.calls_ ++
                [if it.height_ = 0 ∨ it.previous_ = 0 then
                   Call.QueryByHeight block.Account it.height_ false
                     (QueryCallbackByAccount_ block.Account query_id)
                 else
                   Call.QueryByPrevious block.Account it.height_ it.previous_
                     false (QueryCallbackByAccount_ block.Account query_id)]) := by
  refine ⟨?_, ?_, ?_⟩
  · intro hlen
    rw [ProcessorCallback_drop_eq node s result block it hop hfind hst hcur]
    exact BlockQuery__returns _ _ _ _ (by simpa using hlen)
  · intro node2
    rw [ProcessorCallback_drop_eq node s result block it hop hfind hst hcur,
      ProcessorCallback_drop_eq node2 s result block it hop hfind hst hcur]
  · rw [ProcessorCallback_drop_eq node s result block it hop hfind hst hcur]
    intro s1 h
    obtain ⟨query_id, current, hfree, e⟩ := BlockQuery__eq _ _ _ _ _ h
    refine ⟨?_, ?_, ?_, ?_, query_id, by simpa using hfree, ?_, ?_⟩
    · rw [e]
      simp only
      rw [mapFind_mapModify_self, hfind]
      rfl
    · intro other hne
      rw [e]; exact mapFind_mapModify_ne _ _ _ _ hne
    · rw [e]; exact mapModify_keys _ _ _
    · rw [e]
    · rw [e]
    · rw [e]
      simp [accountQuery, reverted, QueryCallbackByAccount_]

/-- C13, on a concrete state: the block of hash 99 of account 7 is dropped;
the entry is back in `QUERY` at height 0. -/
theorem ProcessorCallback_drop_witness :
    ∃ s1, ProcessorCallback Node.blank (Syncer.single 7 scenarioProcessing)
        { operation_ := BlockOperation.DROP, error_code_ := ErrorCode.OTHER }
        (plainBlock 7 99 0) = some s1
      ∧ mapFind 7 s1.syncs_
          = some { status_ := SyncStatus.QUERY, first_ := false, batch_id_ := 3,
                   height_ := 0, previous_ := 0, current_ := 0 } := by
  have h := ProcessorCallback_drop Node.blank (Syncer.single 7 scenarioProcessing)
    { operation_ := BlockOperation.DROP, error_code_ := ErrorCode.OTHER }
    (plainBlock 7 99 0) scenarioProcessing rfl rfl rfl rfl
  obtain ⟨s1, hs1⟩ := h.1 (by decide)
  exact ⟨s1, hs1, (h.2.2 s1 hs1).1⟩

/-! ## Resetting the statistics -/

/-- What a call can do to an entry that is in `syncs_` before and after it. -/
theorem entry_step (s s1 : Syncer) (op : Op) (account : Account)
    (i i1 : SyncInfo) (hstep : step s op = some s1)
    (hi : mapFind account s.syncs_ = some i)
    (hi1 : mapFind account s1.syncs_ = some i1) :
    i1 = i ∨ i1 = { i with first_ := false } ∨ (∃ block, i1 = accepted block i)
      ∨ i1 = reverted i ∨ (∃ block, i1 = advanced block i) := by
  cases op with
  | Add a height previous stat batch_id =>
    have hk := Add_keeps account s s1 a height previous stat batch_id
      (by rw [hi]; rfl) hstep
    rw [hk.1, hi] at hi1
    cases hi1; exact Or.inl rfl
  | AddQuery batch_id =>
    simp only [step, Option.map_eq_some'] at hstep
    obtain ⟨r, hr, e⟩ := hstep
    obtain ⟨_, e1, _⟩ := AddQuery_eq s r.2 batch_id r.1 hr
    rw [← e, e1] at hi1
    simp only at hi1
    rw [hi] at hi1
    cases hi1; exact Or.inl rfl
  | Erase a =>
    simp only [step, Option.some.injEq] at hstep
    rw [← hstep] at hi1
    unfold Erase at hi1
    cases ha : mapFind a s.syncs_ with
    | none =>
      simp only [ha] at hi1
      rw [hi] at hi1
      cases hi1; exact Or.inl rfl
    | some v =>
      simp only [ha] at hi1
      by_cases hne : account = a
      · rw [hne, mapFind_mapErase_self] at hi1; cases hi1
      · rw [mapFind_mapErase_ne _ _ _ hne, hi] at hi1
        cases hi1; exact Or.inl rfl
  | EraseQuery query_id =>
    simp only [step, Option.some.injEq] at hstep
    rw [← hstep] at hi1
    simp only [EraseQuery] at hi1
    rw [hi] at hi1
    cases hi1; exact Or.inl rfl
  | ResetStat =>
    simp only [step, Option.some.injEq] at hstep
    rw [← hstep] at hi1
    have hfind : mapFind account (ResetStat s).syncs_
        = some { i with first_ := false } := by
      have hgen : ∀ m : List (Account × SyncInfo), mapFind account m = some i →
          mapFind account
            (m.map (fun it => (it.1, { it.2 with first_ := false })))
          = some { i with first_ := false } := by
        intro m
        induction m with
        | nil => intro h; simp [mapFind] at h
        | cons e t ih =>
          intro h
          by_cases he : e.1 = account
          · simp only [mapFind, he, if_true, Option.some.injEq] at h
            simp [mapFind, he, h]
          · simp only [mapFind, he, if_false] at h
            simp only [List.map_cons, mapFind, he, if_false]
            exact ih h
      exact hgen s.syncs_ hi
    rw [hfind] at hi1
    cases hi1; exact Or.inr (Or.inl rfl)
  | QueryCallback a status block =>
    simp only [step, Option.some.injEq] at hstep
    rw [← hstep] at hi1
    rcases QueryCallback_syncs s a status block with e | e | ⟨_, e⟩
    · rw [e, hi] at hi1; cases hi1; exact Or.inl rfl
    · rw [e] at hi1
      by_cases ha : account = a
      · rw [ha, mapFind_mapErase_self] at hi1; cases hi1
      · rw [mapFind_mapErase_ne _ _ _ ha, hi] at hi1
        cases hi1; exact Or.inl rfl
    · rw [e] at hi1
      by_cases ha : account = a
      · rw [ha, mapFind_mapModify_self, ← ha, hi] at hi1
        cases hi1; exact Or.inr (Or.inr (Or.inl ⟨block, rfl⟩))
      · rw [mapFind_mapModify_ne _ _ _ _ ha, hi] at hi1
        cases hi1; exact Or.inl rfl
  | ProcessorCallback node result block =>
    simp only [step] at hstep
    by_cases ha : account = block.Account
    swap
    · have := ProcessorCallback_others node s s1 result block hstep account ha i hi
      rw [this] at hi1
      cases hi1; exact Or.inl rfl
    rcases ProcessorCallback_cases node s s1 result block hstep with
      e | ⟨it, hit, _, _, hc⟩
    · rw [e, hi] at hi1; cases hi1; exact Or.inl rfl
    · rw [← ha, hi] at hit
      cases hit
      rcases hc with ⟨_, hq⟩ | ⟨_, _, s2, hq, hr⟩ | ⟨_, _, hq⟩ | ⟨_, _, e⟩
      · obtain ⟨_, _, _, e⟩ := BlockQuery__eq _ _ _ _ _ hq
        rw [e] at hi1
        simp only at hi1
        rw [ha, mapFind_mapModify_self, ← ha, hi] at hi1
        cases hi1; exact Or.inr (Or.inr (Or.inr (Or.inl rfl)))
      · obtain ⟨_, _, _, e⟩ := BlockQuery__eq _ _ _ _ _ hq
        have h2 : mapFind account s2.syncs_ = some (advanced block i) := by
          rw [e]
          simp only
          rw [ha, mapFind_mapModify_self, ← ha, hi]; rfl
        have hk := SyncRelated_keeps account node s2 s1 block i.batch_id_
          (by rw [h2]; rfl) hr
        rw [hk.1, h2] at hi1
        cases hi1; exact Or.inr (Or.inr (Or.inr (Or.inr ⟨block, rfl⟩)))
      · obtain ⟨_, _, _, e⟩ := BlockQuery_hash_eq _ _ _ _ _ hq
        rw [e] at hi1
        simp only at hi1
        rw [ha, mapFind_mapErase_self] at hi1; cases hi1
      · rw [e] at hi1
        simp only at hi1
        rw [ha, mapFind_mapErase_self] at hi1; cases hi1

/-- The entry of an account after `ResetStat`. -/
theorem mapFind_ResetStat (s : Syncer) (account : Account) :
    mapFind account (ResetStat s).syncs_
      = (mapFind account s.syncs_).map (fun i => { i with first_ := false }) := by
  simp only [ResetStat]
  induction s.syncs_ with
  | nil => rfl
  | cons e t ih =>
    by_cases he : e.1 = account
    · simp [mapFind, he]
    · simp only [List.map_cons, mapFind, he, if_false]
      exact ih

/-- A `MISS` for an entry whose first flag is clear leaves `stat_` alone. -/
theorem QueryCallback_miss_clear (s : Syncer) (account : Account) (block : Block)
    (i : SyncInfo) (hi : mapFind account s.syncs_ = some i)
    (hf : i.first_ = false) :
    (QueryCallback s account QueryStatus.MISS block).stat_ = s.stat_ := by
  by_cases hst : i.status_ = SyncStatus.QUERY
  · rw [QueryCallback_miss_eq _ _ _ i hi hst]
    simp [hf]
  · rw [QueryCallback_idle]
    intro j hj
    rw [hi] at hj; cases hj; exact hst

/-- C14: `ResetStat` sets both counters of `stat_` to 0 and clears the first
flag of every entry; the status, batch id, height, previous and current hash
of every entry, the accounts in `syncs_`, `queries_`, the query-id counter
and the calls made are unchanged.  Hence a `MISS` right after the reset leaves
the miss counter at 0 for every account; over every later call the first flag
of an entry stays clear as long as the entry stays in `syncs_`; and a `MISS`
for an entry whose first flag is clear leaves `stat_` unchanged. -/
theorem ResetStat_clears (s : Syncer) :
    (ResetStat s).stat_ = { total_ := 0, miss_ := 0 }
    ∧ (ResetStat s).queries_ = s.queries_
    ∧ (ResetStat s).current_query_id_ = s.current_query_id_
    ∧ (ResetStat s).calls_ = s.calls_
    ∧ (ResetStat s).syncs_.map Prod.fst = s.syncs_.map Prod.fst
    ∧ (∀ account, mapFind account (ResetStat s).syncs_
        = (mapFind account s.syncs_).map (fun i =>
            { status_ := i.status_, first_ := false, batch_id_ := i.batch_id_,
              height_ := i.height_, previous_ := i.previous_,
              current_ := i.current_ }))
    ∧ (∀ e ∈ (ResetStat s).syncs_, e.2.first_ = false)
    ∧ (∀ account block,
        (QueryCallback (ResetStat s) account QueryStatus.MISS block).stat_.miss_ = 0)
    ∧ (∀ (s0 s1 : Syncer) (op : Op) (account : Account) (i i1 : SyncInfo),
        step s0 op = some s1 → mapFind account s0.syncs_ = some i →
        i.first_ = false → mapFind account s1.syncs_ = some i1 →
        i1.first_ = false)
    ∧ (∀ (s0 : Syncer) (account : Account) (block : Block) (i : SyncInfo),
        mapFind account s0.syncs_ = some i → i.first_ = false →
        (QueryCallback s0 account QueryStatus.MISS block).stat_ = s0.stat_) := by
  refine ⟨rfl, rfl, rfl, rfl, ?_, ?_, ?_, ?_, ?_, ?_⟩
  · simp [ResetStat, List.map_map, Function.comp_def]
  · intro account
    exact mapFind_ResetStat s account
  · intro e he
    simp only [ResetStat] at he
    obtain ⟨a, _, rfl⟩ := List.mem_map.mp he
    rfl
  · intro account block
    cases hf : mapFind account (ResetStat s).syncs_ with
    | none =>
      rw [QueryCallback_idle]
      · rfl
      · intro it hit; rw [hf] at hit; cases hit
    | some i =>
      have hclear : i.first_ = false := by
        rw [mapFind_ResetStat] at hf
        cases hs : mapFind account s.syncs_ with
        | none => rw [hs] at hf; cases hf
        | some j => rw [hs] at hf; cases hf; rfl
      rw [QueryCallback_miss_clear _ _ _ i hf hclear]
      rfl
  · intro s0 s1 op account i i1 hstep hi hf hi1
    rcases entry_step s0 s1 op account i i1 hstep hi hi1 with
      e | e | ⟨b, e⟩ | e | ⟨b, e⟩
    · rw [e]; exact hf
    · rw [e]
    · rw [e]; rfl
    · rw [e]; exact hf
    · rw [e]; exact hf
  · intro s0 account block i hi hf
    exact QueryCallback_miss_clear s0 account block i hi hf

/-- C14, on the state after `Add (7, 0, zero)` with statistics: after the
reset the entry has its first flag clear, and a `MISS` leaves the miss counter
at 0. -/
theorem ResetStat_clears_witness :
    mapFind 7 (ResetStat scenarioAdded).syncs_ = some (newInfo 0 0 false 3)
    ∧ (QueryCallback (ResetStat scenarioAdded) 7 QueryStatus.MISS
        (plainBlock 7 0 0)).stat_.miss_ = 0 :=
  ⟨(ResetStat_clears scenarioAdded).2.2.2.2.2.1 7,
   (ResetStat_clears scenarioAdded).2.2.2.2.2.2.2.1 7 (plainBlock 7 0 0)⟩

/-! ## Query ids -/

/-- The id the loop of `AddQuery` settles on and the counter it leaves, in
terms of the number `k` of ids it skipped. -/
theorem AddQuery_loop_index (queries : List (Nat × Nat)) :
    ∀ (fuel query_id current : Nat) (r : Nat × Nat),
      AddQuery_loop fuel queries query_id current = some r →
      current = (query_id + 1) % UINT64_MOD →
      ∃ k, k < fuel
        ∧ r.1 = (if k = 0 then query_id else (query_id + k) % UINT64_MOD)
        ∧ r.2 = (query_id + k + 1) % UINT64_MOD := by
  intro fuel
  induction fuel with
  | zero => intro _ _ r h; simp [AddQuery_loop] at h
  | succ n ih =>
    intro query_id current r h hc
    unfold AddQuery_loop at h
    cases hf : mapFind query_id queries with
    | none =>
      simp only [hf, Option.some.injEq] at h
      refine ⟨0, Nat.succ_pos n, ?_, ?_⟩
      · rw [← h]; rfl
      · rw [← h]; exact hc
    | some v =>
      simp only [hf] at h
      obtain ⟨k, hk, h1, h2⟩ := ih current ((current + 1) % UINT64_MOD) r h rfl
      refine ⟨k + 1, Nat.succ_lt_succ hk, ?_, ?_⟩
      · rw [h1, hc, if_neg (Nat.succ_ne_zero k)]
        simp only [UINT64_MOD]
        split_ifs <;> omega
      · rw [h2, hc]
        simp only [UINT64_MOD]
        omega

/-- The id `AddQuery` returns and the counter it leaves, in terms of the
number `k` of ids it skipped. -/
theorem AddQuery_index (s s1 : Syncer) (batch_id query_id : Nat)
    (h : AddQuery s batch_id = some (query_id, s1)) :
    ∃ k, k < UINT64_MOD
      ∧ query_id = (if k = 0 then s.current_query_id_
          else (s.current_query_id_ + k) % UINT64_MOD)
      ∧ s1.current_query_id_ = (s.current_query_id_ + k + 1) % UINT64_MOD := by
  unfold AddQuery at h
  cases hl : AddQuery_loop UINT64_MOD s.queries_ s.current_query_id_
      ((s.current_query_id_ + 1) % UINT64_MOD) with
  | none => simp [hl] at h
  | some r =>
    obtain ⟨q, c⟩ := r
    simp only [hl, Option.some.injEq, Prod.mk.injEq] at h
    obtain ⟨k, hk, h1, h2⟩ := AddQuery_loop_index _ _ _ _ _ hl rfl
    obtain ⟨e1, e2⟩ := h
    refine ⟨k, hk, ?_, ?_⟩
    · rw [← e1]; exact h1
    · rw [← e2]; exact h2

/-- Without wrap-around `AddQuery` returns an id that is at least the counter
and leaves the counter one above that id. -/
theorem AddQuery_monotone (s s1 : Syncer) (batch_id query_id : Nat)
    (h : AddQuery s batch_id = some (query_id, s1))
    (hc : s.current_query_id_ < UINT64_MOD)
    (hlt : s.current_query_id_ < s1.current_query_id_) :
    s.current_query_id_ ≤ query_id ∧ s1.current_query_id_ = query_id + 1 := by
  obtain ⟨k, hk, h1, h2⟩ := AddQuery_index s s1 batch_id query_id h
  rw [h2] at hlt ⊢
  rw [h1]
  simp only [UINT64_MOD] at hk hc hlt ⊢
  split_ifs <;> omega

/-- C15: `AddQuery` returns as long as fewer than `2 ^ 64` queries are
outstanding.  The id it returns was not a key of `queries_`; the entry
`(id, batch_id)` is added, every other key maps as before, and `syncs_`,
`stat_` and the calls made are unchanged.  With `k` the number of ids it
skipped, the id is the counter plus `k` and the counter afterwards the
counter plus `k + 1`, both modulo `2 ^ 64`; the counter afterwards is greater
than before exactly when no increment wrapped, and then the id is at least
the counter before and the counter afterwards is the id plus one.  An id
returned by the next call differs from every outstanding id, this one
included, and without wrap-around is greater than this one. -/
theorem AddQuery_allocates (s : Syncer) (batch_id : Nat) :
    (s.queries_.length < UINT64_MOD →
        ∃ query_id s1, AddQuery s batch_id = some (query_id, s1))
    ∧ (∀ query_id s1, AddQuery s batch_id = some (query_id, s1) →
        mapFind query_id s.queries_ = none
        ∧ s1.queries_ = (query_id, batch_id) :: s.queries_
        ∧ mapFind query_id s1.queries_ = some batch_id
        ∧ (∀ other, other ≠ query_id →
            mapFind other s1.queries_ = mapFind other s.queries_)
        ∧ s1.syncs_ = s.syncs_ ∧ s1.stat_ = s.stat_ ∧ s1.calls_ = s.calls_
        ∧ (∃ k, k < UINT64_MOD
            ∧ query_id = (if k = 0 then s.current_query_id_
                else (s.current_query_id_ + k) % UINT64_MOD)
            ∧ s1.current_query_id_ = (s.current_query_id_ + k + 1) % UINT64_MOD
            ∧ (s.current_query_id_ < UINT64_MOD →
                (s.current_query_id_ < s1.current_query_id_
                  ↔ s.current_query_id_ + k + 1 < UINT64_MOD)))
        ∧ (s.current_query_id_ < UINT64_MOD →
            s.current_query_id_ < s1.current_query_id_ →
            s.current_query_id_ ≤ query_id
            ∧ s1.current_query_id_ = query_id + 1)
        ∧ (∀ batch_id2 query_id2 s2,
            AddQuery s1 batch_id2 = some (query_id2, s2) →
            query_id2 ≠ query_id
            ∧ (∀ q ∈ s1.queries_, q.1 ≠ query_id2)
            ∧ (s.current_query_id_ < UINT64_MOD →
                s.current_query_id_ < s1.current_query_id_ →
                s1.current_query_id_ < s2.current_query_id_ →
                query_id < query_id2))) := by
  refine ⟨AddQuery_returns s batch_id, ?_⟩
  intro query_id s1 h
  obtain ⟨current, e, hfree⟩ := AddQuery_eq s s1 batch_id query_id h
  obtain ⟨k, hk, h1, h2⟩ := AddQuery_index s s1 batch_id query_id h
  refine ⟨hfree, by rw [e], by simp [e, mapFind], ?_, by rw [e], by rw [e],
    by rw [e], ⟨k, hk, h1, h2, ?_⟩, AddQuery_monotone s s1 batch_id query_id h, ?_⟩
  · intro other hne
    rw [e]
    simp [mapFind, Ne.symm hne]
  · intro hc
    rw [h2]
    simp only [UINT64_MOD] at hk hc ⊢
    constructor <;> intro hx <;> omega
  · intro batch_id2 query_id2 s2 h'
    obtain ⟨_, _, hfree2⟩ := AddQuery_eq s1 s2 batch_id2 query_id2 h'
    have hall := (mapFind_eq_none_iff query_id2 s1.queries_).mp hfree2
    refine ⟨?_, hall, ?_⟩
    · intro heq
      have := hall (query_id, batch_id) (by rw [e]; exact List.mem_cons_self _ _)
      exact this heq.symm
    · intro hc hlt hlt2
      obtain ⟨_, e1⟩ := AddQuery_monotone s s1 batch_id query_id h hc hlt
      have hc1 : s1.current_query_id_ < UINT64_MOD := by
        rw [h2]; exact Nat.mod_lt _ (by decide)
      obtain ⟨e2, _⟩ := AddQuery_monotone s1 s2 batch_id2 query_id2 h' hc1 hlt2
      omega

/-- C15, on the state after `Add (7, 0, zero)`, where id 0 is outstanding and
the counter is 1: the id returned is 1 and the counter becomes 2. -/
theorem AddQuery_allocates_witness :
    ∃ s1, AddQuery scenarioAdded 5 = some (1, s1)
      ∧ mapFind 1 scenarioAdded.queries_ = none
      ∧ s1.queries_ = (1, 5) :: scenarioAdded.queries_ := by
  obtain ⟨h1, h2, _⟩ := (AddQuery_allocates scenarioAdded 5).2 1
    { scenarioAdded with current_query_id_ := 2,
                         queries_ := (1, 5) :: scenarioAdded.queries_ } rfl
  exact ⟨_, rfl, h1, h2⟩

/-! ## The callbacks -/

/-- C16: when the node is gone, the by-account and the by-hash callback
append one `FINISH` per ack, as many as there are acks, and change nothing:
the state of the syncer (`syncs_`, `queries_`, `stat_`, the calls made to the
block processor and to the peers) and the closure, its miss counter
included, are as before. -/
theorem callbacks_node_gone (cbA : AccountCallback) (cbH : HashCallback)
    (node : Node) (s : Syncer) (acks : List QueryAck)
    (result : List QueryCallbackStatus) :
    cbA.invoke false s acks result
      = (cbA, s, result ++ List.replicate acks.length QueryCallbackStatus.FINISH)
    ∧ cbH.invoke false node s acks result
      = some (cbH, s,
          result ++ List.replicate acks.length QueryCallbackStatus.FINISH)
    ∧ (List.replicate acks.length QueryCallbackStatus.FINISH).length = acks.length
    ∧ ∀ x ∈ List.replicate acks.length QueryCallbackStatus.FINISH,
        x = QueryCallbackStatus.FINISH := by
  refine ⟨by simp [AccountCallback.invoke], by simp [HashCallback.invoke],
    List.length_replicate _ _, ?_⟩
  intro x hx
  exact (List.mem_replicate.mp hx).2

/-- The by-account callback on a single `FORK` or `SUCCESS` ack. -/
theorem invoke_report (cb : AccountCallback) (s : Syncer) (ack : QueryAck)
    (result : List QueryCallbackStatus)
    (h : ack.status_ = QueryStatus.FORK ∨ ack.status_ = QueryStatus.SUCCESS) :
    cb.invoke true s [ack] result
      = (cb, EraseQuery (QueryCallback s cb.account ack.status_ ack.block_)
               cb.query_id,
         result ++ [QueryCallbackStatus.FINISH]) := by
  simp [AccountCallback.invoke, h]

/-- The by-account callback on a single `PRUNED` or `TIMEOUT` ack. -/
theorem invoke_retry (cb : AccountCallback) (s : Syncer) (ack : QueryAck)
    (result : List QueryCallbackStatus)
    (h : ack.status_ = QueryStatus.PRUNED ∨ ack.status_ = QueryStatus.TIMEOUT) :
    cb.invoke true s [ack] result
      = (cb, s, result ++ [QueryCallbackStatus.CONTINUE]) := by
  rcases h with h | h <;> simp [AccountCallback.invoke, h]

/-- C17: with the node alive, a single `PRUNED` or `TIMEOUT` ack makes the
by-account callback append exactly one status, `CONTINUE`, and leaves the
state of the syncer and the closure, its miss counter included, unchanged.
A single `FORK` ack makes it append exactly one status, `FINISH`; the closure
is unchanged, and the entry of the account, if it was in `QUERY`, is no
longer in `syncs_`. -/
theorem invoke_continue_fork (cb : AccountCallback) (s : Syncer) (ack : QueryAck)
    (result : List QueryCallbackStatus) :
    (ack.status_ = QueryStatus.PRUNED ∨ ack.status_ = QueryStatus.TIMEOUT →
        cb.invoke true s [ack] result
          = (cb, s, result ++ [QueryCallbackStatus.CONTINUE]))
    ∧ (ack.status_ = QueryStatus.FORK →
        (cb.invoke true s [ack] result).1 = cb
        ∧ (cb.invoke true s [ack] result).2.2
            = result ++ [QueryCallbackStatus.FINISH]
        ∧ (∀ it, mapFind cb.account s.syncs_ = some it →
            it.status_ = SyncStatus.QUERY →
            mapFind cb.account (cb.invoke true s [ack] result).2.1.syncs_ = none)) := by
  refine ⟨invoke_retry cb s ack result, ?_⟩
  intro hfork
  rw [invoke_report cb s ack result (Or.inl hfork)]
  refine ⟨rfl, rfl, ?_⟩
  intro it hit hst
  have e : (QueryCallback s cb.account ack.status_ ack.block_).syncs_
      = mapErase cb.account s.syncs_ := by
    simp [QueryCallback, hit, hst, hfork, Syncer.call]
  simp only [EraseQuery]
  rw [e]
  exact mapFind_mapErase_self _ _

/-- C17, on the state after `Add (7, 0, zero)`: a `TIMEOUT` changes nothing
and is answered `CONTINUE`. -/
theorem invoke_continue_fork_witness :
    (QueryCallbackByAccount_ 7 0).invoke true scenarioAdded
        [{ status_ := QueryStatus.TIMEOUT, block_ := plainBlock 7 0 0 }] []
      = (QueryCallbackByAccount_ 7 0, scenarioAdded,
         [] ++ [QueryCallbackStatus.CONTINUE]) :=
  (invoke_continue_fork (QueryCallbackByAccount_ 7 0) scenarioAdded
    { status_ := QueryStatus.TIMEOUT, block_ := plainBlock 7 0 0 } []).1
    (Or.inr rfl)

/-- C20: `QueryCallback` submits `block` to the block processor, once, when
the account has an entry in `QUERY` and the status is `SUCCESS` or `FORK`,
and makes no call at all otherwise; with `FORK` the account has no entry in
the state in which the block is submitted. -/
theorem QueryCallback_submits (s : Syncer) (account : Account)
    (status : QueryStatus) (block : Block) :
    ((∃ it, mapFind account s.syncs_ = some it ∧ it.status_ = SyncStatus.QUERY)
        ∧ (status = QueryStatus.SUCCESS ∨ status = QueryStatus.FORK) →
      (QueryCallback s account status block).calls_
        = s.calls_ ++ [Call.BlockProcessorAdd block])
    ∧ (¬ ((∃ it, mapFind account s.syncs_ = some it
            ∧ it.status_ = SyncStatus.QUERY)
          ∧ (status = QueryStatus.SUCCESS ∨ status = QueryStatus.FORK)) →
      (QueryCallback s account status block).calls_ = s.calls_)
    ∧ ((QueryCallback s account status block).calls_
          = s.calls_ ++ [Call.BlockProcessorAdd block]
        ↔ (∃ it, mapFind account s.syncs_ = some it
            ∧ it.status_ = SyncStatus.QUERY)
          ∧ (status = QueryStatus.SUCCESS ∨ status = QueryStatus.FORK))
    ∧ (status = QueryStatus.FORK →
        (∃ it, mapFind account s.syncs_ = some it
          ∧ it.status_ = SyncStatus.QUERY) →
        mapFind account (QueryCallback s account status block).syncs_ = none) := by
  have hpos : (∃ it, mapFind account s.syncs_ = some it
        ∧ it.status_ = SyncStatus.QUERY)
      ∧ (status = QueryStatus.SUCCESS ∨ status = QueryStatus.FORK) →
      (QueryCallback s account status block).calls_
        = s.calls_ ++ [Call.BlockProcessorAdd block] := by
    rintro ⟨⟨it, hit, hst⟩, hs | hs⟩
    · subst hs
      rw [QueryCallback_success_eq s account block it hit hst]
      rfl
    · subst hs
      simp [QueryCallback, hit, hst, Syncer.call]
  have hneg : ¬ ((∃ it, mapFind account s.syncs_ = some it
          ∧ it.status_ = SyncStatus.QUERY)
        ∧ (status = QueryStatus.SUCCESS ∨ status = QueryStatus.FORK)) →
      (QueryCallback s account status block).calls_ = s.calls_ := by
    intro hn
    cases hf : mapFind account s.syncs_ with
    | none => simp [QueryCallback, hf]
    | some it =>
      by_cases hst : it.status_ = SyncStatus.QUERY
      swap
      · rw [QueryCallback_idle]
        intro i hi
        rw [hf] at hi; cases hi; exact hst
      have hs : ¬ (status = QueryStatus.SUCCESS ∨ status = QueryStatus.FORK) :=
        fun h => hn ⟨⟨it, hf, hst⟩, h⟩
      cases status with
      | SUCCESS => exact absurd (Or.inl rfl) hs
      | FORK => exact absurd (Or.inr rfl) hs
      | MISS => rw [QueryCallback_miss_eq s account block it hf hst]
      | PRUNED => simp [QueryCallback, hf, hst]
      | TIMEOUT => simp [QueryCallback, hf, hst]
      | OTHER => simp [QueryCallback, hf, hst]
  refine ⟨hpos, hneg, ⟨?_, hpos⟩, ?_⟩
  · intro hc
    by_contra hn
    rw [hneg hn] at hc
    simpa using congrArg List.length hc
  · rintro hs ⟨it, hit, hst⟩
    subst hs
    have e : (QueryCallback s account QueryStatus.FORK block).syncs_
        = mapErase account s.syncs_ := by
      simp [QueryCallback, hit, hst, Syncer.call]
    rw [e]
    exact mapFind_mapErase_self _ _

/-- C20, on the state after `Add (7, 0, zero)`: a `FORK` submits the block
and leaves account 7 without an entry. -/
theorem QueryCallback_submits_witness :
    (QueryCallback scenarioAdded 7 QueryStatus.FORK (plainBlock 7 99 0)).calls_
        = scenarioAdded.calls_ ++ [Call.BlockProcessorAdd (plainBlock 7 99 0)]
    ∧ mapFind 7
        (QueryCallback scenarioAdded 7 QueryStatus.FORK (plainBlock 7 99 0)).syncs_
      = none :=
  ⟨(QueryCallback_submits scenarioAdded 7 QueryStatus.FORK (plainBlock 7 99 0)).1
      ⟨⟨newInfo 0 0 true 3, rfl, rfl⟩, Or.inr rfl⟩,
   (QueryCallback_submits scenarioAdded 7 QueryStatus.FORK
      (plainBlock 7 99 0)).2.2.2 rfl ⟨newInfo 0 0 true 3, rfl, rfl⟩⟩

/-! ## The counters of `stat_` -/

theorem firstCount_mapErase_le (k : Nat) (m : List (Account × SyncInfo)) :
    firstCount (mapErase k m) ≤ firstCount m :=
  List.Sublist.countP_le _ (List.filter_sublist m)

theorem firstCount_mapErase_lt (k : Nat) (m : List (Account × SyncInfo))
    (it : SyncInfo) (hfind : mapFind k m = some it) (hfirst : it.first_ = true) :
    firstCount (mapErase k m) + 1 ≤ firstCount m := by
  induction m with
  | nil => simp [mapFind] at hfind
  | cons e t ih =>
    by_cases he : e.1 = k
    · simp only [mapFind, he, if_true, Option.some.injEq] at hfind
      have h1 : mapErase k (e :: t) = mapErase k t := by
        simp [mapErase, List.filter_cons, he]
      have h2 : firstCount (e :: t) = firstCount t + 1 := by
        simp [firstCount, List.countP_cons, hfind, hfirst]
      rw [h1, h2]
      exact Nat.succ_le_succ (firstCount_mapErase_le k t)
    · simp only [mapFind, he, if_false] at hfind
      have h1 : mapErase k (e :: t) = e :: mapErase k t := by
        simp [mapErase, List.filter_cons, he]
      rw [h1]
      have := ih hfind
      simp only [firstCount, List.countP_cons] at this ⊢
      omega

theorem firstCount_mapModify_le (k : Nat) (f : SyncInfo → SyncInfo)
    (m : List (Account × SyncInfo))
    (hf : ∀ i, (f i).first_ = true → i.first_ = true) :
    firstCount (mapModify k f m) ≤ firstCount m := by
  induction m with
  | nil => simp [mapModify]
  | cons e t ih =>
    simp only [firstCount, mapModify, List.map_cons, List.countP_cons] at ih ⊢
    by_cases he : e.1 = k
    · simp only [he, if_true]
      by_cases h1 : (f e.2).first_ = true
      · rw [if_pos h1, if_pos (hf e.2 h1)]
        omega
      · rw [if_neg h1]
        split_ifs <;> omega
    · simp only [he, if_false]
      omega

theorem firstCount_ResetStat (s : Syncer) : firstCount (ResetStat s).syncs_ = 0 := by
  simp only [firstCount, ResetStat, List.countP_eq_zero]
  intro e he
  obtain ⟨a, _, rfl⟩ := List.mem_map.mp he
  simp

/-- `Add` keeps the counters of `stat_` consistent, provided the counter
`total_` can be incremented when it has to be. -/
theorem Add_statInv (s s1 : Syncer) (account : Account) (height : Nat)
    (previous : BlockHash) (stat : Bool) (batch_id : Nat)
    (h : Add s account height previous stat batch_id = some s1)
    (hguard : stat = true → mapFind account s.syncs_ = none →
      s.stat_.total_ + 1 < UINT64_MOD)
    (hs : statInv s) : statInv s1 := by
  cases hf : mapFind account s.syncs_ with
  | some info =>
    rw [Add_pending _ _ _ _ _ _ info hf] at h
    cases h; exact hs
  | none =>
    obtain ⟨query_id, current, _, hs1⟩ := Add_eq _ _ _ _ _ _ _ hf h
    obtain ⟨h1, h2⟩ := hs
    rw [hs1]
    cases stat with
    | false =>
      simp only [statInv, firstCount, List.countP_cons, newInfo] at h1 ⊢
      exact ⟨by simpa using h1, by simpa using h2⟩
    | true =>
      have hlt := hguard rfl hf
      simp only [statInv, firstCount, List.countP_cons, newInfo, if_true,
        Nat.mod_eq_of_lt hlt] at h1 ⊢
      exact ⟨by omega, hlt⟩

/-- `ProcessorCallback` keeps the counters of `stat_` consistent. -/
theorem ProcessorCallback_statInv (node : Node) (s s1 : Syncer)
    (result : BlockProcessResult) (block : Block)
    (h : ProcessorCallback node s result block = some s1)
    (hs : statInv s) : statInv s1 := by
  obtain ⟨h1, h2⟩ := hs
  rcases ProcessorCallback_cases node s s1 result block h with
    e | ⟨it, _, _, _, hc⟩
  · rw [e]; exact ⟨h1, h2⟩
  · rcases hc with ⟨_, hq⟩ | ⟨_, _, s2, hq, hr⟩ | ⟨_, _, hq⟩ | ⟨_, _, e⟩
    · obtain ⟨_, _, _, e⟩ := BlockQuery__eq _ _ _ _ _ hq
      rw [e]
      have := firstCount_mapModify_le block.Account reverted s.syncs_
        (fun i hi => hi)
      exact ⟨Nat.le_trans (Nat.add_le_add_left this _) h1, h2⟩
    · obtain ⟨_, _, _, e⟩ := BlockQuery__eq _ _ _ _ _ hq
      have hs2 : statInv s2 := by
        rw [e]
        have := firstCount_mapModify_le block.Account (advanced block) s.syncs_
          (fun i hi => hi)
        exact ⟨Nat.le_trans (Nat.add_le_add_left this _) h1, h2⟩
      exact SyncRelated_rel (fun a b => statInv a → statInv b)
        (fun _ ha => ha) (fun _ _ _ hab hbc ha => hbc (hab ha))
        (fun a account height previous batch_id b hadd ha =>
          Add_statInv a b account height previous false batch_id hadd
            (fun hf => by cases hf) ha)
        node s2 s1 block it.batch_id_ hr hs2
    · obtain ⟨_, _, _, e⟩ := BlockQuery_hash_eq _ _ _ _ _ hq
      rw [e]
      have := firstCount_mapErase_le block.Account s.syncs_
      exact ⟨Nat.le_trans (Nat.add_le_add_left this _) h1, h2⟩
    · rw [e]
      have := firstCount_mapErase_le block.Account s.syncs_
      exact ⟨Nat.le_trans (Nat.add_le_add_left this _) h1, h2⟩

/-- `QueryCallback` keeps the counters of `stat_` consistent. -/
theorem QueryCallback_statInv (s : Syncer) (account : Account)
    (status : QueryStatus) (block : Block) (hs : statInv s) :
    statInv (QueryCallback s account status block) := by
  obtain ⟨h1, h2⟩ := hs
  by_cases hm : status = QueryStatus.MISS
  · subst hm
    cases hf : mapFind account s.syncs_ with
    | none =>
      rw [QueryCallback_idle]
      · exact ⟨h1, h2⟩
      · intro it hit; rw [hf] at hit; cases hit
    | some it =>
      by_cases hst : it.status_ = SyncStatus.QUERY
      swap
      · rw [QueryCallback_idle]
        · exact ⟨h1, h2⟩
        · intro i hi; rw [hf] at hi; cases hi; exact hst
      rw [QueryCallback_miss_eq s account block it hf hst]
      cases hfirst : it.first_ with
      | false =>
        have := firstCount_mapErase_le account s.syncs_
        simp only [statInv, Bool.false_eq_true, if_false]
        exact ⟨by omega, h2⟩
      | true =>
        have := firstCount_mapErase_lt account s.syncs_ it hf hfirst
        have hlt : s.stat_.miss_ + 1 < UINT64_MOD := by omega
        simp only [statInv, if_true, Nat.mod_eq_of_lt hlt]
        exact ⟨by omega, h2⟩
  · have hstat := QueryCallback_stat s account status block hm
    have hle : firstCount (QueryCallback s account status block).syncs_
        ≤ firstCount s.syncs_ := by
      rcases QueryCallback_syncs s account status block with e | e | ⟨_, e⟩
      · rw [e]
      · rw [e]; exact firstCount_mapErase_le _ _
      · rw [e]
        exact firstCount_mapModify_le _ _ _ (fun i hi => by simp [accepted] at hi)
    simp only [statInv, hstat]
    exact ⟨by omega, h2⟩

/-- Every call that does not overflow the counter `total_` keeps the counters
of `stat_` consistent. -/
theorem step_statInv (s s1 : Syncer) (op : Op) (hok : op.keepsTotal s)
    (h : step s op = some s1) (hs : statInv s) : statInv s1 := by
  cases op with
  | Add account height previous stat batch_id =>
    refine Add_statInv _ _ _ _ _ _ _ h ?_ hs
    intro hstat hnone
    subst hstat
    exact hok hnone
  | AddQuery batch_id =>
    simp only [step, Option.map_eq_some'] at h
    obtain ⟨r, hr, e⟩ := h
    obtain ⟨_, e1, _⟩ := AddQuery_eq s r.2 batch_id r.1 hr
    rw [← e, e1]; exact hs
  | Erase account =>
    simp only [step, Option.some.injEq] at h
    rw [← h]; unfold Erase
    split
    · have := firstCount_mapErase_le account s.syncs_
      obtain ⟨h1, h2⟩ := hs
      exact ⟨Nat.le_trans (Nat.add_le_add_left this _) h1, h2⟩
    · exact hs
  | EraseQuery query_id =>
    simp only [step, Option.some.injEq] at h
    rw [← h]; exact hs
  | ProcessorCallback node result block =>
    exact ProcessorCallback_statInv _ _ _ _ _ h hs
  | ResetStat =>
    simp only [step, Option.some.injEq] at h
    rw [← h]
    refine ⟨?_, ?_⟩
    · rw [firstCount_ResetStat]
      exact Nat.le_refl _
    · show (0 : Nat) < UINT64_MOD
      decide
  | QueryCallback account status block =>
    simp only [step, Option.some.injEq] at h
    rw [← h]
    exact QueryCallback_statInv s account status block hs

/-- C18: in every state reachable from the initial state by calls of `Add`,
`AddQuery`, `Erase`, `EraseQuery`, `QueryCallback`, `ProcessorCallback` and
`ResetStat` during which the counter `total_` has not overflowed, the miss
counter plus the number of entries whose first flag is set is at most
`total_`; in particular the miss counter is at most `total_`. -/
theorem miss_le_total (s : Syncer) (h : ReachableNoWrap s) :
    s.stat_.miss_ + (s.syncs_.countP (fun e => e.2.first_)) ≤ s.stat_.total_
    ∧ s.stat_.miss_ ≤ s.stat_.total_ := by
  have hinv : statInv s := by
    induction h with
    | init => exact ⟨Nat.le_refl _, by decide⟩
    | step op _ hok hstep ih => exact step_statInv _ _ op hok hstep ih
  exact ⟨hinv.1, Nat.le_trans (Nat.le_add_right _ _) hinv.1⟩

/-- C18, on the state after `Add (7, 0, zero)` with statistics: no miss, one
first query open, one query counted. -/
theorem miss_le_total_witness :
    scenarioAdded.stat_.miss_
        + (scenarioAdded.syncs_.countP (fun e => e.2.first_))
      ≤ scenarioAdded.stat_.total_
    ∧ scenarioAdded.stat_.miss_ ≤ scenarioAdded.stat_.total_ :=
  miss_le_total scenarioAdded
    (ReachableNoWrap.step (Op.Add 7 0 0 true 3) ReachableNoWrap.init
      (fun _ => by decide) rfl)

/-! ## Callbacks and the query map -/

/-- With the node alive the by-account callback either answers `FINISH` to
every ack and leaves no entry under its query id, or answers `CONTINUE` to a
single ack and leaves the state alone. -/
theorem accountInvoke_shape (cb : AccountCallback) (s : Syncer)
    (acks : List QueryAck) (result : List QueryCallbackStatus) :
    ((cb.invoke true s acks result).2.2
        = result ++ List.replicate acks.length QueryCallbackStatus.FINISH
      ∧ mapFind cb.query_id (cb.invoke true s acks result).2.1.queries_ = none)
    ∨ (acks.length = 1
      ∧ (cb.invoke true s acks result).2.2
          = result ++ [QueryCallbackStatus.CONTINUE]
      ∧ (cb.invoke true s acks result).2.1 = s) := by
  match acks with
  | [] =>
    left
    simp [AccountCallback.invoke, EraseQuery, mapFind_mapErase_self]
  | _ :: _ :: _ =>
    left
    simp [AccountCallback.invoke, EraseQuery, mapFind_mapErase_self]
  | [ack] =>
    cases hs : ack.status_ with
    | SUCCESS =>
      left
      rw [invoke_report cb s ack result (Or.inr hs)]
      exact ⟨rfl, mapFind_mapErase_self _ _⟩
    | FORK =>
      left
      rw [invoke_report cb s ack result (Or.inl hs)]
      exact ⟨rfl, mapFind_mapErase_self _ _⟩
    | MISS =>
      rw [invoke_miss cb s ack result hs]
      by_cases h5 : 5 ≤ cb.count + 1
      · left
        rw [if_pos h5]
        exact ⟨rfl, mapFind_mapErase_self _ _⟩
      · right
        rw [if_neg h5]
        exact ⟨rfl, rfl, rfl⟩
    | PRUNED =>
      right
      rw [invoke_retry cb s ack result (Or.inl hs)]
      exact ⟨rfl, rfl, rfl⟩
    | TIMEOUT =>
      right
      rw [invoke_retry cb s ack result (Or.inr hs)]
      exact ⟨rfl, rfl, rfl⟩
    | OTHER =>
      left
      simp [AccountCallback.invoke, hs, EraseQuery, mapFind_mapErase_self]

/-- With the node alive the by-hash callback, when it returns, has either
answered `FINISH` to every ack and left no entry under its query id, or
answered `CONTINUE` to a single ack and left the state alone. -/
theorem hashInvoke_shape (cb : HashCallback) (node : Node) (s : Syncer)
    (acks : List QueryAck) (result : List QueryCallbackStatus)
    (r : HashCallback × Syncer × List QueryCallbackStatus)
    (h : cb.invoke true node s acks result = some r) :
    (r.2.2 = result ++ List.replicate acks.length QueryCallbackStatus.FINISH
      ∧ mapFind cb.query_id r.2.1.queries_ = none)
    ∨ (acks.length = 1 ∧ r.2.2 = result ++ [QueryCallbackStatus.CONTINUE]
      ∧ r.2.1 = s) := by
  match acks with
  | [] =>
    left
    simp [HashCallback.invoke] at h
    rw [← h]
    exact ⟨by simp, mapFind_mapErase_self _ _⟩
  | _ :: _ :: _ =>
    left
    simp [HashCallback.invoke] at h
    rw [← h]
    exact ⟨by simp, mapFind_mapErase_self _ _⟩
  | [ack] =>
    cases hs : ack.status_ with
    | SUCCESS =>
      left
      simp only [HashCallback.invoke, hs] at h
      by_cases ht : node.TransactionError = true
      · simp [ht] at h
        rw [← h]
        exact ⟨rfl, mapFind_mapErase_self _ _⟩
      · simp [ht] at h
        cases hsa : SyncAccount node s ack.block_.Account (BatchId node s cb.query_id) with
        | none => simp [hsa] at h
        | some s1 =>
          simp [hsa] at h
          rw [← h]
          exact ⟨rfl, mapFind_mapErase_self _ _⟩
    | MISS =>
      simp only [HashCallback.invoke, hs] at h
      by_cases h5 : 5 ≤ cb.count + 1
      · left
        simp [h5] at h
        rw [← h]
        exact ⟨rfl, mapFind_mapErase_self _ _⟩
      · right
        simp [h5] at h
        rw [← h]
        exact ⟨rfl, rfl, rfl⟩
    | FORK =>
      right
      simp [HashCallback.invoke, hs] at h
      rw [← h]
      exact ⟨rfl, rfl, rfl⟩
    | PRUNED =>
      right
      simp [HashCallback.invoke, hs] at h
      rw [← h]
      exact ⟨rfl, rfl, rfl⟩
    | TIMEOUT =>
      right
      simp [HashCallback.invoke, hs] at h
      rw [← h]
      exact ⟨rfl, rfl, rfl⟩
    | OTHER =>
      left
      simp [HashCallback.invoke, hs] at h
      rw [← h]
      exact ⟨rfl, mapFind_mapErase_self _ _⟩

/-- With the node alive the by-hash callback returns as long as fewer than
`2 ^ 64` queries are outstanding. -/
theorem hashInvoke_returns (cb : HashCallback) (node : Node)
    (s : Syncer) (acks : List QueryAck) (result : List QueryCallbackStatus)
    (hlen : s.queries_.length < UINT64_MOD) :
    ∃ r, cb.invoke true node s acks result = some r := by
  rw [← Option.isSome_iff_exists]
  match acks with
  | [] => simp [HashCallback.invoke]
  | _ :: _ :: _ => simp [HashCallback.invoke]
  | [ack] =>
    cases hs : ack.status_ with
    | SUCCESS =>
      by_cases ht : node.TransactionError = true
      · simp [HashCallback.invoke, hs, ht]
      · obtain ⟨s1, hs1⟩ := SyncAccount_returns node s ack.block_.Account
          (BatchId node s cb.query_id) hlen
        simp [HashCallback.invoke, hs, ht, hs1]
    | MISS =>
      by_cases h5 : 5 ≤ cb.count + 1
      · simp [HashCallback.invoke, hs, h5]
      · simp [HashCallback.invoke, hs, h5]
    | FORK => simp [HashCallback.invoke, hs]
    | PRUNED => simp [HashCallback.invoke, hs]
    | TIMEOUT => simp [HashCallback.invoke, hs]
    | OTHER => simp [HashCallback.invoke, hs]

/-- From the two shapes an invocation can have: one status per ack; all of
them `FINISH` means the query id is gone; a `CONTINUE` means `queries_` is as
before; and for a query that was registered the id is gone exactly when the
statuses are `FINISH`. -/
theorem finish_iff_of_shape (query_id : Nat) (s s1 : Syncer)
    (acks : List QueryAck) (result out : List QueryCallbackStatus)
    (h : (out = result ++ List.replicate acks.length QueryCallbackStatus.FINISH
          ∧ mapFind query_id s1.queries_ = none)
      ∨ (acks.length = 1 ∧ out = result ++ [QueryCallbackStatus.CONTINUE]
          ∧ s1 = s)) :
    ∃ appended, out = result ++ appended ∧ appended.length = acks.length
      ∧ ((∀ x ∈ appended, x = QueryCallbackStatus.FINISH) →
          mapFind query_id s1.queries_ = none)
      ∧ ((∃ x ∈ appended, x = QueryCallbackStatus.CONTINUE) →
          s1.queries_ = s.queries_)
      ∧ (mapFind query_id s.queries_ ≠ none →
          (mapFind query_id s1.queries_ = none
            ↔ ∀ x ∈ appended, x = QueryCallbackStatus.FINISH)) := by
  rcases h with ⟨ho, habs⟩ | ⟨hlen, ho, hs⟩
  · refine ⟨_, ho, List.length_replicate _ _, fun _ => habs, ?_, ?_⟩
    · rintro ⟨x, hx, hc⟩
      rw [(List.mem_replicate.mp hx).2] at hc
      cases hc
    · intro _
      exact ⟨fun _ x hx => (List.mem_replicate.mp hx).2, fun _ => habs⟩
  · refine ⟨_, ho, by rw [hlen]; rfl, ?_, fun _ => by rw [hs], ?_⟩
    · intro hall
      have := hall QueryCallbackStatus.CONTINUE (List.mem_singleton.mpr rfl)
      cases this
    · intro hreg
      constructor
      · intro habs
        rw [hs] at habs
        exact absurd habs hreg
      · intro hall
        have := hall QueryCallbackStatus.CONTINUE (List.mem_singleton.mpr rfl)
        cases this

/-- C19: with the node alive, for every list of acks and every value of the
miss counter, the by-account callback and the by-hash callback (which
returns as long as a query id is free) append one status per ack.  When the
statuses appended are all `FINISH`, `queries_` has no entry under the query id
of the callback afterwards; when a `CONTINUE` is appended, `queries_` is as
before; so for a callback whose query is registered in `queries_`, the query
id is absent afterwards exactly when the statuses appended are `FINISH`. -/
theorem callbacks_finish_iff (cbA : AccountCallback) (cbH : HashCallback)
    (node : Node) (s : Syncer) (acks : List QueryAck)
    (result : List QueryCallbackStatus) :
    (∃ appended, (cbA.invoke true s acks result).2.2 = result ++ appended
      ∧ appended.length = acks.length
      ∧ ((∀ x ∈ appended, x = QueryCallbackStatus.FINISH) →
          mapFind cbA.query_id (cbA.invoke true s acks result).2.1.queries_ = none)
      ∧ ((∃ x ∈ appended, x = QueryCallbackStatus.CONTINUE) →
          (cbA.invoke true s acks result).2.1.queries_ = s.queries_)
      ∧ (mapFind cbA.query_id s.queries_ ≠ none →
          (mapFind cbA.query_id (cbA.invoke true s acks result).2.1.queries_ = none
            ↔ ∀ x ∈ appended, x = QueryCallbackStatus.FINISH)))
    ∧ (s.queries_.length < UINT64_MOD →
        ∃ r, cbH.invoke true node s acks result = some r)
    ∧ (∀ r, cbH.invoke true node s acks result = some r →
        ∃ appended, r.2.2 = result ++ appended
          ∧ appended.length = acks.length
          ∧ ((∀ x ∈ appended, x = QueryCallbackStatus.FINISH) →
              mapFind cbH.query_id r.2.1.queries_ = none)
          ∧ ((∃ x ∈ appended, x = QueryCallbackStatus.CONTINUE) →
              r.2.1.queries_ = s.queries_)
          ∧ (mapFind cbH.query_id s.queries_ ≠ none →
              (mapFind cbH.query_id r.2.1.queries_ = none
                ↔ ∀ x ∈ appended, x = QueryCallbackStatus.FINISH))) :=
  ⟨finish_iff_of_shape cbA.query_id s _ acks result _
      (accountInvoke_shape cbA s acks result),
    hashInvoke_returns cbH node s acks result,
    fun r h => finish_iff_of_shape cbH.query_id s r.2.1 acks result r.2.2
      (hashInvoke_shape cbH node s acks result r h)⟩

/-- C19, on the state after `Add (7, 0, zero)`, whose query has id 0: the
by-hash callback for id 0 returns on a `SUCCESS` ack. -/
theorem callbacks_finish_iff_witness :
    ∃ r, (QueryCallbackByHash_ 55 0).invoke true Node.blank scenarioAdded
        [{ status_ := QueryStatus.SUCCESS, block_ := plainBlock 8 99 0 }] []
      = some r :=
  (callbacks_finish_iff (QueryCallbackByAccount_ 7 0) (QueryCallbackByHash_ 55 0)
    Node.blank scenarioAdded
    [{ status_ := QueryStatus.SUCCESS, block_ := plainBlock 8 99 0 }] []).2.1
    (by decide)

/-! ## Termination of `AddQuery` -/

/-- The lookups are counted exactly when the loop yields an id. -/
theorem AddQuery_lookups_isSome (queries : List (Nat × Nat)) :
    ∀ (fuel query_id current : Nat),
      (AddQuery_lookups fuel queries query_id current).isSome
        = (AddQuery_loop fuel queries query_id current).isSome := by
  intro fuel
  induction fuel with
  | zero => intro _ _; rfl
  | succ n ih =>
    intro query_id current
    unfold AddQuery_lookups AddQuery_loop
    cases hf : mapFind query_id queries with
    | none => rfl
    | some v =>
      simp only [Option.isSome_map']
      exact ih _ _

/-- Every lookup but the last found its id in use. -/
theorem AddQuery_lookups_skipped (queries : List (Nat × Nat)) :
    ∀ (fuel query_id current n : Nat), current < UINT64_MOD →
      AddQuery_lookups fuel queries query_id current = some n →
      1 ≤ n ∧ n ≤ fuel
        ∧ ∀ i, i + 1 < n →
            (mapFind (if i = 0 then query_id
                else (current + (i - 1)) % UINT64_MOD) queries).isSome = true := by
  intro fuel
  induction fuel with
  | zero => intro _ _ n _ h; simp [AddQuery_lookups] at h
  | succ m ih =>
    intro query_id current n hc h
    unfold AddQuery_lookups at h
    cases hf : mapFind query_id queries with
    | none =>
      simp only [hf, Option.some.injEq] at h
      subst h
      exact ⟨Nat.le_refl _, Nat.succ_pos m, fun i hi => by omega⟩
    | some v =>
      simp only [hf, Option.map_eq_some'] at h
      obtain ⟨n1, hn1, e⟩ := h
      have hm : (current + 1) % UINT64_MOD < UINT64_MOD :=
        Nat.mod_lt _ (by decide)
      obtain ⟨h1, h2, h3⟩ := ih current ((current + 1) % UINT64_MOD) n1 hm hn1
      subst e
      refine ⟨by omega, by omega, ?_⟩
      intro i hi
      cases i with
      | zero => simp [hf]
      | succ j =>
        have hj := h3 j (by omega)
        cases j with
        | zero => simpa [Nat.mod_eq_of_lt hc] using hj
        | succ l =>
          have e : ((current + 1) % UINT64_MOD + (l + 1 - 1)) % UINT64_MOD
              = (current + (l + 1 + 1 - 1)) % UINT64_MOD := by
            simp only [UINT64_MOD]; omega
          rw [if_neg (by omega)] at hj ⊢
          rw [← e]; exact hj

/-- Ids that follow each other from the counter, fewer than `2 ^ 64` of them
and all in use, are no more than the entries of `queries_`. -/
theorem skipped_le_length (queries : List (Nat × Nat)) (c m : Nat)
    (hm : m ≤ UINT64_MOD)
    (hkeys : ∀ i, i < m →
      (mapFind (if i = 0 then c
          else ((c + 1) % UINT64_MOD + (i - 1)) % UINT64_MOD) queries).isSome
        = true) :
    m ≤ queries.length := by
  let g : Nat → Nat := fun i =>
    if i = 0 then c else ((c + 1) % UINT64_MOD + (i - 1)) % UINT64_MOD
  have hmaps : ∀ i ∈ Finset.range m, g i ∈ (queries.map Prod.fst).toFinset := by
    intro i hi
    have h2 : (mapFind (g i) queries).isSome = true :=
      hkeys i (Finset.mem_range.mp hi)
    cases hf : mapFind (g i) queries with
    | none => rw [hf] at h2; simp at h2
    | some v =>
      have := mapFind_mem _ _ _ hf
      simp only [List.mem_toFinset, List.mem_map]
      exact ⟨_, this, rfl⟩
  have hinj : Set.InjOn g (Finset.range m) := by
    intro i hi j hj hij
    have hi1 : i < m := by simpa using hi
    have hj1 : j < m := by simpa using hj
    simp only [g, UINT64_MOD] at hij
    simp only [UINT64_MOD] at hm
    split_ifs at hij <;> omega
  have hcard := Finset.card_le_card_of_injOn g hmaps hinj
  have hk : (queries.map Prod.fst).toFinset.card ≤ queries.length := by
    simpa using List.toFinset_card_le (queries.map Prod.fst)
  simp at hcard
  omega

/-- As many iterations as there were lookups are enough for the loop to yield
what it yields. -/
theorem AddQuery_loop_fuel (queries : List (Nat × Nat)) :
    ∀ (fuel query_id current n fuel1 : Nat),
      AddQuery_lookups fuel queries query_id current = some n → n ≤ fuel1 →
      AddQuery_loop fuel1 queries query_id current
        = AddQuery_loop fuel queries query_id current := by
  intro fuel
  induction fuel with
  | zero => intro _ _ n _ h; simp [AddQuery_lookups] at h
  | succ m ih =>
    intro query_id current n fuel1 h hle
    unfold AddQuery_lookups at h
    cases hf : mapFind query_id queries with
    | none =>
      simp only [hf, Option.some.injEq] at h
      subst h
      cases fuel1 with
      | zero => omega
      | succ f1 => simp [AddQuery_loop, hf]
    | some v =>
      simp only [hf, Option.map_eq_some'] at h
      obtain ⟨n1, hn1, e⟩ := h
      subst e
      cases fuel1 with
      | zero => omega
      | succ f1 =>
        simp only [AddQuery_loop, hf]
        exact ih _ _ n1 f1 hn1 (by omega)

/-- C21: in every state whose `queries_` holds fewer than `2 ^ 64` entries,
`AddQuery` returns; its loop makes at least one and at most
`|queries_| + 1` lookups before it inserts, and run for `|queries_| + 1`
iterations it yields what it yields without a bound on its iterations. -/
theorem AddQuery_terminates (s : Syncer) (batch_id : Nat)
    (h : s.queries_.length < UINT64_MOD) :
    (∃ query_id s1, AddQuery s batch_id = some (query_id, s1))
    ∧ (∃ n, AddQuery_lookups UINT64_MOD s.queries_ s.current_query_id_
          ((s.current_query_id_ + 1) % UINT64_MOD) = some n
        ∧ 1 ≤ n ∧ n ≤ s.queries_.length + 1)
    ∧ AddQuery_loop (s.queries_.length + 1) s.queries_ s.current_query_id_
          ((s.current_query_id_ + 1) % UINT64_MOD)
        = AddQuery_loop UINT64_MOD s.queries_ s.current_query_id_
            ((s.current_query_id_ + 1) % UINT64_MOD) := by
  have hsome := AddQuery_loop_isSome s.queries_ s.current_query_id_ h
  rw [← AddQuery_lookups_isSome] at hsome
  obtain ⟨n, hn⟩ := Option.isSome_iff_exists.mp hsome
  have hm : (s.current_query_id_ + 1) % UINT64_MOD < UINT64_MOD :=
    Nat.mod_lt _ (by decide)
  obtain ⟨h1, h2, h3⟩ := AddQuery_lookups_skipped s.queries_ UINT64_MOD
    s.current_query_id_ _ n hm hn
  have hle : n - 1 ≤ s.queries_.length :=
    skipped_le_length s.queries_ s.current_query_id_ (n - 1) (by omega)
      (fun i hi => h3 i (by omega))
  have hn1 : n ≤ s.queries_.length + 1 := by omega
  exact ⟨AddQuery_returns s batch_id h, ⟨n, hn, h1, hn1⟩,
    AddQuery_loop_fuel s.queries_ UINT64_MOD _ _ n _ hn hn1⟩

/-- C21, on a state in which id 0 is outstanding and the counter is 0: the
loop looks up id 0, skips it, looks up id 1 and inserts it, two lookups for
one entry in `queries_`. -/
theorem AddQuery_terminates_witness :
    AddQuery { scenarioAdded with current_query_id_ := 0 } 5
      = some (1, { scenarioAdded with current_query_id_ := 2,
                                      queries_ := [(1, 5), (0, 3)] })
    ∧ AddQuery_lookups UINT64_MOD scenarioAdded.queries_ 0 1 = some 2
    ∧ ∃ query_id s1,
        AddQuery { scenarioAdded with current_query_id_ := 0 } 5
          = some (query_id, s1) :=
  ⟨rfl, rfl,
   (AddQuery_terminates { scenarioAdded with current_query_id_ := 0 } 5
      (by decide)).1⟩

/-! ## Heights -/

theorem processHeights_mapErase (heightOf : BlockHash → Nat) (k : Nat)
    (m : List (Account × SyncInfo)) (h : processHeights heightOf m) :
    processHeights heightOf (mapErase k m) := by
  intro a it hfind
  by_cases ha : a = k
  · rw [ha, mapFind_mapErase_self] at hfind; cases hfind
  · rw [mapFind_mapErase_ne _ _ _ ha] at hfind
    exact h a it hfind

theorem processHeights_mapModify (heightOf : BlockHash → Nat) (k : Nat)
    (f : SyncInfo → SyncInfo) (m : List (Account × SyncInfo))
    (h : processHeights heightOf m)
    (hf : ∀ it, mapFind k m = some it → (f it).status_ = SyncStatus.PROCESS →
      heightOf (f it).current_ = (f it).height_) :
    processHeights heightOf (mapModify k f m) := by
  intro a it hfind
  by_cases ha : a = k
  · rw [ha, mapFind_mapModify_self] at hfind
    cases hk : mapFind k m with
    | none => rw [hk] at hfind; cases hfind
    | some j =>
      rw [hk] at hfind
      cases hfind
      exact hf j hk
  · rw [mapFind_mapModify_ne _ _ _ _ ha] at hfind
    exact h a it hfind

/-- `Add` keeps every entry in `PROCESS` at the height of its block. -/
theorem Add_processHeights (heightOf : BlockHash → Nat) (s s1 : Syncer)
    (account : Account) (height : Nat) (previous : BlockHash) (stat : Bool)
    (batch_id : Nat)
    (h : Add s account height previous stat batch_id = some s1)
    (hs : processHeights heightOf s.syncs_) :
    processHeights heightOf s1.syncs_ := by
  cases hf : mapFind account s.syncs_ with
  | some info =>
    rw [Add_pending _ _ _ _ _ _ info hf] at h
    cases h; exact hs
  | none =>
    obtain ⟨query_id, current, _, hs1⟩ := Add_eq _ _ _ _ _ _ _ hf h
    rw [hs1]
    intro a it hfind hst
    by_cases ha : account = a
    · simp only [mapFind, ha, if_true, Option.some.injEq] at hfind
      rw [← hfind] at hst
      simp [newInfo] at hst
    · simp only [mapFind, ha, if_false] at hfind
      exact hs a it hfind hst

/-- `ProcessorCallback` keeps every entry in `PROCESS` at the height of its
block. -/
theorem ProcessorCallback_processHeights (heightOf : BlockHash → Nat)
    (node : Node) (s s1 : Syncer) (result : BlockProcessResult) (block : Block)
    (h : ProcessorCallback node s result block = some s1)
    (hs : processHeights heightOf s.syncs_) :
    processHeights heightOf s1.syncs_ := by
  rcases ProcessorCallback_cases node s s1 result block h with
    e | ⟨it, _, _, _, hc⟩
  · rw [e]; exact hs
  · rcases hc with ⟨_, hq⟩ | ⟨_, _, s2, hq, hr⟩ | ⟨_, _, hq⟩ | ⟨_, _, e⟩
    · obtain ⟨_, _, _, e⟩ := BlockQuery__eq _ _ _ _ _ hq
      rw [e]
      exact processHeights_mapModify _ _ _ _ hs
        (fun i _ hp => by simp [reverted] at hp)
    · obtain ⟨_, _, _, e⟩ := BlockQuery__eq _ _ _ _ _ hq
      have h2 : processHeights heightOf s2.syncs_ := by
        rw [e]
        exact processHeights_mapModify _ _ _ _ hs
          (fun i _ hp => by simp [advanced] at hp)
      exact SyncRelated_rel
        (fun a b => processHeights heightOf a.syncs_ →
          processHeights heightOf b.syncs_)
        (fun _ ha => ha) (fun _ _ _ hab hbc ha => hbc (hab ha))
        (fun a account height previous batch_id b hadd ha =>
          Add_processHeights heightOf a b account height previous false
            batch_id hadd ha)
        node s2 s1 block it.batch_id_ hr h2
    · obtain ⟨_, _, _, e⟩ := BlockQuery_hash_eq _ _ _ _ _ hq
      rw [e]
      exact processHeights_mapErase _ _ _ hs
    · rw [e]
      exact processHeights_mapErase _ _ _ hs

/-- Every call that satisfies the assertions keeps every entry in `PROCESS`
at the height of its block. -/
theorem step_processHeights (heightOf : BlockHash → Nat) (s s1 : Syncer)
    (op : Op) (hok : op.asserted heightOf s) (h : step s op = some s1)
    (hs : processHeights heightOf s.syncs_) :
    processHeights heightOf s1.syncs_ := by
  cases op with
  | Add account height previous stat batch_id =>
    exact Add_processHeights heightOf _ _ _ _ _ _ _ h hs
  | AddQuery batch_id =>
    simp only [step, Option.map_eq_some'] at h
    obtain ⟨r, hr, e⟩ := h
    obtain ⟨_, e1, _⟩ := AddQuery_eq s r.2 batch_id r.1 hr
    rw [← e, e1]; exact hs
  | Erase account =>
    simp only [step, Option.some.injEq] at h
    rw [← h]; unfold Erase
    split
    · exact processHeights_mapErase _ _ _ hs
    · exact hs
  | EraseQuery query_id =>
    simp only [step, Option.some.injEq] at h
    rw [← h]; exact hs
  | ProcessorCallback node result block =>
    exact ProcessorCallback_processHeights heightOf _ _ _ _ _ h hs
  | ResetStat =>
    simp only [step, Option.some.injEq] at h
    rw [← h]
    intro a it hfind hst
    rw [mapFind_ResetStat] at hfind
    cases hk : mapFind a s.syncs_ with
    | none => rw [hk] at hfind; cases hfind
    | some j =>
      rw [hk] at hfind
      cases hfind
      exact hs a j hk hst
  | QueryCallback account status block =>
    simp only [step, Option.some.injEq] at h
    rw [← h]
    cases hf : mapFind account s.syncs_ with
    | none =>
      rw [QueryCallback_idle]
      · exact hs
      · intro it hit; rw [hf] at hit; cases hit
    | some it =>
      by_cases hst : it.status_ = SyncStatus.QUERY
      swap
      · rw [QueryCallback_idle]
        · exact hs
        · intro i hi; rw [hf] at hi; cases hi; exact hst
      simp only [Op.asserted, hf] at hok
      obtain ⟨_, hsucc⟩ := hok hst
      rcases QueryCallback_syncs s account status block with e | e | ⟨hs1, _⟩
      · rw [e]; exact hs
      · rw [e]; exact processHeights_mapErase _ _ _ hs
      · subst hs1
        rw [QueryCallback_success_eq s account block it hf hst]
        refine processHeights_mapModify heightOf _ _ _ hs ?_
        intro j hj _
        rw [hf] at hj
        cases hj
        obtain ⟨h1, h2⟩ := hsucc rfl
        show heightOf block.Hash = it.height_
        rw [h1]; exact h2.symm

/-- In every state reached by calls that satisfy the assertions, every entry
in `PROCESS` has the height of the block it is waiting for. -/
theorem reachable_processHeights (heightOf : BlockHash → Nat) (s : Syncer)
    (h : ReachableAsserted heightOf s) : processHeights heightOf s.syncs_ := by
  induction h with
  | init => intro a it hfind; simp [Syncer.init, mapFind] at hfind
  | step op _ hok hstep ih => exact step_processHeights heightOf _ _ op hok hstep ih

/-- `QueryCallback` leaves the height of an entry that stays in `syncs_`
alone. -/
theorem QueryCallback_height (s : Syncer) (a : Account) (status : QueryStatus)
    (block : Block) (account : Account) (i i1 : SyncInfo)
    (hi : mapFind account s.syncs_ = some i)
    (hi1 : mapFind account (QueryCallback s a status block).syncs_ = some i1) :
    i1.height_ = i.height_ := by
  rcases QueryCallback_syncs s a status block with e | e | ⟨_, e⟩
  · rw [e, hi] at hi1; cases hi1; rfl
  · rw [e] at hi1
    by_cases ha : account = a
    · rw [ha, mapFind_mapErase_self] at hi1; cases hi1
    · rw [mapFind_mapErase_ne _ _ _ ha, hi] at hi1; cases hi1; rfl
  · rw [e] at hi1
    by_cases ha : account = a
    · rw [ha, mapFind_mapModify_self, ← ha, hi] at hi1
      cases hi1; rfl
    · rw [mapFind_mapModify_ne _ _ _ _ ha, hi] at hi1; cases hi1; rfl

/-- After an accepted `APPEND` of the block an entry is waiting for, the
entry is the advanced one. -/
theorem ProcessorCallback_append_entry (node : Node) (s s1 : Syncer)
    (result : BlockProcessResult) (block : Block) (it : SyncInfo)
    (hop : result.operation_ = BlockOperation.APPEND)
    (hec : result.error_code_ = ErrorCode.SUCCESS
      ∨ result.error_code_ = ErrorCode.BLOCK_PROCESS_EXISTS)
    (hfind : mapFind block.Account s.syncs_ = some it)
    (hst : it.status_ = SyncStatus.PROCESS) (hcur : it.current_ = block.Hash)
    (h : ProcessorCallback node s result block = some s1) :
    mapFind block.Account s1.syncs_ = some (advanced block it) := by
  rw [ProcessorCallback_append_eq node s result block it hop hec hfind hst hcur] at h
  cases hs2 : BlockQuery_
      { s with syncs_ := mapModify block.Account (advanced block) s.syncs_ }
      block.Account (advanced block it) it.batch_id_ with
  | none => simp only [hs2] at h; cases h
  | some s2 =>
    simp only [hs2] at h
    obtain ⟨query_id, current, _, e2⟩ := BlockQuery__eq _ _ _ _ _ hs2
    have hfind2 : mapFind block.Account s2.syncs_ = some (advanced block it) := by
      simp [e2, mapFind_mapModify_self, hfind]
    have hk := SyncRelated_keeps block.Account node s2 s1 block it.batch_id_
      (by simp [hfind2]) h
    rw [hk.1, hfind2]

/-- An accepted `APPEND` of the block an entry is waiting for returns as long
as three more queries can be registered. -/
theorem ProcessorCallback_append_returns (node : Node) (s : Syncer)
    (result : BlockProcessResult) (block : Block) (it : SyncInfo)
    (hop : result.operation_ = BlockOperation.APPEND)
    (hec : result.error_code_ = ErrorCode.SUCCESS
      ∨ result.error_code_ = ErrorCode.BLOCK_PROCESS_EXISTS)
    (hfind : mapFind block.Account s.syncs_ = some it)
    (hst : it.status_ = SyncStatus.PROCESS) (hcur : it.current_ = block.Hash)
    (hlen : s.queries_.length + 3 ≤ UINT64_MOD) :
    ∃ s1, ProcessorCallback node s result block = some s1 := by
  rw [ProcessorCallback_append_eq node s result block it hop hec hfind hst hcur]
  obtain ⟨s2, hs2⟩ := BlockQuery__returns
    { s with syncs_ := mapModify block.Account (advanced block) s.syncs_ }
    block.Account (advanced block it) it.batch_id_ (by simp; omega)
  obtain ⟨query_id, current, _, e2⟩ := BlockQuery__eq _ _ _ _ _ hs2
  simp only [hs2]
  exact SyncRelated_returns node s2 block it.batch_id_ (by simp [e2]; omega)

/-- Over `ProcessorCallback` an entry that stays in `syncs_` keeps its height
unless the call is an accepted `APPEND` of the block the entry is waiting
for. -/
theorem ProcessorCallback_height (node : Node) (s s1 : Syncer)
    (result : BlockProcessResult) (block : Block) (account : Account)
    (i i1 : SyncInfo) (h : ProcessorCallback node s result block = some s1)
    (hi : mapFind account s.syncs_ = some i)
    (hi1 : mapFind account s1.syncs_ = some i1) :
    i1.height_ = i.height_
    ∨ (result.operation_ = BlockOperation.APPEND
      ∧ (result.error_code_ = ErrorCode.SUCCESS
        ∨ result.error_code_ = ErrorCode.BLOCK_PROCESS_EXISTS)
      ∧ block.Account = account ∧ i.status_ = SyncStatus.PROCESS
      ∧ i.current_ = block.Hash) := by
  by_cases ha : account = block.Account
  swap
  · have := ProcessorCallback_others node s s1 result block h account ha i hi
    rw [this] at hi1
    cases hi1; exact Or.inl rfl
  rcases ProcessorCallback_cases node s s1 result block h with
    e | ⟨it, hit, hst, hcur, hc⟩
  · rw [e, hi] at hi1; cases hi1; exact Or.inl rfl
  · rw [← ha, hi] at hit
    cases hit
    rcases hc with ⟨_, hq⟩ | ⟨hop, hec, _, _, _⟩ | ⟨_, _, hq⟩ | ⟨_, _, e⟩
    · obtain ⟨_, _, _, e⟩ := BlockQuery__eq _ _ _ _ _ hq
      rw [e] at hi1
      simp only at hi1
      rw [ha, mapFind_mapModify_self, ← ha, hi] at hi1
      cases hi1; exact Or.inl rfl
    · exact Or.inr ⟨hop, hec, ha.symm, hst, hcur⟩
    · obtain ⟨_, _, _, e⟩ := BlockQuery_hash_eq _ _ _ _ _ hq
      rw [e] at hi1
      simp only at hi1
      rw [ha, mapFind_mapErase_self] at hi1; cases hi1
    · rw [e] at hi1
      simp only at hi1
      rw [ha, mapFind_mapErase_self] at hi1; cases hi1

/-- C9, as stated, fails: the height is a 64-bit value.  After
`Add (7, 2 ^ 64 - 1, 98)` and `SUCCESS` with the block of hash 99 at height
`2 ^ 64 - 1`, every assertion holding, the accepted `APPEND` of that block
takes the height of the entry from `2 ^ 64 - 1` to 0, and the entry is still
in `syncs_`. -/
theorem height_counterexample :
    ReachableAsserted (fun _ => 2 ^ 64 - 1)
        (QueryCallback wrapAdded 7 QueryStatus.SUCCESS
          (plainBlock 7 99 (2 ^ 64 - 1)))
    ∧ Op.asserted (fun _ => 2 ^ 64 - 1)
        (QueryCallback wrapAdded 7 QueryStatus.SUCCESS
          (plainBlock 7 99 (2 ^ 64 - 1)))
        (Op.ProcessorCallback Node.blank
          { operation_ := BlockOperation.APPEND, error_code_ := ErrorCode.SUCCESS }
          (plainBlock 7 99 (2 ^ 64 - 1)))
    ∧ mapFind 7 (QueryCallback wrapAdded 7 QueryStatus.SUCCESS
          (plainBlock 7 99 (2 ^ 64 - 1))).syncs_
        = some { status_ := SyncStatus.PROCESS, first_ := false, batch_id_ := 3,
                 height_ := 2 ^ 64 - 1, previous_ := 98, current_ := 99 }
    ∧ (step (QueryCallback wrapAdded 7 QueryStatus.SUCCESS
            (plainBlock 7 99 (2 ^ 64 - 1)))
          (Op.ProcessorCallback Node.blank
            { operation_ := BlockOperation.APPEND, error_code_ := ErrorCode.SUCCESS }
            (plainBlock 7 99 (2 ^ 64 - 1)))).map (fun s1 => mapFind 7 s1.syncs_)
        = some (some { status_ := SyncStatus.QUERY, first_ := false,
                       batch_id_ := 3, height_ := 0, previous_ := 99,
                       current_ := 0 }) := by
  have h1 : ReachableAsserted (fun _ => 2 ^ 64 - 1) wrapAdded :=
    ReachableAsserted.step (Op.Add 7 (2 ^ 64 - 1) 98 false 3)
      ReachableAsserted.init trivial (by decide)
  have h2 : Op.asserted (fun _ => 2 ^ 64 - 1) wrapAdded
      (Op.QueryCallback 7 QueryStatus.SUCCESS (plainBlock 7 99 (2 ^ 64 - 1))) := by
    simp [Op.asserted, wrapAdded, mapFind, newInfo, plainBlock]
  exact ⟨ReachableAsserted.step _ h1 h2 rfl, rfl, rfl, rfl⟩

/-- C9, amended: in every state reached by calls that satisfy the assertions
of `QueryCallback`, blocks being identified by their hash, and for every
account whose entry has a height below `2 ^ 64 - 1`: a call of
`QueryCallback` leaves the height of the entry unchanged if the entry is
still in `syncs_`; a call of `ProcessorCallback` that is an accepted `APPEND`
of the block the entry is waiting for returns (as long as three more queries
can be registered) with the entry still in `syncs_` at exactly the height
before plus one; every other call of `ProcessorCallback` leaves the height
unchanged if the entry is still in `syncs_`.  So over both calls the height
afterwards is at least the height before, and where it differs it is the
height before plus one. -/
theorem height_step (heightOf : BlockHash → Nat) (s : Syncer) (op : Op)
    (account : Account) (i : SyncInfo)
    (hreach : ReachableAsserted heightOf s) (hok : op.asserted heightOf s)
    (hi : mapFind account s.syncs_ = some i)
    (hwrap : i.height_ + 1 < UINT64_MOD) :
    (∀ a status block s1 i1, op = Op.QueryCallback a status block →
        step s op = some s1 → mapFind account s1.syncs_ = some i1 →
        i1.height_ = i.height_)
    ∧ (∀ node result block, op = Op.ProcessorCallback node result block →
        result.operation_ = BlockOperation.APPEND →
        (result.error_code_ = ErrorCode.SUCCESS
          ∨ result.error_code_ = ErrorCode.BLOCK_PROCESS_EXISTS) →
        block.Account = account → i.status_ = SyncStatus.PROCESS →
        i.current_ = block.Hash →
        (s.queries_.length + 3 ≤ UINT64_MOD → ∃ s1, step s op = some s1)
        ∧ ∀ s1, step s op = some s1 →
            ∃ i1, mapFind account s1.syncs_ = some i1
              ∧ i1.height_ = i.height_ + 1)
    ∧ (∀ node result block s1 i1, op = Op.ProcessorCallback node result block →
        ¬ (result.operation_ = BlockOperation.APPEND
          ∧ (result.error_code_ = ErrorCode.SUCCESS
            ∨ result.error_code_ = ErrorCode.BLOCK_PROCESS_EXISTS)
          ∧ block.Account = account ∧ i.status_ = SyncStatus.PROCESS
          ∧ i.current_ = block.Hash) →
        step s op = some s1 → mapFind account s1.syncs_ = some i1 →
        i1.height_ = i.height_)
    ∧ (∀ s1 i1, ((∃ a status block, op = Op.QueryCallback a status block)
          ∨ ∃ node result block, op = Op.ProcessorCallback node result block) →
        step s op = some s1 → mapFind account s1.syncs_ = some i1 →
        i.height_ ≤ i1.height_
        ∧ (i1.height_ ≠ i.height_ → i1.height_ = i.height_ + 1)) := by
  have hJ := reachable_processHeights heightOf s hreach
  have hq : ∀ a status block s1 i1, op = Op.QueryCallback a status block →
      step s op = some s1 → mapFind account s1.syncs_ = some i1 →
      i1.height_ = i.height_ := by
    intro a status block s1 i1 ho hstep hi1
    subst ho
    simp only [step, Option.some.injEq] at hstep
    rw [← hstep] at hi1
    exact QueryCallback_height s a status block account i i1 hi hi1
  have hadv : ∀ node result block, op = Op.ProcessorCallback node result block →
      result.operation_ = BlockOperation.APPEND →
      (result.error_code_ = ErrorCode.SUCCESS
        ∨ result.error_code_ = ErrorCode.BLOCK_PROCESS_EXISTS) →
      block.Account = account → i.status_ = SyncStatus.PROCESS →
      i.current_ = block.Hash →
      ∀ s1, step s op = some s1 →
        ∃ i1, mapFind account s1.syncs_ = some i1
          ∧ i1.height_ = i.height_ + 1 := by
    intro node result block ho hop hec ha hst hcur s1 hstep
    subst ho
    subst ha
    simp only [step] at hstep
    have hblock : block.Height = heightOf block.Hash := hok
    have hheight : heightOf block.Hash = i.height_ := by
      rw [← hcur]; exact hJ _ i hi hst
    refine ⟨_, ProcessorCallback_append_entry node s s1 result block i hop hec
      hi hst hcur hstep, ?_⟩
    show (block.Height + 1) % UINT64_MOD = i.height_ + 1
    rw [hblock, hheight, Nat.mod_eq_of_lt hwrap]
  have hkeep : ∀ node result block s1 i1,
      op = Op.ProcessorCallback node result block →
      ¬ (result.operation_ = BlockOperation.APPEND
        ∧ (result.error_code_ = ErrorCode.SUCCESS
          ∨ result.error_code_ = ErrorCode.BLOCK_PROCESS_EXISTS)
        ∧ block.Account = account ∧ i.status_ = SyncStatus.PROCESS
        ∧ i.current_ = block.Hash) →
      step s op = some s1 → mapFind account s1.syncs_ = some i1 →
      i1.height_ = i.height_ := by
    intro node result block s1 i1 ho hn hstep hi1
    subst ho
    simp only [step] at hstep
    rcases ProcessorCallback_height node s s1 result block account i i1 hstep
      hi hi1 with e | hc
    · exact e
    · exact absurd hc hn
  refine ⟨hq, ?_, hkeep, ?_⟩
  · intro node result block ho hop hec ha hst hcur
    refine ⟨?_, hadv node result block ho hop hec ha hst hcur⟩
    intro hlen
    subst ho
    subst ha
    exact ProcessorCallback_append_returns node s result block i hop hec hi
      hst hcur hlen
  · intro s1 i1 hops hstep hi1
    rcases hops with ⟨a, status, block, ho⟩ | ⟨node, result, block, ho⟩
    · rw [hq a status block s1 i1 ho hstep hi1]
      exact ⟨Nat.le_refl _, fun hne => absurd rfl hne⟩
    · by_cases hc : result.operation_ = BlockOperation.APPEND
          ∧ (result.error_code_ = ErrorCode.SUCCESS
            ∨ result.error_code_ = ErrorCode.BLOCK_PROCESS_EXISTS)
          ∧ block.Account = account ∧ i.status_ = SyncStatus.PROCESS
          ∧ i.current_ = block.Hash
      · obtain ⟨hop, hec, ha, hst, hcur⟩ := hc
        obtain ⟨j, hj, hh⟩ := hadv node result block ho hop hec ha hst hcur s1 hstep
        rw [hj] at hi1
        cases hi1
        rw [hh]
        exact ⟨Nat.le_succ _, fun _ => rfl⟩
      · rw [hkeep node result block s1 i1 ho hc hstep hi1]
        exact ⟨Nat.le_refl _, fun hne => absurd rfl hne⟩

/-- C9 amended, on scenario 1: after `Add (7, 0, zero)` and `SUCCESS` with the
block of hash 99 at height 0, the accepted `APPEND` of that block returns and
leaves the entry of account 7 at height 1. -/
theorem height_step_witness :
    ∃ s1, step (QueryCallback scenarioAdded 7 QueryStatus.SUCCESS
          (plainBlock 7 99 0))
        (Op.ProcessorCallback Node.blank
          { operation_ := BlockOperation.APPEND, error_code_ := ErrorCode.SUCCESS }
          (plainBlock 7 99 0)) = some s1
      ∧ ∃ i1, mapFind 7 s1.syncs_ = some i1
          ∧ i1.height_ = scenarioProcessing.height_ + 1 := by
  have h1 : ReachableAsserted (fun _ => 0) scenarioAdded :=
    ReachableAsserted.step (Op.Add 7 0 0 true 3) ReachableAsserted.init trivial rfl
  have h2 : Op.asserted (fun _ => 0) scenarioAdded
      (Op.QueryCallback 7 QueryStatus.SUCCESS (plainBlock 7 99 0)) := by
    simp [Op.asserted, scenarioAdded, mapFind, newInfo, plainBlock]
  have h := (height_step (fun _ => 0)
    (QueryCallback scenarioAdded 7 QueryStatus.SUCCESS (plainBlock 7 99 0))
    (Op.ProcessorCallback Node.blank
      { operation_ := BlockOperation.APPEND, error_code_ := ErrorCode.SUCCESS }
      (plainBlock 7 99 0))
    7 scenarioProcessing (ReachableAsserted.step _ h1 h2 rfl)
    rfl rfl (by decide)).2.1 Node.blank
      { operation_ := BlockOperation.APPEND, error_code_ := ErrorCode.SUCCESS }
      (plainBlock 7 99 0) rfl rfl (Or.inl rfl) rfl rfl rfl
  obtain ⟨s1, hs1⟩ := h.1 (by decide)
  exact ⟨s1, hs1, h.2 s1 hs1⟩

end rai
